import Mathlib

/-!
# The evaluation core of the Scheme interpreter (`src/eval.c`, `src/activation.h`)

A shallow embedding of the evaluator.  Activations live in a heap addressed by
index (a C pointer to an activation is the index of that activation), the
static variables of `eval.c` are the fields of `Runtime`, and a call of
`fatal_error` ends the evaluation with the message it was given.  Recursion of
`scheme_eval` is bounded by a fuel argument.
-/

namespace Scheme

/-- The constant `MAXIMUM_CALL_DEPTH` of `eval.c`: the number of slots of `activation_stack`. -/
def MAXIMUM_CALL_DEPTH : Nat := 128

/-- The constant `MAXIMUM_NATIVE_CALL_ARGS` of `eval.c`: the size of the native argument buffer. -/
def MAXIMUM_NATIVE_CALL_ARGS : Nat := 16

/-- Modelled from the spec: the tagged expression type `sexp` of the absent `types.h`
(self-evaluating atoms, symbol, pair, empty list, closure, native procedure), with the
fields `eval.c` reads.  A closure points to its defining activation by heap index, a
native procedure names its function pointer.  `NULL` is the C null pointer, which
`eval.c` uses as the initial value of `last_result`. -/
inductive Sexp where
  | number (value : Int)
  | boolean (value : Bool)
  | string (value : String)
  | symbol (symbol_value : String)
  | empty
  | cons (car cdr : Sexp)
  | proc (arity : Nat) (arguments body : Sexp) (activation : Nat)
  | native_proc (native_arity : Nat) (function_pointer : String)
  | NULL
  deriving DecidableEq, Repr

/-- Modelled from the spec: `sexp_extract_symbol` of the absent `types.h`, which succeeds
exactly on a symbol and hands out its name. -/
def sexp_extract_symbol : Sexp → Option String
  | .symbol sym => some sym
  | _ => none

/-- Modelled from the spec: `sexp_extract_cons` of the absent `types.h`, which succeeds
exactly on a pair and hands out its two components. -/
def sexp_extract_cons : Sexp → Option (Sexp × Sexp)
  | .cons car cdr => some (car, cdr)
  | _ => none

/-- Modelled from the spec: `sexp_is_empty` of the absent `types.h`. -/
def sexp_is_empty : Sexp → Bool
  | .empty => true
  | _ => false

/-- Modelled from the spec: the number of iterations of the absent macro `FOR_EACH_LIST`
over a list, which is what `arity++` in its body counts: one per pair, up to the
first tail that is not a pair. -/
def list_length : Sexp → Nat
  | .cons _ cdr => list_length cdr + 1
  | _ => 0

/-- The proper list of the given expressions, as the reader builds it. -/
def list_of : List Sexp → Sexp
  | [] => .empty
  | x :: xs => .cons x (list_of xs)

/-- Expressions `eval_atom` returns unchanged: neither a pair, a symbol, a closure
nor the null pointer. -/
def self_evaluating : Sexp → Bool
  | .number _ => true
  | .boolean _ => true
  | .string _ => true
  | .empty => true
  | .native_proc _ _ => true
  | _ => false

/-- Modelled from the spec: the table `hashtbl` of the absent `hashtbl.h`, a mapping
from symbol to value with unique keys. -/
abbrev hashtbl := List (String × Sexp)

/-- Modelled from the spec: reading a key of a `hashtbl`. -/
def hashtbl_lookup : hashtbl → String → Option Sexp
  | [], _ => none
  | (k, v) :: rest, key => if k = key then some v else hashtbl_lookup rest key

/-- Modelled from the spec: writing a key of a `hashtbl`; an existing key is overwritten
(last write wins), a new key is added. -/
def hashtbl_insert : hashtbl → String → Sexp → hashtbl
  | [], key, value => [(key, value)]
  | (k, v) :: rest, key, value =>
    if k = key then (k, value) :: rest else (k, v) :: hashtbl_insert rest key value

/-- The struct `activation` of `activation.h`: the parent pointer (`none` is `NULL`) and
the bindings.  The debug `name` is never read by `eval.c` and is left out. -/
structure activation where
  parent : Option Nat
  env : hashtbl
  deriving DecidableEq, Repr

/-- The state of the evaluator: the heap of activations handed out by
`gc_allocate_activation`, and the statics `activation_index`, `activation_stack` and
`global_activation` of `eval.c`. -/
structure Runtime where
  heap : List activation
  activation_index : Nat
  activation_stack : List (Option Nat)
  global_activation : Nat
  deriving DecidableEq, Repr

/-- How an evaluation ends when it does not return: `fatal_error` and `PANIC` with
their message, a failed `assert` with its condition, a store past the end of
`activation_stack` (undefined behaviour in C) with the index stored at, a use of the
null pointer as an expression, or the fuel of the model running out. -/
inductive Fatal where
  | fatal_error (message : String)
  | PANIC (message : String)
  | assert_failed (condition : String)
  | out_of_bounds (index : Nat)
  | null_dereference
  | out_of_fuel
  deriving DecidableEq, Repr

/-- Modelled from the spec: `gc_allocate_activation` followed by `activation_initialize`
of the absent `gc.c` and `activation.c`: a fresh, empty activation chained to `parent`;
its pointer is the next free heap index. -/
def gc_allocate_activation (σ : Runtime) (parent : Option Nat) : Nat × Runtime :=
  (σ.heap.length, { σ with heap := σ.heap ++ [{ parent := parent, env := [] }] })

/-- Modelled from the spec: `activation_add_binding` of the absent `activation.c`:
inserts or overwrites the binding in this activation only. -/
def activation_add_binding (heap : List activation) (act : Nat) (binding : String)
    (value : Sexp) : List activation :=
  match heap[act]? with
  | none => heap
  | some fr => heap.set act { fr with env := hashtbl_insert fr.env binding value }

/-- The walk of `activation_get_binding` along the parent chain, at most `steps`
activations far. -/
def get_binding_chain : Nat → List activation → Option Nat → String → Option Sexp
  | 0, _, _, _ => none
  | _ + 1, _, none, _ => none
  | steps + 1, heap, some act, binding =>
    match heap[act]? with
    | none => none
    | some fr =>
      match hashtbl_lookup fr.env binding with
      | some value => some value
      | none => get_binding_chain steps heap fr.parent binding

/-- Modelled from the spec: `activation_get_binding` of the absent `activation.c`:
searches this activation, then its ancestors, and returns the first match (`none`
is the return value `false`).  A chain without cycle visits every activation at
most once, so the walk is given as many steps as the heap has activations. -/
def activation_get_binding (heap : List activation) (act : Nat) (binding : String) :
    Option Sexp :=
  get_binding_chain heap.length heap (some act) binding

/-- The walk of `activation_mutate_binding` along the parent chain, at most `steps`
activations far. -/
def mutate_binding_chain :
    Nat → List activation → Option Nat → String → Sexp → Bool × List activation
  | 0, heap, _, _, _ => (false, heap)
  | _ + 1, heap, none, _, _ => (false, heap)
  | steps + 1, heap, some act, binding, value =>
    match heap[act]? with
    | none => (false, heap)
    | some fr =>
      match hashtbl_lookup fr.env binding with
      | some _ => (true, heap.set act { fr with env := hashtbl_insert fr.env binding value })
      | none => mutate_binding_chain steps heap fr.parent binding value

/-- Modelled from the spec: `activation_mutate_binding` of the absent `activation.c`:
searches this activation, then its ancestors, for an existing binding and updates the
first one found in place; the Boolean is the return value, the heap is the memory
after the call. -/
def activation_mutate_binding (heap : List activation) (act : Nat) (binding : String)
    (value : Sexp) : Bool × List activation :=
  mutate_binding_chain heap.length heap (some act) binding value

/-- The nearest activation on the chain from `act` that binds `binding`, at most
`steps` activations far. -/
def binding_owner_chain : Nat → List activation → Option Nat → String → Option Nat
  | 0, _, _, _ => none
  | _ + 1, _, none, _ => none
  | steps + 1, heap, some act, binding =>
    match heap[act]? with
    | none => none
    | some fr =>
      match hashtbl_lookup fr.env binding with
      | some _ => some act
      | none => binding_owner_chain steps heap fr.parent binding

/-- The first activation on the chain starting at `act` that binds `binding`. -/
def binding_owner (heap : List activation) (act : Nat) (binding : String) : Option Nat :=
  binding_owner_chain heap.length heap (some act) binding

/-- A store `activation_stack[index] = value`.  The array has `MAXIMUM_CALL_DEPTH`
slots; a store at index `MAXIMUM_CALL_DEPTH` or beyond is outside the array. -/
def stack_store (σ : Runtime) (index : Nat) (value : Option Nat) : Except Fatal Runtime :=
  if index < MAXIMUM_CALL_DEPTH then
    .ok { σ with activation_stack := σ.activation_stack.set index value }
  else .error (.out_of_bounds index)

/-- The decrement of the `size_t` counter `activation_index` (64 bits wide): zero
wraps around. -/
def size_t_decrement (n : Nat) : Nat :=
  if n = 0 then 2 ^ 64 - 1 else n - 1

/-- The statement `activation_stack[activation_index++] = act`. -/
def stack_push (σ : Runtime) (act : Nat) : Except Fatal Runtime :=
  match stack_store σ σ.activation_index (some act) with
  | .error e => .error e
  | .ok σ1 => .ok { σ1 with activation_index := σ1.activation_index + 1 }

/-- The statement `activation_stack[--activation_index] = NULL` of the `let` form. -/
def stack_pop_predecrement (σ : Runtime) : Except Fatal Runtime :=
  stack_store { σ with activation_index := size_t_decrement σ.activation_index }
    (size_t_decrement σ.activation_index) none

/-- The statement `activation_stack[activation_index--] = NULL` of `eval_call`. -/
def stack_pop_postdecrement (σ : Runtime) : Except Fatal Runtime :=
  match stack_store σ σ.activation_index none with
  | .error e => .error e
  | .ok σ1 => .ok { σ1 with activation_index := size_t_decrement σ1.activation_index }

/-- The type of `scheme_eval` once its fuel is fixed: program, activation, state. -/
abbrev Evaluator := Sexp → Nat → Runtime → Except Fatal (Sexp × Runtime)

/-- The function `eval_atom` of `eval.c`. -/
def eval_atom (atom : Sexp) (act : Nat) (heap : List activation) : Except Fatal Sexp :=
  match atom with
  | .cons _ _ => .error (.assert_failed "!sexp_is_cons(atom)")
  | .proc _ _ _ _ => .error (.assert_failed "!sexp_is_proc(atom)")
  | .NULL => .error .null_dereference
  | .symbol sym =>
    match activation_get_binding heap act sym with
    | some result => .ok result
    | none => .error (.fatal_error ("unbound symbol: " ++ sym))
  | _ => .ok atom

/-- The `define` branch of `eval_fundamental_form`. -/
def form_define (ev : Evaluator) (cdr : Sexp) (act : Nat) (σ : Runtime) :
    Except Fatal (Sexp × Runtime) :=
  match sexp_extract_cons cdr with
  | none => .error (.fatal_error "invalid define fundamental form")
  | some (define_sym, define_value) =>
    match sexp_extract_symbol define_sym with
    | none => .error (.fatal_error "first argument to define must be a symbol")
    | some define_name =>
      match sexp_extract_cons define_value with
      | none => .error (.fatal_error "invalid define fundamental form")
      | some (actual_binding, should_be_empty) =>
        if sexp_is_empty should_be_empty then
          match ev actual_binding act σ with
          | .error e => .error e
          | .ok (binding_value, σ1) =>
            .ok (.empty, { σ1 with heap :=
              activation_add_binding σ1.heap σ1.global_activation define_name binding_value })
        else .error (.fatal_error "too many items in define")

/-- The loop over the binding list in the `let` branch of `eval_fundamental_form`
(the body of `FOR_EACH_LIST(binding_list, binding, ...)`). -/
def let_bindings (ev : Evaluator) (child_act : Nat) : Sexp → Runtime → Except Fatal Runtime
  | .cons binding rest, σ =>
    match sexp_extract_cons binding with
    | none => .error (.fatal_error "invalid let fundamental form")
    | some (binding_name, binding_value) =>
      match sexp_extract_symbol binding_name with
      | none => .error (.fatal_error "non-symbol in let binding")
      | some let_sym =>
        match sexp_extract_cons binding_value with
        | none => .error (.fatal_error "invalid let-binding list")
        | some (actual_binding, should_be_empty) =>
          if sexp_is_empty should_be_empty then
            match ev actual_binding child_act σ with
            | .error e => .error e
            | .ok (value, σ1) =>
              let_bindings ev child_act rest
                { σ1 with heap := activation_add_binding σ1.heap child_act let_sym value }
          else .error (.fatal_error "too many items in let-binding")
  | _, σ => .ok σ

/-- The `let` branch of `eval_fundamental_form`. -/
def form_let (ev : Evaluator) (cdr : Sexp) (act : Nat) (σ : Runtime) :
    Except Fatal (Sexp × Runtime) :=
  match sexp_extract_cons cdr with
  | none => .error (.fatal_error "invalid let fundamental form")
  | some (binding_list, body) =>
    match stack_push (gc_allocate_activation σ (some act)).2 (gc_allocate_activation σ (some act)).1 with
    | .error e => .error e
    | .ok σ1 =>
      match let_bindings ev (gc_allocate_activation σ (some act)).1 binding_list σ1 with
      | .error e => .error e
      | .ok σ2 =>
        match sexp_extract_cons body with
        | none => .error (.fatal_error "invalid let-binding list")
        | some (actual_body, should_be_empty) =>
          if sexp_is_empty should_be_empty then
            match ev actual_body (gc_allocate_activation σ (some act)).1 σ2 with
            | .error e => .error e
            | .ok (body_result, σ3) =>
              match stack_pop_predecrement σ3 with
              | .error e => .error e
              | .ok σ4 => .ok (body_result, σ4)
          else .error (.fatal_error "too many items in let-binding")

/-- The `set!` branch of `eval_fundamental_form`. -/
def form_set (ev : Evaluator) (cdr : Sexp) (act : Nat) (σ : Runtime) :
    Except Fatal (Sexp × Runtime) :=
  match sexp_extract_cons cdr with
  | none => .error (.fatal_error "invalid set! fundamental form")
  | some (set_sym, set_value) =>
    match sexp_extract_symbol set_sym with
    | none => .error (.fatal_error "first argument to define must be a symbol")
    | some set_name =>
      match sexp_extract_cons set_value with
      | none => .error (.fatal_error "invalid set! fundamental form")
      | some (actual_value, should_be_empty) =>
        if sexp_is_empty should_be_empty then
          match ev actual_value act σ with
          | .error e => .error e
          | .ok (value, σ1) =>
            if (activation_mutate_binding σ1.heap act set_name value).1 then
              .ok (.empty,
                { σ1 with heap := (activation_mutate_binding σ1.heap act set_name value).2 })
            else .error (.fatal_error ("unbound symbol: " ++ set_name))
        else .error (.fatal_error "too many items in set!")

/-- The `lambda` branch of `eval_fundamental_form`. -/
def form_lambda (cdr : Sexp) (act : Nat) (σ : Runtime) : Except Fatal (Sexp × Runtime) :=
  match sexp_extract_cons cdr with
  | none => .error (.fatal_error "invalid lambda fundamental form")
  | some (arguments, body) =>
    match sexp_extract_cons body with
    | none => .error (.fatal_error "invalid lambda fundamental form")
    | some (actual_body, should_be_empty) =>
      if sexp_is_empty should_be_empty then
        .ok (.proc (list_length arguments) arguments actual_body act, σ)
      else .error (.fatal_error "too many items in set!")

/-- The `quote` branch of `eval_fundamental_form`. -/
def form_quote (cdr : Sexp) (σ : Runtime) : Except Fatal (Sexp × Runtime) :=
  match sexp_extract_cons cdr with
  | none => .error (.fatal_error "invalid quote fundamental form")
  | some (actual_quote, _) => .ok (actual_quote, σ)

/-- The loop of the `begin` branch of `eval_fundamental_form`
(`FOR_EACH_LIST(cdr, form, last_result = scheme_eval(form, act))`). -/
def begin_forms (ev : Evaluator) (act : Nat) : Sexp → Sexp → Runtime → Except Fatal (Sexp × Runtime)
  | .cons form rest, _, σ =>
    match ev form act σ with
    | .error e => .error e
    | .ok (last_result, σ1) => begin_forms ev act rest last_result σ1
  | _, last_result, σ => .ok (last_result, σ)

/-- The `begin` branch of `eval_fundamental_form`: `last_result` starts as `NULL`. -/
def form_begin (ev : Evaluator) (cdr : Sexp) (act : Nat) (σ : Runtime) :
    Except Fatal (Sexp × Runtime) :=
  begin_forms ev act cdr .NULL σ

/-- The function `eval_fundamental_form` of `eval.c`; `none` is the return value
`false` (not a fundamental form), `some` carries the out-parameter `result`. -/
def eval_fundamental_form (ev : Evaluator) (car cdr : Sexp) (act : Nat) (σ : Runtime) :
    Except Fatal (Option (Sexp × Runtime)) :=
  match sexp_extract_symbol car with
  | none => .ok none
  | some sym =>
    if sym = "define" then (form_define ev cdr act σ).map some
    else if sym = "let" then (form_let ev cdr act σ).map some
    else if sym = "set!" then (form_set ev cdr act σ).map some
    else if sym = "lambda" then (form_lambda cdr act σ).map some
    else if sym = "quote" then (form_quote cdr σ).map some
    else if sym = "begin" then (form_begin ev cdr act σ).map some
    else .ok none

/-- The parameter loop of `eval_call` (the body of the absent macro `FOR_EACH_LIST_2`,
which walks the formal and the actual list in step): each actual parameter is
evaluated in `act`, the frame of the caller, and bound in `child_act`. -/
def bind_parameters (ev : Evaluator) (child_act act : Nat) :
    Sexp → Sexp → Runtime → Except Fatal Runtime
  | .cons formal_param formals, .cons actual_param actuals, σ =>
    match sexp_extract_symbol formal_param with
    | none => .error (.PANIC "function parameter not a symbol?")
    | some param_name =>
      match ev actual_param act σ with
      | .error e => .error e
      | .ok (param_value, σ1) =>
        bind_parameters ev child_act act formals actuals
          { σ1 with heap := activation_add_binding σ1.heap child_act param_name param_value }
  | _, _, σ => .ok σ

/-- The body of `eval_call` after the arity check. -/
def eval_call_body (ev : Evaluator) (arguments body : Sexp) (function_activation : Nat)
    (args : Sexp) (act : Nat) (σ : Runtime) : Except Fatal (Sexp × Runtime) :=
  match stack_push σ function_activation with
  | .error e => .error e
  | .ok σ1 =>
    match stack_push (gc_allocate_activation σ1 (some function_activation)).2
        (gc_allocate_activation σ1 (some function_activation)).1 with
    | .error e => .error e
    | .ok σ2 =>
      match bind_parameters ev (gc_allocate_activation σ1 (some function_activation)).1 act
          arguments args σ2 with
      | .error e => .error e
      | .ok σ3 =>
        match ev body (gc_allocate_activation σ1 (some function_activation)).1 σ3 with
        | .error e => .error e
        | .ok (lambda_result, σ4) =>
          match stack_pop_postdecrement σ4 with
          | .error e => .error e
          | .ok σ5 =>
            match stack_pop_postdecrement σ5 with
            | .error e => .error e
            | .ok σ6 => .ok (lambda_result, σ6)

/-- The function `eval_call` of `eval.c`. -/
def eval_call (ev : Evaluator) (function args : Sexp) (act : Nat) (σ : Runtime) :
    Except Fatal (Sexp × Runtime) :=
  match function with
  | .proc arity arguments body function_activation =>
    if list_length args ≠ arity then .error (.fatal_error "called function with wrong arity")
    else eval_call_body ev arguments body function_activation args act σ
  | _ => .error (.assert_failed "sexp_is_proc(function)")

/-- The argument loop of `eval_native_call`: `buffer` is the filled part of
`native_call_args`, its length is `idx`. -/
def native_arguments (ev : Evaluator) (act : Nat) :
    Sexp → List Sexp → Runtime → Except Fatal (List Sexp × Runtime)
  | .cons arg rest, buffer, σ =>
    match ev arg act σ with
    | .error e => .error e
    | .ok (value, σ1) =>
      if (buffer ++ [value]).length = MAXIMUM_NATIVE_CALL_ARGS then
        .error (.fatal_error "too many arguments to native function")
      else native_arguments ev act rest (buffer ++ [value]) σ1
  | _, buffer, σ => .ok (buffer, σ)

/-- Modelled from the spec: the native callables behind the function pointers of the
absent `intrinsics.def`.  Each receives the evaluated arguments, never a frame, and
returns a value or ends the run. -/
abbrev Natives := String → List Sexp → Except Fatal Sexp

/-- The function `eval_native_call` of `eval.c`. -/
def eval_native_call (natives : Natives) (ev : Evaluator) (function args : Sexp) (act : Nat)
    (σ : Runtime) : Except Fatal (Sexp × Runtime) :=
  match function with
  | .native_proc native_arity function_pointer =>
    if list_length args ≠ native_arity then
      .error (.fatal_error "called function with wrong arity")
    else
      match native_arguments ev act args [] σ with
      | .error e => .error e
      | .ok (native_call_args, σ1) =>
        match natives function_pointer native_call_args with
        | .error e => .error e
        | .ok result => .ok (result, σ1)
  | _ => .error (.assert_failed "sexp_is_native_proc(function)")

/-- The function `eval_list` of `eval.c`. -/
def eval_list (natives : Natives) (ev : Evaluator) (car cdr : Sexp) (act : Nat) (σ : Runtime) :
    Except Fatal (Sexp × Runtime) :=
  match eval_fundamental_form ev car cdr act σ with
  | .error e => .error e
  | .ok (some result) => .ok result
  | .ok none =>
    match ev car act σ with
    | .error e => .error e
    | .ok (function, σ1) =>
      match function with
      | .proc _ _ _ _ => eval_call ev function cdr act σ1
      | .native_proc _ _ => eval_native_call natives ev function cdr act σ1
      | .NULL => .error .null_dereference
      | _ => .error (.fatal_error "called a non-callable value")

/-- The function `scheme_eval` of `eval.c`, with a bound `fuel` on the depth of its
recursion. -/
def scheme_eval (natives : Natives) : Nat → Evaluator
  | 0, _, _, _ => .error .out_of_fuel
  | fuel + 1, program, act, σ =>
    match program with
    | .cons car cdr => eval_list natives (scheme_eval natives fuel) car cdr act σ
    | atom => (eval_atom atom act σ.heap).map (fun value => (value, σ))

/-- The function `scheme_global_eval` of `eval.c`. -/
def scheme_global_eval (natives : Natives) (fuel : Nat) (program : Sexp) (σ : Runtime) :
    Except Fatal (Sexp × Runtime) :=
  scheme_eval natives fuel program σ.global_activation σ

/-- The function `scheme_initialize` of `eval.c`, run on the zero-initialised statics:
it allocates the global activation, pushes it, and binds every intrinsic of the
absent `intrinsics.def` (given here as name and arity) to its native procedure. -/
def scheme_initialize (intrinsics : List (String × Nat)) : Runtime :=
  { heap := [{ parent := none,
               env := intrinsics.foldl
                 (fun env entry => hashtbl_insert env entry.1 (.native_proc entry.2 entry.1)) [] }],
    activation_index := 1,
    activation_stack := (List.replicate MAXIMUM_CALL_DEPTH none).set 0 (some 0),
    global_activation := 0 }

/-- The state left by `scheme_initialize` when `intrinsics.def` lists no intrinsic: the
state in which the first top-level form is evaluated. -/
def initial_runtime : Runtime := scheme_initialize []

/-- The state left by `scheme_initialize` when `intrinsics.def` lists the single intrinsic
`car` of arity 1. -/
def runtime_with_car : Runtime := scheme_initialize [("car", 1)]

/-- A host without intrinsics: no function pointer is valid. -/
def no_natives : Natives := fun _ _ => .error .null_dereference

/-- The six operator symbols `eval_fundamental_form` compares against with `strcmp`. -/
def fundamental_keywords : List String := ["define", "let", "set!", "lambda", "quote", "begin"]

/-- The state `σ2` keeps what `σ1` has: the same global activation, and every activation
of `σ1` is still at its index with the same parent and with every symbol it bound
still bound (to a possibly different value). -/
def keeps (σ1 σ2 : Runtime) : Prop :=
  σ2.global_activation = σ1.global_activation ∧
  ∀ (i : Nat) (fr1 : activation), σ1.heap[i]? = some fr1 →
    ∃ fr2 : activation, σ2.heap[i]? = some fr2 ∧ fr2.parent = fr1.parent ∧
      ∀ s, (hashtbl_lookup fr1.env s).isSome → (hashtbl_lookup fr2.env s).isSome

/-- Every parent pointer of the heap points to an activation allocated earlier, as it
does when each new activation is chained to one that already exists; such a heap has no
cycle of parent links. -/
def parents_older (heap : List activation) : Prop :=
  ∀ (i : Nat) (fr : activation) (p : Nat), heap[i]? = some fr → fr.parent = some p → p < i

/-- An evaluator all of whose returning calls keep the state they started from. -/
def keeping (ev : Evaluator) : Prop :=
  ∀ program act σ value σ1, ev program act σ = .ok (value, σ1) → keeps σ σ1

/-- The form made of `depth` nested `(let () ...)` around `body`. -/
def nested_lets : Nat → Sexp → Sexp
  | 0, body => body
  | depth + 1, body => list_of [.symbol "let", .empty, nested_lets depth body]

/-- The state left by `scheme_initialize` when `intrinsics.def` lists the single intrinsic
`sixteen` of arity 16, as many arguments as `native_call_args` has slots. -/
def runtime_with_sixteen : Runtime := scheme_initialize [("sixteen", 16)]

/-- The frame stack of `σ2` has the depth of `σ1` and the same entries below that depth. -/
def balanced (σ1 σ2 : Runtime) : Prop :=
  σ2.activation_index = σ1.activation_index ∧
  ∀ i : Nat, i < σ1.activation_index → σ2.activation_stack[i]? = σ1.activation_stack[i]?

/-- An evaluator all of whose returning calls leave the frame stack balanced. -/
def balancing (ev : Evaluator) : Prop :=
  ∀ program act σ value σ1, ev program act σ = .ok (value, σ1) → balanced σ σ1

/-- What the spec says of the arguments of a call: each is evaluated in `act`, one after
the other from the left, each in the state the one before it left; the result is the
list of the values in the order of the arguments. -/
def evaluate_in_order (ev : Evaluator) (act : Nat) :
    List Sexp → Runtime → Except Fatal (List Sexp × Runtime)
  | [], σ => .ok ([], σ)
  | x :: xs, σ =>
    match ev x act σ with
    | .error e => .error e
    | .ok (value, σ1) =>
      match evaluate_in_order ev act xs σ1 with
      | .error e => .error e
      | .ok (values, σ2) => .ok (value :: values, σ2)

/-- A state met inside the body of a top-level `let`: the global activation binds n to 10
and a to 5; the frame of the let, which is the current frame, binds n to 20 and a to 7. -/
def runtime_inside_let : Runtime :=
  { heap := [{ parent := none, env := [("n", .number 10), ("a", .number 5)] },
             { parent := some 0, env := [("n", .number 20), ("a", .number 7)] }],
    activation_index := 2,
    activation_stack :=
      ((List.replicate MAXIMUM_CALL_DEPTH none).set 0 (some 0)).set 1 (some 1),
    global_activation := 0 }

/-! ## The binding table -/

theorem hashtbl_lookup_insert_same (env : hashtbl) (key : String) (value : Sexp) :
    hashtbl_lookup (hashtbl_insert env key value) key = some value := by
  induction env with
  | nil => simp [hashtbl_insert, hashtbl_lookup]
  | cons kv rest ih =>
    obtain ⟨k, w⟩ := kv
    by_cases h : k = key
    · simp [hashtbl_insert, hashtbl_lookup, h]
    · simp [hashtbl_insert, hashtbl_lookup, h, ih]

theorem hashtbl_lookup_insert_other (env : hashtbl) (key other : String) (value : Sexp)
    (h : other ≠ key) :
    hashtbl_lookup (hashtbl_insert env key value) other = hashtbl_lookup env other := by
  induction env with
  | nil =>
    have h2 : key ≠ other := fun e => h e.symm
    simp [hashtbl_insert, hashtbl_lookup, h2]
  | cons kv rest ih =>
    obtain ⟨k, w⟩ := kv
    by_cases hk : k = key
    · subst hk
      have h2 : k ≠ other := fun e => h e.symm
      simp [hashtbl_insert, hashtbl_lookup, h2]
    · by_cases ho : k = other
      · subst ho
        simp [hashtbl_insert, hashtbl_lookup, hk]
      · simp [hashtbl_insert, hashtbl_lookup, hk, ho, ih]

theorem hashtbl_lookup_insert_isSome (env : hashtbl) (key other : String) (value : Sexp)
    (h : (hashtbl_lookup env other).isSome) :
    (hashtbl_lookup (hashtbl_insert env key value) other).isSome := by
  by_cases ho : other = key
  · subst ho; simp [hashtbl_lookup_insert_same]
  · rw [hashtbl_lookup_insert_other env key other value ho]; exact h

/-! ## What an evaluation keeps of the state it starts from

Every returning evaluation leaves the global pointer alone and keeps every activation at
its index, with its parent and with every symbol it bound still bound. -/

theorem getElem?_lt_length {α : Type} (l : List α) (i : Nat) (a : α) (h : l[i]? = some a) :
    i < l.length := by
  rcases Nat.lt_or_ge i l.length with h1 | h1
  · exact h1
  · rw [List.getElem?_eq_none h1] at h; cases h

theorem keeps_refl (σ : Runtime) : keeps σ σ :=
  ⟨rfl, fun _ fr1 h => ⟨fr1, h, rfl, fun _ hs => hs⟩⟩

theorem keeps_trans {σ1 σ2 σ3 : Runtime} (h12 : keeps σ1 σ2) (h23 : keeps σ2 σ3) :
    keeps σ1 σ3 := by
  refine ⟨h23.1.trans h12.1, fun i fr1 h => ?_⟩
  obtain ⟨fr2, h2, hp2, hk2⟩ := h12.2 i fr1 h
  obtain ⟨fr3, h3, hp3, hk3⟩ := h23.2 i fr2 h2
  exact ⟨fr3, h3, hp3.trans hp2, fun s hs => hk3 s (hk2 s hs)⟩

theorem keeps_of_eq {σ1 σ2 : Runtime} (hh : σ2.heap = σ1.heap)
    (hg : σ2.global_activation = σ1.global_activation) : keeps σ1 σ2 :=
  ⟨hg, fun _ fr1 h => ⟨fr1, by rw [hh]; exact h, rfl, fun _ hs => hs⟩⟩

theorem keeps_set_env (σ : Runtime) (act : Nat) (fr : activation) (s : String) (v : Sexp)
    (stack : List (Option Nat)) (index : Nat) (h : σ.heap[act]? = some fr) :
    keeps σ ⟨σ.heap.set act { fr with env := hashtbl_insert fr.env s v }, index, stack,
      σ.global_activation⟩ := by
  refine ⟨rfl, fun i fr1 hi => ?_⟩
  have hlt := getElem?_lt_length _ _ _ h
  by_cases hia : act = i
  · subst hia
    rw [h] at hi
    cases hi
    exact ⟨{ fr with env := hashtbl_insert fr.env s v }, by simp [List.getElem?_set, hlt], rfl,
      fun t ht => hashtbl_lookup_insert_isSome _ _ _ _ ht⟩
  · exact ⟨fr1, by simp [List.getElem?_set, hia, hi], rfl, fun _ hs => hs⟩

theorem keeps_add_binding (σ : Runtime) (act : Nat) (s : String) (v : Sexp) :
    keeps σ { σ with heap := activation_add_binding σ.heap act s v } := by
  unfold activation_add_binding
  split
  · exact keeps_refl σ
  · next fr h => exact keeps_set_env σ act fr s v _ _ h

theorem keeps_mutate_chain (σ : Runtime) (s : String) (v : Sexp) :
    ∀ (steps : Nat) (act : Option Nat),
      keeps σ { σ with heap := (mutate_binding_chain steps σ.heap act s v).2 } := by
  intro steps
  induction steps with
  | zero => intro act; exact keeps_refl σ
  | succ n ih =>
    intro act
    cases act with
    | none => exact keeps_refl σ
    | some a =>
      simp only [mutate_binding_chain]
      split
      · exact keeps_refl σ
      · next fr h =>
        split
        · exact keeps_set_env σ a fr s v _ _ h
        · exact ih fr.parent

theorem keeps_mutate_binding (σ : Runtime) (act : Nat) (s : String) (v : Sexp) :
    keeps σ { σ with heap := (activation_mutate_binding σ.heap act s v).2 } :=
  keeps_mutate_chain σ s v _ _

theorem keeps_allocate (σ : Runtime) (parent : Option Nat) :
    keeps σ (gc_allocate_activation σ parent).2 := by
  refine ⟨rfl, fun i fr1 hi => ⟨fr1, ?_, rfl, fun _ hs => hs⟩⟩
  have hlt := getElem?_lt_length _ _ _ hi
  simp [gc_allocate_activation, List.getElem?_append_left hlt, hi]

theorem stack_store_heap {σ σ1 : Runtime} {i : Nat} {v : Option Nat}
    (h : stack_store σ i v = .ok σ1) :
    σ1.heap = σ.heap ∧ σ1.global_activation = σ.global_activation := by
  unfold stack_store at h
  split at h
  · cases h; exact ⟨rfl, rfl⟩
  · cases h

theorem stack_push_heap {σ σ1 : Runtime} {act : Nat} (h : stack_push σ act = .ok σ1) :
    σ1.heap = σ.heap ∧ σ1.global_activation = σ.global_activation := by
  unfold stack_push at h
  split at h
  · cases h
  · next σ2 h2 =>
    cases h
    have h3 := stack_store_heap h2
    exact h3

theorem stack_pop_predecrement_heap {σ σ1 : Runtime} (h : stack_pop_predecrement σ = .ok σ1) :
    σ1.heap = σ.heap ∧ σ1.global_activation = σ.global_activation := by
  unfold stack_pop_predecrement at h
  have h3 := stack_store_heap h
  exact h3

theorem stack_pop_postdecrement_heap {σ σ1 : Runtime}
    (h : stack_pop_postdecrement σ = .ok σ1) :
    σ1.heap = σ.heap ∧ σ1.global_activation = σ.global_activation := by
  unfold stack_pop_postdecrement at h
  split at h
  · cases h
  · next σ2 h2 =>
    cases h
    have h3 := stack_store_heap h2
    exact h3

theorem let_bindings_keeps {ev : Evaluator} (hev : keeping ev) (child_act : Nat) :
    ∀ (bindings : Sexp) (σ σ1 : Runtime),
      let_bindings ev child_act bindings σ = .ok σ1 → keeps σ σ1 := by
  intro bindings
  induction bindings with
  | cons binding rest _ ih =>
    intro σ σ1 h
    simp only [let_bindings] at h
    split at h
    · cases h
    · split at h
      · cases h
      · split at h
        · cases h
        · split at h
          · split at h
            · cases h
            · next value σ2 hv =>
              exact keeps_trans (hev _ _ _ _ _ hv)
                (keeps_trans (keeps_add_binding σ2 _ _ _) (ih _ _ h))
          · cases h
  | _ =>
    intro σ σ1 h
    simp only [let_bindings] at h
    cases h
    exact keeps_refl σ

theorem begin_forms_keeps {ev : Evaluator} (hev : keeping ev) (act : Nat) :
    ∀ (forms last_result : Sexp) (σ : Runtime) (value : Sexp) (σ1 : Runtime),
      begin_forms ev act forms last_result σ = .ok (value, σ1) → keeps σ σ1 := by
  intro forms
  induction forms with
  | cons form rest _ ih =>
    intro last_result σ value σ1 h
    simp only [begin_forms] at h
    split at h
    · cases h
    · next r σ2 hv => exact keeps_trans (hev _ _ _ _ _ hv) (ih _ _ _ _ h)
  | _ =>
    intro last_result σ value σ1 h
    simp only [begin_forms] at h
    cases h
    exact keeps_refl σ

theorem bind_parameters_keeps {ev : Evaluator} (hev : keeping ev) (child_act act : Nat) :
    ∀ (formals actuals : Sexp) (σ σ1 : Runtime),
      bind_parameters ev child_act act formals actuals σ = .ok σ1 → keeps σ σ1 := by
  intro formals
  induction formals with
  | cons formal_param rest _ ih =>
    intro actuals σ σ1 h
    cases actuals with
    | cons actual_param actuals =>
      simp only [bind_parameters] at h
      split at h
      · cases h
      · split at h
        · cases h
        · next value σ2 hv =>
          exact keeps_trans (hev _ _ _ _ _ hv)
            (keeps_trans (keeps_add_binding σ2 _ _ _) (ih _ _ _ h))
    | _ =>
      simp only [bind_parameters] at h
      cases h
      exact keeps_refl σ
  | _ =>
    intro actuals σ σ1 h
    simp only [bind_parameters] at h
    cases h
    exact keeps_refl σ

theorem native_arguments_keeps {ev : Evaluator} (hev : keeping ev) (act : Nat) :
    ∀ (args : Sexp) (buffer : List Sexp) (σ : Runtime) (values : List Sexp) (σ1 : Runtime),
      native_arguments ev act args buffer σ = .ok (values, σ1) → keeps σ σ1 := by
  intro args
  induction args with
  | cons arg rest _ ih =>
    intro buffer σ values σ1 h
    simp only [native_arguments] at h
    split at h
    · cases h
    · next value σ2 hv =>
      split at h
      · cases h
      · exact keeps_trans (hev _ _ _ _ _ hv) (ih _ _ _ _ h)
  | _ =>
    intro buffer σ values σ1 h
    simp only [native_arguments] at h
    cases h
    exact keeps_refl σ

theorem form_define_keeps {ev : Evaluator} (hev : keeping ev) {cdr : Sexp} {act : Nat}
    {σ : Runtime} {value : Sexp} {σ1 : Runtime}
    (h : form_define ev cdr act σ = .ok (value, σ1)) : keeps σ σ1 := by
  unfold form_define at h
  split at h
  · cases h
  · split at h
    · cases h
    · split at h
      · cases h
      · split at h
        · split at h
          · cases h
          · next v σ2 hv =>
            cases h
            exact keeps_trans (hev _ _ _ _ _ hv) (keeps_add_binding σ2 _ _ _)
        · cases h

theorem form_let_keeps {ev : Evaluator} (hev : keeping ev) {cdr : Sexp} {act : Nat}
    {σ : Runtime} {value : Sexp} {σ1 : Runtime}
    (h : form_let ev cdr act σ = .ok (value, σ1)) : keeps σ σ1 := by
  unfold form_let at h
  split at h
  · cases h
  · split at h
    · cases h
    · next σ2 hpush =>
      split at h
      · cases h
      · next σ3 hbind =>
        split at h
        · cases h
        · split at h
          · split at h
            · cases h
            · next v σ4 hv =>
              split at h
              · cases h
              · next σ5 hpop =>
                cases h
                have h1 := stack_push_heap hpush
                have h2 := stack_pop_predecrement_heap hpop
                exact keeps_trans (keeps_allocate σ (some act))
                  (keeps_trans (keeps_of_eq h1.1 h1.2)
                    (keeps_trans (let_bindings_keeps hev _ _ _ _ hbind)
                      (keeps_trans (hev _ _ _ _ _ hv) (keeps_of_eq h2.1 h2.2))))
          · cases h

theorem form_set_keeps {ev : Evaluator} (hev : keeping ev) {cdr : Sexp} {act : Nat}
    {σ : Runtime} {value : Sexp} {σ1 : Runtime}
    (h : form_set ev cdr act σ = .ok (value, σ1)) : keeps σ σ1 := by
  unfold form_set at h
  split at h
  · cases h
  · split at h
    · cases h
    · split at h
      · cases h
      · split at h
        · split at h
          · cases h
          · next v σ2 hv =>
            split at h
            · cases h
              exact keeps_trans (hev _ _ _ _ _ hv) (keeps_mutate_binding σ2 _ _ _)
            · cases h
        · cases h

theorem form_lambda_keeps {cdr : Sexp} {act : Nat} {σ : Runtime} {value : Sexp} {σ1 : Runtime}
    (h : form_lambda cdr act σ = .ok (value, σ1)) : keeps σ σ1 := by
  unfold form_lambda at h
  split at h
  · cases h
  · split at h
    · cases h
    · split at h
      · cases h; exact keeps_refl σ
      · cases h

theorem form_quote_keeps {cdr : Sexp} {σ : Runtime} {value : Sexp} {σ1 : Runtime}
    (h : form_quote cdr σ = .ok (value, σ1)) : keeps σ σ1 := by
  unfold form_quote at h
  split at h
  · cases h
  · cases h; exact keeps_refl σ

theorem except_map_some_ok {α : Type} {r : Except Fatal α} {o : Option α}
    (h : r.map some = .ok o) : ∃ a, o = some a ∧ r = .ok a := by
  cases r with
  | error e => cases h
  | ok a => cases h; exact ⟨a, rfl, rfl⟩

theorem eval_fundamental_form_keeps {ev : Evaluator} (hev : keeping ev) {car cdr : Sexp}
    {act : Nat} {σ : Runtime} {value : Sexp} {σ1 : Runtime}
    (h : eval_fundamental_form ev car cdr act σ = .ok (some (value, σ1))) : keeps σ σ1 := by
  unfold eval_fundamental_form at h
  split at h
  · cases h
  · split at h
    · obtain ⟨a, ha, hr⟩ := except_map_some_ok h
      cases ha; exact form_define_keeps hev hr
    · split at h
      · obtain ⟨a, ha, hr⟩ := except_map_some_ok h
        cases ha; exact form_let_keeps hev hr
      · split at h
        · obtain ⟨a, ha, hr⟩ := except_map_some_ok h
          cases ha; exact form_set_keeps hev hr
        · split at h
          · obtain ⟨a, ha, hr⟩ := except_map_some_ok h
            cases ha; exact form_lambda_keeps hr
          · split at h
            · obtain ⟨a, ha, hr⟩ := except_map_some_ok h
              cases ha; exact form_quote_keeps hr
            · split at h
              · obtain ⟨a, ha, hr⟩ := except_map_some_ok h
                cases ha; exact begin_forms_keeps hev _ _ _ _ _ _ hr
              · cases h

theorem eval_call_body_keeps {ev : Evaluator} (hev : keeping ev) {arguments body : Sexp}
    {function_activation : Nat} {args : Sexp} {act : Nat} {σ : Runtime} {value : Sexp}
    {σ1 : Runtime}
    (h : eval_call_body ev arguments body function_activation args act σ = .ok (value, σ1)) :
    keeps σ σ1 := by
  unfold eval_call_body at h
  split at h
  · cases h
  · next σ2 hpush1 =>
    split at h
    · cases h
    · next σ3 hpush2 =>
      split at h
      · cases h
      · next σ4 hbind =>
        split at h
        · cases h
        · next v σ5 hv =>
          split at h
          · cases h
          · next σ6 hpop1 =>
            split at h
            · cases h
            · next σ7 hpop2 =>
              cases h
              have h1 := stack_push_heap hpush1
              have h2 := stack_push_heap hpush2
              have h3 := stack_pop_postdecrement_heap hpop1
              have h4 := stack_pop_postdecrement_heap hpop2
              exact keeps_trans (keeps_of_eq h1.1 h1.2)
                (keeps_trans (keeps_allocate σ2 (some function_activation))
                  (keeps_trans (keeps_of_eq h2.1 h2.2)
                    (keeps_trans (bind_parameters_keeps hev _ _ _ _ _ _ hbind)
                      (keeps_trans (hev _ _ _ _ _ hv)
                        (keeps_trans (keeps_of_eq h3.1 h3.2) (keeps_of_eq h4.1 h4.2))))))

theorem eval_call_keeps {ev : Evaluator} (hev : keeping ev) {function args : Sexp} {act : Nat}
    {σ : Runtime} {value : Sexp} {σ1 : Runtime}
    (h : eval_call ev function args act σ = .ok (value, σ1)) : keeps σ σ1 := by
  unfold eval_call at h
  split at h
  · split at h
    · cases h
    · exact eval_call_body_keeps hev h
  · cases h

theorem eval_native_call_keeps {natives : Natives} {ev : Evaluator} (hev : keeping ev)
    {function args : Sexp} {act : Nat} {σ : Runtime} {value : Sexp} {σ1 : Runtime}
    (h : eval_native_call natives ev function args act σ = .ok (value, σ1)) : keeps σ σ1 := by
  unfold eval_native_call at h
  split at h
  · split at h
    · cases h
    · split at h
      · cases h
      · next vs σ2 hargs =>
        split at h
        · cases h
        · cases h; exact native_arguments_keeps hev _ _ _ _ _ _ hargs
  · cases h

theorem eval_list_keeps {natives : Natives} {ev : Evaluator} (hev : keeping ev)
    {car cdr : Sexp} {act : Nat} {σ : Runtime} {value : Sexp} {σ1 : Runtime}
    (h : eval_list natives ev car cdr act σ = .ok (value, σ1)) : keeps σ σ1 := by
  unfold eval_list at h
  split at h
  · cases h
  · next r hform => cases h; exact eval_fundamental_form_keeps hev hform
  · split at h
    · cases h
    · next function σ2 hf =>
      split at h
      · exact keeps_trans (hev _ _ _ _ _ hf) (eval_call_keeps hev h)
      · exact keeps_trans (hev _ _ _ _ _ hf) (eval_native_call_keeps hev h)
      · cases h
      · cases h

/-- Every returning call of `scheme_eval` keeps the state it started from. -/
theorem scheme_eval_keeping (natives : Natives) (fuel : Nat) :
    keeping (scheme_eval natives fuel) := by
  induction fuel with
  | zero => intro program act σ value σ1 h; simp [scheme_eval] at h
  | succ n ih =>
    intro program act σ value σ1 h
    cases program with
    | cons car cdr =>
      simp only [scheme_eval] at h
      exact eval_list_keeps ih h
    | _ =>
      simp only [scheme_eval] at h
      cases hr : eval_atom _ act σ.heap with
      | error e => rw [hr] at h; cases h
      | ok a => rw [hr] at h; cases h; exact keeps_refl σ

/-! ## The walks along the parent chain -/

theorem keeps_length {σ1 σ2 : Runtime} (hk : keeps σ1 σ2) : σ1.heap.length ≤ σ2.heap.length := by
  rcases Nat.eq_zero_or_pos σ1.heap.length with h0 | hpos
  · omega
  · have hlt : σ1.heap.length - 1 < σ1.heap.length := by omega
    obtain ⟨fr2, h2, _, _⟩ := hk.2 (σ1.heap.length - 1) (σ1.heap[σ1.heap.length - 1]) (by simp [hlt])
    have := getElem?_lt_length _ _ _ h2
    omega

theorem get_binding_chain_kept {σ1 σ2 : Runtime} (hk : keeps σ1 σ2) (s : String) :
    ∀ (n m : Nat) (act : Option Nat), n ≤ m →
      (get_binding_chain n σ1.heap act s).isSome = true →
      (get_binding_chain m σ2.heap act s).isSome = true := by
  intro n
  induction n with
  | zero => intro m act _ h; simp [get_binding_chain] at h
  | succ n ih =>
    intro m act hnm h
    obtain ⟨m, rfl⟩ : ∃ k, m = k + 1 := ⟨m - 1, by omega⟩
    cases act with
    | none => simp [get_binding_chain] at h
    | some a =>
      simp only [get_binding_chain] at h ⊢
      cases h1 : σ1.heap[a]? with
      | none => rw [h1] at h; simp at h
      | some fr1 =>
        rw [h1] at h
        obtain ⟨fr2, h2, hp, hkeys⟩ := hk.2 a fr1 h1
        rw [h2]
        simp only at h ⊢
        cases hl2 : hashtbl_lookup fr2.env s with
        | some v2 => simp
        | none =>
          cases hl1 : hashtbl_lookup fr1.env s with
          | some v1 =>
            have := hkeys s (by simp [hl1])
            simp [hl2] at this
          | none =>
            rw [hl1] at h
            simp only at h ⊢
            rw [hp]
            exact ih m fr1.parent (by omega) h

theorem activation_get_binding_kept {σ1 σ2 : Runtime} (hk : keeps σ1 σ2) (act : Nat) (s : String)
    (h : (activation_get_binding σ1.heap act s).isSome = true) :
    (activation_get_binding σ2.heap act s).isSome = true :=
  get_binding_chain_kept hk s _ _ _ (keeps_length hk) h

/-- When the walk finds no binding, the mutation reports failure and changes nothing. -/
theorem mutate_chain_unbound (heap : List activation) (s : String) (v : Sexp) :
    ∀ (n : Nat) (act : Option Nat), get_binding_chain n heap act s = none →
      mutate_binding_chain n heap act s v = (false, heap) ∧
        binding_owner_chain n heap act s = none := by
  intro n
  induction n with
  | zero => intro act _; simp [mutate_binding_chain, binding_owner_chain]
  | succ n ih =>
    intro act h
    cases act with
    | none => simp [mutate_binding_chain, binding_owner_chain]
    | some a =>
      simp only [get_binding_chain, mutate_binding_chain, binding_owner_chain] at h ⊢
      cases h1 : heap[a]? with
      | none => simp
      | some fr =>
        rw [h1] at h
        simp only at h ⊢
        cases hl : hashtbl_lookup fr.env s with
        | some w => rw [hl] at h; simp at h
        | none => rw [hl] at h; simp only at h ⊢; exact ih fr.parent h

/-- When the walk finds a binding, the mutation overwrites it in the first activation that
has one, and the same walk then reads the new value. -/
theorem mutate_chain_bound (heap : List activation) (s : String) (v : Sexp) :
    ∀ (n : Nat) (act : Option Nat), (get_binding_chain n heap act s).isSome = true →
      ∃ (k : Nat) (fr : activation), binding_owner_chain n heap act s = some k ∧
        heap[k]? = some fr ∧ (hashtbl_lookup fr.env s).isSome = true ∧
        mutate_binding_chain n heap act s v =
          (true, heap.set k { fr with env := hashtbl_insert fr.env s v }) ∧
        get_binding_chain n (heap.set k { fr with env := hashtbl_insert fr.env s v }) act s
          = some v := by
  intro n
  induction n with
  | zero => intro act h; simp [get_binding_chain] at h
  | succ n ih =>
    intro act h
    cases act with
    | none => simp [get_binding_chain] at h
    | some a =>
      simp only [get_binding_chain, mutate_binding_chain, binding_owner_chain] at h ⊢
      cases h1 : heap[a]? with
      | none => rw [h1] at h; simp at h
      | some fr =>
        rw [h1] at h
        simp only at h ⊢
        have hlt := getElem?_lt_length _ _ _ h1
        cases hl : hashtbl_lookup fr.env s with
        | some w =>
          refine ⟨a, fr, rfl, h1, by simp [hl], rfl, ?_⟩
          simp [List.getElem?_set, hlt, hashtbl_lookup_insert_same]
        | none =>
          rw [hl] at h
          simp only at h ⊢
          obtain ⟨k, frk, hown, hk, hsome, hmut, hget⟩ := ih fr.parent h
          refine ⟨k, frk, hown, hk, hsome, hmut, ?_⟩
          have hne : k ≠ a := by
            intro e
            subst e
            rw [h1] at hk
            cases hk
            simp [hl] at hsome
          simp only [List.getElem?_set, hne, if_false, h1, hl]
          exact hget

theorem get_binding_chain_none (heap : List activation) (s : String) (n : Nat) :
    get_binding_chain n heap none s = none := by
  cases n <;> rfl

theorem mutate_binding_chain_none (heap : List activation) (s : String) (v : Sexp) (n : Nat) :
    mutate_binding_chain n heap none s v = (false, heap) := by
  cases n <;> rfl

/-- On a heap whose parent pointers all point to older activations, the walk of
`activation_get_binding` from `act` is over after `act + 1` steps: more steps give the
same answer, so the step bound of the model is never what ends a lookup. -/
theorem get_binding_chain_steps_suffice (heap : List activation) (h : parents_older heap)
    (s : String) :
    ∀ (n act : Nat), act < n → ∀ m, n ≤ m →
      get_binding_chain n heap (some act) s = get_binding_chain m heap (some act) s := by
  intro n
  induction n with
  | zero => intro act hact; omega
  | succ n ih =>
    intro act hact m hm
    obtain ⟨m, rfl⟩ : ∃ k, m = k + 1 := ⟨m - 1, by omega⟩
    simp only [get_binding_chain]
    cases h1 : heap[act]? with
    | none => rfl
    | some fr =>
      simp only
      cases hl : hashtbl_lookup fr.env s with
      | some v => rfl
      | none =>
        simp only
        cases hp : fr.parent with
        | none => rw [get_binding_chain_none, get_binding_chain_none]
        | some p =>
          have hlt := h act fr p h1 hp
          exact ih p (by omega) m (by omega)

/-- On a heap whose parent pointers all point to older activations, the walk of
`activation_mutate_binding` from `act` is over after `act + 1` steps. -/
theorem mutate_binding_chain_steps_suffice (heap : List activation) (h : parents_older heap)
    (s : String) (v : Sexp) :
    ∀ (n act : Nat), act < n → ∀ m, n ≤ m →
      mutate_binding_chain n heap (some act) s v = mutate_binding_chain m heap (some act) s v := by
  intro n
  induction n with
  | zero => intro act hact; omega
  | succ n ih =>
    intro act hact m hm
    obtain ⟨m, rfl⟩ : ∃ k, m = k + 1 := ⟨m - 1, by omega⟩
    simp only [mutate_binding_chain]
    cases h1 : heap[act]? with
    | none => rfl
    | some fr =>
      simp only
      cases hl : hashtbl_lookup fr.env s with
      | some w => rfl
      | none =>
        simp only
        cases hp : fr.parent with
        | none => rw [mutate_binding_chain_none, mutate_binding_chain_none]
        | some p =>
          have hlt := h act fr p h1 hp
          exact ih p (by omega) m (by omega)

/-- The heap left by `scheme_initialize` has only the global activation, without parent. -/
theorem parents_older_initial (intrinsics : List (String × Nat)) :
    parents_older ( scheme_initialize intrinsics).heap := by
  intro i fr p h hp
  cases i with
  | zero =>
    simp [ scheme_initialize] at h
    subst h
    cases hp
  | succ i => simp [ scheme_initialize] at h

/-! ## One step of `scheme_eval` on each form -/

theorem list_length_list_of (xs : List Sexp) : list_length (list_of xs) = xs.length := by
  induction xs with
  | nil => rfl
  | cons x xs ih => simp [list_of, list_length, ih]

theorem scheme_eval_self (natives : Natives) (fuel : Nat) (v : Sexp) (act : Nat) (σ : Runtime)
    (h : self_evaluating v = true) : scheme_eval natives (fuel + 1) v act σ = .ok (v, σ) := by
  cases v <;> simp [self_evaluating] at h <;> simp [scheme_eval, eval_atom, Except.map]

theorem scheme_eval_symbol (natives : Natives) (fuel : Nat) (x : String) (act : Nat)
    (σ : Runtime) :
    scheme_eval natives (fuel + 1) (.symbol x) act σ =
      match activation_get_binding σ.heap act x with
      | some result => .ok (result, σ)
      | none => .error (.fatal_error ("unbound symbol: " ++ x)) := by
  simp only [scheme_eval, eval_atom]
  split <;> simp_all [Except.map]

theorem scheme_eval_define (natives : Natives) (fuel : Nat) (cdr : Sexp) (act : Nat)
    (σ : Runtime) :
    scheme_eval natives (fuel + 1) (.cons (.symbol "define") cdr) act σ =
      form_define (scheme_eval natives fuel) cdr act σ := by
  simp only [scheme_eval, eval_list, eval_fundamental_form, sexp_extract_symbol]
  simp
  cases form_define (scheme_eval natives fuel) cdr act σ <;> simp [Except.map]

theorem scheme_eval_let (natives : Natives) (fuel : Nat) (cdr : Sexp) (act : Nat) (σ : Runtime) :
    scheme_eval natives (fuel + 1) (.cons (.symbol "let") cdr) act σ =
      form_let (scheme_eval natives fuel) cdr act σ := by
  simp only [scheme_eval, eval_list, eval_fundamental_form, sexp_extract_symbol]
  simp
  cases form_let (scheme_eval natives fuel) cdr act σ <;> simp [Except.map]

theorem scheme_eval_set (natives : Natives) (fuel : Nat) (cdr : Sexp) (act : Nat) (σ : Runtime) :
    scheme_eval natives (fuel + 1) (.cons (.symbol "set!") cdr) act σ =
      form_set (scheme_eval natives fuel) cdr act σ := by
  simp only [scheme_eval, eval_list, eval_fundamental_form, sexp_extract_symbol]
  simp
  cases form_set (scheme_eval natives fuel) cdr act σ <;> simp [Except.map]

theorem scheme_eval_lambda (natives : Natives) (fuel : Nat) (cdr : Sexp) (act : Nat)
    (σ : Runtime) :
    scheme_eval natives (fuel + 1) (.cons (.symbol "lambda") cdr) act σ =
      form_lambda cdr act σ := by
  simp only [scheme_eval, eval_list, eval_fundamental_form, sexp_extract_symbol]
  simp
  cases form_lambda cdr act σ <;> simp [Except.map]

theorem scheme_eval_quote (natives : Natives) (fuel : Nat) (cdr : Sexp) (act : Nat)
    (σ : Runtime) :
    scheme_eval natives (fuel + 1) (.cons (.symbol "quote") cdr) act σ = form_quote cdr σ := by
  simp only [scheme_eval, eval_list, eval_fundamental_form, sexp_extract_symbol]
  simp
  cases form_quote cdr σ <;> simp [Except.map]

theorem scheme_eval_begin (natives : Natives) (fuel : Nat) (cdr : Sexp) (act : Nat)
    (σ : Runtime) :
    scheme_eval natives (fuel + 1) (.cons (.symbol "begin") cdr) act σ =
      begin_forms (scheme_eval natives fuel) act cdr .NULL σ := by
  simp only [scheme_eval, eval_list, eval_fundamental_form, sexp_extract_symbol]
  simp [form_begin]
  cases begin_forms (scheme_eval natives fuel) act cdr .NULL σ <;> simp [Except.map]

theorem eval_fundamental_form_declines (ev : Evaluator) (car cdr : Sexp) (act : Nat)
    (σ : Runtime) (h : ∀ sym, car = .symbol sym → sym ∉ fundamental_keywords) :
    eval_fundamental_form ev car cdr act σ = .ok none := by
  cases car with
  | symbol sym =>
    have hs := h sym rfl
    simp [fundamental_keywords] at hs
    simp [eval_fundamental_form, sexp_extract_symbol, hs]
  | _ => simp [eval_fundamental_form, sexp_extract_symbol]

/-! ## The frame stack and the newest activations -/

theorem stack_push_ok (σ : Runtime) (act : Nat) (h : σ.activation_index < MAXIMUM_CALL_DEPTH) :
    stack_push σ act = .ok { σ with
      activation_stack := σ.activation_stack.set σ.activation_index (some act),
      activation_index := σ.activation_index + 1 } := by
  simp [stack_push, stack_store, h]

theorem stack_pop_predecrement_mk (heap : List activation) (n : Nat)
    (stack : List (Option Nat)) (g : Nat) (h : n < MAXIMUM_CALL_DEPTH) :
    stack_pop_predecrement ⟨heap, n + 1, stack, g⟩ = .ok ⟨heap, n, stack.set n none, g⟩ := by
  simp [stack_pop_predecrement, stack_store, size_t_decrement, h]

theorem stack_pop_postdecrement_mk (heap : List activation) (n : Nat)
    (stack : List (Option Nat)) (g : Nat) (h : n + 1 < MAXIMUM_CALL_DEPTH) :
    stack_pop_postdecrement ⟨heap, n + 1, stack, g⟩ =
      .ok ⟨heap, n, stack.set (n + 1) none, g⟩ := by
  simp [stack_pop_postdecrement, stack_store, size_t_decrement, h]

theorem add_binding_append_new (heap : List activation) (fr : activation) (s : String)
    (v : Sexp) :
    activation_add_binding (heap ++ [fr]) heap.length s v =
      heap ++ [{ fr with env := hashtbl_insert fr.env s v }] := by
  simp [activation_add_binding]

theorem get_binding_new_frame (heap : List activation) (fr : activation) (x : String) :
    activation_get_binding (heap ++ [fr]) heap.length x =
      match hashtbl_lookup fr.env x with
      | some v => some v
      | none => get_binding_chain heap.length (heap ++ [fr]) fr.parent x := by
  cases hx : hashtbl_lookup fr.env x <;>
    simp only [activation_get_binding, List.length_append, List.length_singleton,
      get_binding_chain, List.getElem?_concat_length, hx]

theorem get_binding_older_frame (heap : List activation) (fr1 fr2 : activation) (x : String) :
    activation_get_binding (heap ++ [fr1] ++ [fr2]) heap.length x =
      match hashtbl_lookup fr1.env x with
      | some v => some v
      | none => get_binding_chain (heap.length + 1) (heap ++ [fr1] ++ [fr2]) fr1.parent x := by
  have h : (heap ++ [fr1] ++ [fr2])[heap.length]? = some fr1 := by
    rw [List.getElem?_append_left (by simp)]
    simp
  cases hx : hashtbl_lookup fr1.env x <;>
    simp only [activation_get_binding, List.length_append, List.length_singleton,
      get_binding_chain, h, hx]

/-! ## Scoping: `let`, `define`, `set!` -/

/-- C1: lexical shadowing by let.  For every symbol x and self-evaluating atoms v1, v2,
in every state with room for two more frames on the frame stack, evaluating
(let ((x v1)) (let ((x v2)) x)) at top level yields v2, and evaluating
(let ((x v1)) (begin (let ((x v2)) x) x)) yields v1: the inner binding is not visible
once the inner let has returned. -/
theorem let_shadowing (natives : Natives) (fuel : Nat) (σ : Runtime) (x : String)
    (v1 v2 : Sexp) (h1 : self_evaluating v1 = true) (h2 : self_evaluating v2 = true)
    (hroom : σ.activation_index + 2 ≤ MAXIMUM_CALL_DEPTH) :
    (scheme_global_eval natives (fuel + 3)
      (list_of [.symbol "let", list_of [list_of [.symbol x, v1]],
        list_of [.symbol "let", list_of [list_of [.symbol x, v2]], .symbol x]]) σ).map Prod.fst
      = .ok v2 ∧
    (scheme_global_eval natives (fuel + 4)
      (list_of [.symbol "let", list_of [list_of [.symbol x, v1]],
        list_of [.symbol "begin",
          list_of [.symbol "let", list_of [list_of [.symbol x, v2]], .symbol x],
          .symbol x]]) σ).map Prod.fst
      = .ok v1 := by
  have hr1 : σ.activation_index < MAXIMUM_CALL_DEPTH := by omega
  have hr2 : σ.activation_index + 1 < MAXIMUM_CALL_DEPTH := by omega
  constructor
  · simp only [scheme_global_eval, list_of, scheme_eval_let, form_let, sexp_extract_cons,
      gc_allocate_activation, let_bindings, sexp_extract_symbol, sexp_is_empty,
      scheme_eval_self natives _ _ _ _ h1, scheme_eval_self natives _ _ _ _ h2,
      stack_push_ok, hr1, hr2, add_binding_append_new, scheme_eval_symbol, if_true,
      get_binding_new_frame, hashtbl_lookup_insert_same, stack_pop_predecrement_mk, Except.map]
  · simp only [scheme_global_eval, list_of, scheme_eval_let, form_let, sexp_extract_cons,
      gc_allocate_activation, let_bindings, sexp_extract_symbol, sexp_is_empty,
      scheme_eval_self natives _ _ _ _ h1, scheme_eval_self natives _ _ _ _ h2,
      stack_push_ok, hr1, hr2, add_binding_append_new, scheme_eval_symbol, if_true,
      scheme_eval_begin, begin_forms, get_binding_older_frame,
      get_binding_new_frame, hashtbl_lookup_insert_same, stack_pop_predecrement_mk, Except.map]

/-- The hypotheses of `let_shadowing` hold in the initial state, with x, 1 and 2. -/
theorem let_shadowing_witness :
    self_evaluating (.number 1) = true ∧ self_evaluating (.number 2) = true ∧
    initial_runtime.activation_index + 2 ≤ MAXIMUM_CALL_DEPTH ∧
    (scheme_global_eval no_natives 3
      (list_of [.symbol "let", list_of [list_of [.symbol "x", .number 1]],
        list_of [.symbol "let", list_of [list_of [.symbol "x", .number 2]], .symbol "x"]])
      initial_runtime).map Prod.fst = .ok (.number 2) ∧
    (scheme_global_eval no_natives 4
      (list_of [.symbol "let", list_of [list_of [.symbol "x", .number 1]],
        list_of [.symbol "begin",
          list_of [.symbol "let", list_of [list_of [.symbol "x", .number 2]], .symbol "x"],
          .symbol "x"]]) initial_runtime).map Prod.fst = .ok (.number 1) :=
  ⟨rfl, rfl, by decide,
    let_shadowing no_natives 0 initial_runtime "x" (.number 1) (.number 2) rfl rfl
      (by decide)⟩

theorem add_binding_eq (heap : List activation) (act : Nat) (fr : activation) (s : String)
    (v : Sexp) (h : heap[act]? = some fr) :
    activation_add_binding heap act s v =
      heap.set act { fr with env := hashtbl_insert fr.env s v } := by
  simp [activation_add_binding, h]

theorem add_binding_get_other (heap : List activation) (act i : Nat) (s : String) (v : Sexp)
    (h : i ≠ act) : (activation_add_binding heap act s v)[i]? = heap[i]? := by
  unfold activation_add_binding
  split
  · rfl
  · have h2 : act ≠ i := fun e => h e.symm
    simp [List.getElem?_set, h2]

theorem add_binding_length (heap : List activation) (act : Nat) (s : String) (v : Sexp) :
    (activation_add_binding heap act s v).length = heap.length := by
  unfold activation_add_binding
  split <;> simp

theorem get_binding_own (heap : List activation) (act : Nat) (fr : activation) (x : String)
    (v : Sexp) (h : heap[act]? = some fr) (hx : hashtbl_lookup fr.env x = some v) :
    activation_get_binding heap act x = some v := by
  have hlt := getElem?_lt_length _ _ _ h
  unfold activation_get_binding
  obtain ⟨n, hn⟩ : ∃ n, heap.length = n + 1 := ⟨heap.length - 1, by omega⟩
  rw [hn]
  simp [get_binding_chain, h, hx]

/-- One evaluation of (define s e): the state left by e with s written in the global
frame, where a lookup of s from the global frame then finds v. -/
theorem define_step (natives : Natives) (fuel : Nat) (σ : Runtime) (f : Nat) (s : String)
    (e v : Sexp) (σ1 : Runtime)
    (hg : σ.global_activation < σ.heap.length)
    (he : scheme_eval natives fuel e f σ = .ok (v, σ1)) :
    scheme_eval natives (fuel + 1) (.cons (.symbol "define") (.cons (.symbol s) (.cons e .empty)))
        f σ =
      .ok (.empty,
        { σ1 with heap := activation_add_binding σ1.heap σ1.global_activation s v }) ∧
    σ1.global_activation = σ.global_activation ∧
    (∃ fr1 : activation, σ1.heap[σ1.global_activation]? = some fr1 ∧
      (activation_add_binding σ1.heap σ1.global_activation s v)[σ1.global_activation]? =
        some { parent := fr1.parent, env := hashtbl_insert fr1.env s v }) ∧
    activation_get_binding (activation_add_binding σ1.heap σ1.global_activation s v)
      σ1.global_activation s = some v := by
  have hk := scheme_eval_keeping natives fuel _ _ _ _ _ he
  obtain ⟨fr1, hfr1, _, _⟩ := hk.2 σ.global_activation (σ.heap[σ.global_activation]) (by simp [hg])
  rw [← hk.1] at hfr1
  have hlt := getElem?_lt_length _ _ _ hfr1
  have hget : (activation_add_binding σ1.heap σ1.global_activation s v)[σ1.global_activation]? =
      some { parent := fr1.parent, env := hashtbl_insert fr1.env s v } := by
    rw [add_binding_eq _ _ fr1 _ _ hfr1]
    simp [List.getElem?_set, hlt]
  refine ⟨?_, hk.1, ⟨fr1, hfr1, hget⟩, ?_⟩
  · simp only [scheme_eval_define, form_define, sexp_extract_cons, sexp_extract_symbol,
      sexp_is_empty, if_true, he]
  · exact get_binding_own _ _ _ s v hget (hashtbl_lookup_insert_same _ _ _)


/-- C2: define always writes the global frame.  In a state whose global activation
exists, for every frame f, symbol s and expression e that evaluates in f to v (leaving
the state σ1), evaluating (define s e) in f returns the empty value; in the final state the
global frame binds s to v, with its parent and all its other bindings as in σ1, whatever
s was bound to before; every other frame is as in σ1, and so are the frame stack and
its depth; a top-level evaluation of s then yields v.  With one free slot on the frame
stack, (let ((y 1)) (define z 5)) followed by top-level z yields 5; and defining s twice
leaves the later value as the one a top-level s yields. -/
theorem define_installs_global (natives : Natives) (fuel : Nat) (σ : Runtime) (f : Nat)
    (s : String) (e v : Sexp) (σ1 : Runtime)
    (hg : σ.global_activation < σ.heap.length)
    (he : scheme_eval natives fuel e f σ = .ok (v, σ1)) :
    (∃ σ2 : Runtime,
      scheme_eval natives (fuel + 1) (list_of [.symbol "define", .symbol s, e]) f σ
        = .ok (.empty, σ2) ∧
      σ2.global_activation = σ.global_activation ∧
      (∃ fr1 fr2 : activation, σ1.heap[σ.global_activation]? = some fr1 ∧
        σ2.heap[σ.global_activation]? = some fr2 ∧ fr2.parent = fr1.parent ∧
        hashtbl_lookup fr2.env s = some v ∧
        ∀ t, t ≠ s → hashtbl_lookup fr2.env t = hashtbl_lookup fr1.env t) ∧
      (∀ i, i ≠ σ.global_activation → σ2.heap[i]? = σ1.heap[i]?) ∧
      σ2.heap.length = σ1.heap.length ∧
      σ2.activation_index = σ1.activation_index ∧
      σ2.activation_stack = σ1.activation_stack ∧
      ∀ fuel2, scheme_global_eval natives (fuel2 + 1) (.symbol s) σ2 = .ok (v, σ2)) ∧
    (σ.activation_index < MAXIMUM_CALL_DEPTH → ∀ fuel1 fuel2, ∃ σ2 : Runtime,
      scheme_global_eval natives (fuel1 + 3)
        (list_of [.symbol "let", list_of [list_of [.symbol "y", .number 1]],
          list_of [.symbol "define", .symbol "z", .number 5]]) σ = .ok (.empty, σ2) ∧
      scheme_global_eval natives (fuel2 + 1) (.symbol "z") σ2 = .ok (.number 5, σ2)) ∧
    (∀ (t : String) (v1 v2 : Sexp), self_evaluating v1 = true → self_evaluating v2 = true →
      ∀ fuel1 fuel2 fuel3, ∃ σ2 σ3 : Runtime,
        scheme_global_eval natives (fuel1 + 2) (list_of [.symbol "define", .symbol t, v1]) σ
          = .ok (.empty, σ2) ∧
        scheme_global_eval natives (fuel2 + 2) (list_of [.symbol "define", .symbol t, v2]) σ2
          = .ok (.empty, σ3) ∧
        scheme_global_eval natives (fuel3 + 1) (.symbol t) σ3 = .ok (v2, σ3)) := by
  refine ⟨?_, ?_, ?_⟩
  · obtain ⟨hev, hglob, ⟨fr1, hfr1, hfr2⟩, hlook⟩ := define_step natives fuel σ f s e v σ1 hg he
    rw [hglob] at hfr1 hfr2 hlook
    refine ⟨_, hev, hglob,
      ⟨fr1, ⟨fr1.parent, hashtbl_insert fr1.env s v⟩, hfr1, ?_, rfl,
        hashtbl_lookup_insert_same _ _ _, fun t ht => hashtbl_lookup_insert_other _ _ _ _ ht⟩,
      ?_, ?_, rfl, rfl, ?_⟩
    · rw [hglob]; exact hfr2
    · intro i hi
      rw [hglob]
      exact add_binding_get_other _ _ _ _ _ hi
    · exact add_binding_length _ _ _ _
    · intro fuel2
      simp only [scheme_global_eval, scheme_eval_symbol, hglob, hlook]
  · intro hroom fuel1 fuel2
    have hself : scheme_eval natives (fuel1 + 1) (.number 5) σ.heap.length
        ⟨σ.heap ++
            [({ parent := some σ.global_activation, env := hashtbl_insert [] "y" (.number 1) } :
              activation)],
          σ.activation_index + 1,
          σ.activation_stack.set σ.activation_index (some σ.heap.length),
          σ.global_activation⟩ = .ok (.number 5, _) := scheme_eval_self natives _ _ _ _ rfl
    obtain ⟨hev, _, _, hlook⟩ := define_step natives _ _ _ "z" _ _ _
      (by simp only [List.length_append, List.length_singleton]; omega) hself
    simp only at hev hlook
    have hev2 : scheme_eval natives (fuel1 + 2) _ _ _ = _ := hev
    refine ⟨⟨activation_add_binding
        (σ.heap ++
          [({ parent := some σ.global_activation, env := hashtbl_insert [] "y" (.number 1) } :
            activation)]) σ.global_activation "z" (.number 5),
      σ.activation_index,
      (σ.activation_stack.set σ.activation_index (some σ.heap.length)).set
        σ.activation_index none,
      σ.global_activation⟩, ?_, ?_⟩
    · simp only [scheme_global_eval, list_of, scheme_eval_let, form_let, sexp_extract_cons,
        gc_allocate_activation, let_bindings, sexp_extract_symbol, sexp_is_empty,
        scheme_eval_self natives _ (.number 1) _ _ rfl, stack_push_ok, hroom,
        add_binding_append_new, if_true, hev2, stack_pop_predecrement_mk]
    · simp only [scheme_global_eval, scheme_eval_symbol, hlook]
  · intro t v1 v2 h1 h2 fuel1 fuel2 fuel3
    obtain ⟨hev1, _, _, _⟩ := define_step natives (fuel1 + 1) σ σ.global_activation t v1 v1 σ hg
      (scheme_eval_self natives _ _ _ _ h1)
    have hg2 : σ.global_activation <
        (activation_add_binding σ.heap σ.global_activation t v1).length := by
      rw [add_binding_length]; exact hg
    obtain ⟨hev2, _, _, hlook⟩ := define_step natives (fuel2 + 1)
      { σ with heap := activation_add_binding σ.heap σ.global_activation t v1 }
      σ.global_activation t v2 v2 _ hg2 (scheme_eval_self natives _ _ _ _ h2)
    exact ⟨_, _, hev1, hev2, by simp only [scheme_global_eval, scheme_eval_symbol, hlook]⟩

/-- The hypotheses of `define_installs_global` hold for (define z 5) at top level of the
initial state, where a top-level z then yields 5. -/
theorem define_installs_global_witness :
    initial_runtime.global_activation < initial_runtime.heap.length ∧
    scheme_eval no_natives 1 (.number 5) 0 initial_runtime
      = .ok (.number 5, initial_runtime) ∧
    ∃ σ2 : Runtime,
      scheme_eval no_natives 2 (list_of [.symbol "define", .symbol "z", .number 5]) 0
        initial_runtime = .ok (.empty, σ2) ∧
      scheme_global_eval no_natives 1 (.symbol "z") σ2 = .ok (.number 5, σ2) := by
  refine ⟨by decide, rfl, ?_⟩
  obtain ⟨σ2, h1, _, _, _, _, _, _, h2⟩ :=
    (define_installs_global no_natives 1 initial_runtime 0 "z" (.number 5) (.number 5)
      initial_runtime (by decide) rfl).1
  exact ⟨σ2, h1, h2 0⟩

theorem mutate_binding_new_frame (heap : List activation) (fr : activation) (s : String)
    (v : Sexp) :
    activation_mutate_binding (heap ++ [fr]) heap.length s v =
      if (hashtbl_lookup fr.env s).isSome then
        (true, heap ++ [{ fr with env := hashtbl_insert fr.env s v }])
      else mutate_binding_chain heap.length (heap ++ [fr]) fr.parent s v := by
  cases hx : hashtbl_lookup fr.env s <;>
    simp [activation_mutate_binding, mutate_binding_chain, hx]

/-- C3 (as stated, refuted): in the state after initialisation the form
(let ((a 1)) (set! a 2) a) does not yield 2; it ends in the fatal error
"too many items in let-binding". -/
theorem let_with_two_body_forms_fails :
    (scheme_global_eval no_natives 10
      (list_of [.symbol "let", list_of [list_of [.symbol "a", .number 1]],
        list_of [.symbol "set!", .symbol "a", .number 2], .symbol "a"])
      initial_runtime).map Prod.fst
      = .error (.fatal_error "too many items in let-binding") ∧
    (scheme_global_eval no_natives 10
      (list_of [.symbol "let", list_of [list_of [.symbol "a", .number 1]],
        list_of [.symbol "set!", .symbol "a", .number 2], .symbol "a"])
      initial_runtime).map Prod.fst
      ≠ .ok (.number 2) := by
  constructor
  · rfl
  · intro h
    have h2 : (scheme_global_eval no_natives 10
      (list_of [.symbol "let", list_of [list_of [.symbol "a", .number 1]],
        list_of [.symbol "set!", .symbol "a", .number 2], .symbol "a"])
      initial_runtime).map Prod.fst
      = .error (.fatal_error "too many items in let-binding") := rfl
    rw [h2] at h
    cases h

/-- C3 (amended): a let takes exactly one body expression.  For every symbol a and
self-evaluating atoms v1, v2, in every state with a free slot on the frame stack,
evaluating (let ((a v1)) (set! a v2) a) at top level ends in the malformed-syntax error
"too many items in let-binding", and evaluating the same two body forms wrapped in a
begin, (let ((a v1)) (begin (set! a v2) a)), yields v2. -/
theorem let_single_body (natives : Natives) (fuel : Nat) (σ : Runtime) (a : String)
    (v1 v2 : Sexp) (h1 : self_evaluating v1 = true) (h2 : self_evaluating v2 = true)
    (hroom : σ.activation_index < MAXIMUM_CALL_DEPTH) :
    scheme_global_eval natives (fuel + 2)
      (list_of [.symbol "let", list_of [list_of [.symbol a, v1]],
        list_of [.symbol "set!", .symbol a, v2], .symbol a]) σ
      = .error (.fatal_error "too many items in let-binding") ∧
    (scheme_global_eval natives (fuel + 4)
      (list_of [.symbol "let", list_of [list_of [.symbol a, v1]],
        list_of [.symbol "begin", list_of [.symbol "set!", .symbol a, v2], .symbol a]]) σ).map
        Prod.fst
      = .ok v2 := by
  constructor
  · simp only [scheme_global_eval, list_of, scheme_eval_let, form_let, sexp_extract_cons,
      gc_allocate_activation, let_bindings, sexp_extract_symbol, sexp_is_empty,
      scheme_eval_self natives _ _ _ _ h1, stack_push_ok, hroom, add_binding_append_new,
      if_true]
    simp
  · simp only [scheme_global_eval, list_of, scheme_eval_let, form_let, sexp_extract_cons,
      gc_allocate_activation, let_bindings, sexp_extract_symbol, sexp_is_empty,
      scheme_eval_self natives _ _ _ _ h1, scheme_eval_self natives _ _ _ _ h2,
      stack_push_ok, hroom, add_binding_append_new, scheme_eval_symbol, if_true,
      scheme_eval_begin, begin_forms, scheme_eval_set, form_set, mutate_binding_new_frame,
      get_binding_new_frame, hashtbl_lookup_insert_same, stack_pop_predecrement_mk, Except.map,
      Option.isSome_some]

/-- The hypotheses of `let_single_body` hold in the initial state, with a, 1 and 2. -/
theorem let_single_body_witness :
    self_evaluating (.number 1) = true ∧ self_evaluating (.number 2) = true ∧
    initial_runtime.activation_index < MAXIMUM_CALL_DEPTH ∧
    scheme_global_eval no_natives 2
      (list_of [.symbol "let", list_of [list_of [.symbol "a", .number 1]],
        list_of [.symbol "set!", .symbol "a", .number 2], .symbol "a"]) initial_runtime
      = .error (.fatal_error "too many items in let-binding") ∧
    (scheme_global_eval no_natives 4
      (list_of [.symbol "let", list_of [list_of [.symbol "a", .number 1]],
        list_of [.symbol "begin", list_of [.symbol "set!", .symbol "a", .number 2],
          .symbol "a"]]) initial_runtime).map Prod.fst
      = .ok (.number 2) :=
  ⟨rfl, rfl, by decide,
    let_single_body no_natives 0 initial_runtime "a" (.number 1) (.number 2) rfl rfl
      (by decide)⟩

/-- C4: set! never creates a binding.  For every frame f, symbol s and expression e that
evaluates in f to v (leaving the state σ1), if s has no binding on the chain from f in
σ1, then evaluating (set! s e) in f ends in the fatal error "unbound symbol: s", and the
call of activation_mutate_binding that precedes it returns false and leaves every
activation as it was: s is still unbound on the chain from f, and every lookup from
every frame (the global frame among them) finds what it found before, so no frame has
gained a binding. -/
theorem set_never_creates (natives : Natives) (fuel : Nat) (σ : Runtime) (f : Nat)
    (s : String) (e v : Sexp) (σ1 : Runtime)
    (he : scheme_eval natives fuel e f σ = .ok (v, σ1))
    (hun : activation_get_binding σ1.heap f s = none) :
    scheme_eval natives (fuel + 1) (list_of [.symbol "set!", .symbol s, e]) f σ
      = .error (.fatal_error ("unbound symbol: " ++ s)) ∧
    activation_mutate_binding σ1.heap f s v = (false, σ1.heap) ∧
    activation_get_binding (activation_mutate_binding σ1.heap f s v).2 f s = none ∧
    ∀ (g : Nat) (t : String),
      activation_get_binding (activation_mutate_binding σ1.heap f s v).2 g t =
        activation_get_binding σ1.heap g t := by
  have hm : activation_mutate_binding σ1.heap f s v = (false, σ1.heap) :=
    (mutate_chain_unbound σ1.heap s v _ _ hun).1
  refine ⟨?_, hm, by rw [hm]; exact hun, fun g t => by rw [hm]⟩
  simp only [list_of, scheme_eval_set, form_set, sexp_extract_cons, sexp_extract_symbol,
    sexp_is_empty, if_true, he, hm]
  simp

/-- The hypotheses of `set_never_creates` hold for (set! never-defined 1) at top level of
the initial state. -/
theorem set_never_creates_witness :
    scheme_eval no_natives 1 (.number 1) 0 initial_runtime
      = .ok (.number 1, initial_runtime) ∧
    activation_get_binding initial_runtime.heap 0 "never-defined" = none ∧
    scheme_eval no_natives 2 (list_of [.symbol "set!", .symbol "never-defined", .number 1]) 0
      initial_runtime = .error (.fatal_error ("unbound symbol: " ++ "never-defined")) ∧
    activation_mutate_binding initial_runtime.heap 0 "never-defined" (.number 1)
      = (false, initial_runtime.heap) :=
  have h := set_never_creates no_natives 1 initial_runtime 0 "never-defined" (.number 1)
    (.number 1) initial_runtime rfl rfl
  ⟨rfl, rfl, h.1, h.2.1⟩

/-- C5: set! mutates exactly the nearest existing binding.  For every frame f on whose
chain s is bound and every expression e that evaluates in f to v (leaving the state σ1),
there is a first frame k on the chain from f that binds s in σ1, and evaluating
(set! s e) in f returns the empty value in the state σ1 with only the entry of s in
frame k overwritten by v: a lookup of s from f then yields v, every other frame is
unchanged (so a binding of s in an outer frame keeps its value), every other binding of
frame k is unchanged, and the frame stack is untouched.  With two free slots on the
frame stack, (let ((a 1)) (begin (let ((a 2)) (set! a 3)) a)) yields 1 and
(let ((a 1)) (begin (set! a 2) a)) yields 2. -/
theorem set_mutates_nearest (natives : Natives) (fuel : Nat) (σ : Runtime) (f : Nat)
    (s : String) (e v : Sexp) (σ1 : Runtime)
    (hb : (activation_get_binding σ.heap f s).isSome = true)
    (he : scheme_eval natives fuel e f σ = .ok (v, σ1)) :
    (∃ (k : Nat) (fr : activation) (σ2 : Runtime),
      binding_owner σ1.heap f s = some k ∧ σ1.heap[k]? = some fr ∧
      (hashtbl_lookup fr.env s).isSome = true ∧
      scheme_eval natives (fuel + 1) (list_of [.symbol "set!", .symbol s, e]) f σ
        = .ok (.empty, σ2) ∧
      σ2 = { σ1 with heap := σ1.heap.set k { fr with env := hashtbl_insert fr.env s v } } ∧
      activation_get_binding σ2.heap f s = some v ∧
      σ2.heap[k]? = some { parent := fr.parent, env := hashtbl_insert fr.env s v } ∧
      (∀ t, t ≠ s → hashtbl_lookup (hashtbl_insert fr.env s v) t = hashtbl_lookup fr.env t) ∧
      (∀ i, i ≠ k → σ2.heap[i]? = σ1.heap[i]?)) ∧
    (σ.activation_index + 2 ≤ MAXIMUM_CALL_DEPTH → ∀ fuel1,
      (scheme_global_eval natives (fuel1 + 5)
        (list_of [.symbol "let", list_of [list_of [.symbol "a", .number 1]],
          list_of [.symbol "begin",
            list_of [.symbol "let", list_of [list_of [.symbol "a", .number 2]],
              list_of [.symbol "set!", .symbol "a", .number 3]],
            .symbol "a"]]) σ).map Prod.fst = .ok (.number 1) ∧
      (scheme_global_eval natives (fuel1 + 4)
        (list_of [.symbol "let", list_of [list_of [.symbol "a", .number 1]],
          list_of [.symbol "begin", list_of [.symbol "set!", .symbol "a", .number 2],
            .symbol "a"]]) σ).map Prod.fst = .ok (.number 2)) := by
  constructor
  · have hk := scheme_eval_keeping natives fuel _ _ _ _ _ he
    have hb1 := activation_get_binding_kept hk f s hb
    obtain ⟨k, fr, hown, hfr, hsome, hmut, hget⟩ := mutate_chain_bound σ1.heap s v _ _ hb1
    have hlt := getElem?_lt_length _ _ _ hfr
    have hm : activation_mutate_binding σ1.heap f s v =
        (true, σ1.heap.set k { fr with env := hashtbl_insert fr.env s v }) := hmut
    refine ⟨k, fr, _, hown, hfr, hsome, ?_, rfl, ?_, ?_,
      fun t ht => hashtbl_lookup_insert_other _ _ _ _ ht, ?_⟩
    · simp only [list_of, scheme_eval_set, form_set, sexp_extract_cons, sexp_extract_symbol,
        sexp_is_empty, if_true, he, hm]
    · simpa [activation_get_binding] using hget
    · simp [List.getElem?_set, hlt]
    · intro i hi
      have hne : k ≠ i := fun e => hi e.symm
      simp [List.getElem?_set, hne]
  · intro hroom fuel1
    have hr1 : σ.activation_index < MAXIMUM_CALL_DEPTH := by omega
    have hr2 : σ.activation_index + 1 < MAXIMUM_CALL_DEPTH := by omega
    have hs1 : ∀ (n : Int) (k : Nat) (act : Nat) (τ : Runtime),
        scheme_eval natives (k + 1) (.number n) act τ = .ok (.number n, τ) :=
      fun n k act τ => scheme_eval_self natives k (.number n) act τ rfl
    constructor
    · simp only [scheme_global_eval, list_of, scheme_eval_let, form_let, sexp_extract_cons,
        gc_allocate_activation, let_bindings, sexp_extract_symbol, sexp_is_empty, hs1,
        stack_push_ok, hr1, hr2, add_binding_append_new, scheme_eval_symbol, if_true,
        scheme_eval_begin, begin_forms, scheme_eval_set, form_set, mutate_binding_new_frame,
        get_binding_older_frame, hashtbl_lookup_insert_same, stack_pop_predecrement_mk,
        Except.map, Option.isSome_some]
    · simp only [scheme_global_eval, list_of, scheme_eval_let, form_let, sexp_extract_cons,
        gc_allocate_activation, let_bindings, sexp_extract_symbol, sexp_is_empty, hs1,
        stack_push_ok, hr1, hr2, add_binding_append_new, scheme_eval_symbol, if_true,
        scheme_eval_begin, begin_forms, scheme_eval_set, form_set, mutate_binding_new_frame,
        get_binding_new_frame, hashtbl_lookup_insert_same, stack_pop_predecrement_mk,
        Except.map, Option.isSome_some]

/-- The hypotheses of `set_mutates_nearest` hold for (set! car 5) at top level of a state
whose global frame binds car. -/
theorem set_mutates_nearest_witness :
    (activation_get_binding runtime_with_car.heap 0 "car").isSome = true ∧
    scheme_eval no_natives 1 (.number 5) 0 runtime_with_car
      = .ok (.number 5, runtime_with_car) ∧
    ∃ σ2 : Runtime,
      scheme_eval no_natives 2 (list_of [.symbol "set!", .symbol "car", .number 5]) 0
        runtime_with_car = .ok (.empty, σ2) ∧
      activation_get_binding σ2.heap 0 "car" = some (.number 5) := by
  refine ⟨rfl, rfl, ?_⟩
  obtain ⟨k, fr, σ2, _, _, _, hev, _, hget, _⟩ :=
    (set_mutates_nearest no_natives 1 runtime_with_car 0 "car" (.number 5)
      (.number 5) runtime_with_car rfl rfl).1
  exact ⟨σ2, hev, hget⟩

theorem get_binding_via_parent (heap : List activation) (fr frp : activation) (p : Nat)
    (x : String) (v : Sexp) (hp : heap[p]? = some frp) (hpar : fr.parent = some p)
    (hnone : hashtbl_lookup fr.env x = none) (hx : hashtbl_lookup frp.env x = some v) :
    activation_get_binding (heap ++ [fr]) heap.length x = some v := by
  have hlt := getElem?_lt_length _ _ _ hp
  obtain ⟨n, hn⟩ : ∃ n, heap.length = n + 1 := ⟨heap.length - 1, by omega⟩
  rw [get_binding_new_frame, hnone, hpar]
  simp only [hn, get_binding_chain, List.getElem?_append_left hlt, hp, hx]

theorem scheme_eval_call_closure (natives : Natives) (fuel : Nat) (car cdr : Sexp) (act : Nat)
    (σ σ1 : Runtime) (arity : Nat) (arguments body : Sexp) (captured : Nat)
    (hkey : ∀ sym, car = .symbol sym → sym ∉ fundamental_keywords)
    (hf : scheme_eval natives fuel car act σ = .ok (.proc arity arguments body captured, σ1)) :
    scheme_eval natives (fuel + 1) (.cons car cdr) act σ =
      eval_call (scheme_eval natives fuel) (.proc arity arguments body captured) cdr act σ1 := by
  simp only [scheme_eval, eval_list, eval_fundamental_form_declines _ car cdr act σ hkey, hf]

theorem scheme_eval_call_native (natives : Natives) (fuel : Nat) (car cdr : Sexp) (act : Nat)
    (σ σ1 : Runtime) (arity : Nat) (function_pointer : String)
    (hkey : ∀ sym, car = .symbol sym → sym ∉ fundamental_keywords)
    (hf : scheme_eval natives fuel car act σ = .ok (.native_proc arity function_pointer, σ1)) :
    scheme_eval natives (fuel + 1) (.cons car cdr) act σ =
      eval_native_call natives (scheme_eval natives fuel) (.native_proc arity function_pointer)
        cdr act σ1 := by
  simp only [scheme_eval, eval_list, eval_fundamental_form_declines _ car cdr act σ hkey, hf]

theorem eval_call_nullary (ev : Evaluator) (formals body : Sexp) (captured act : Nat)
    (σ : Runtime) (hroom : σ.activation_index + 1 < MAXIMUM_CALL_DEPTH) :
    eval_call ev (.proc 0 formals body captured) .empty act σ =
      match ev body σ.heap.length
          ⟨σ.heap ++ [⟨some captured, []⟩], σ.activation_index + 1 + 1,
            (σ.activation_stack.set σ.activation_index (some captured)).set
              (σ.activation_index + 1) (some σ.heap.length),
            σ.global_activation⟩ with
      | .error e => .error e
      | .ok (lambda_result, σ4) =>
        match stack_pop_postdecrement σ4 with
        | .error e => .error e
        | .ok σ5 =>
          match stack_pop_postdecrement σ5 with
          | .error e => .error e
          | .ok σ6 => .ok (lambda_result, σ6) := by
  have hr0 : σ.activation_index < MAXIMUM_CALL_DEPTH := by omega
  cases formals <;>
    simp only [eval_call, list_length, eval_call_body, stack_push_ok, hr0, hroom,
      gc_allocate_activation, bind_parameters, ne_eq, not_true_eq_false, if_false]

/-- The example of a closure that outlives the let which made it, called from the top
level and from inside a let that binds the same name. -/
theorem closure_example (natives : Natives) (fuel : Nat) (σ : Runtime)
    (hg : σ.global_activation < σ.heap.length)
    (hroom : σ.activation_index + 4 ≤ MAXIMUM_CALL_DEPTH) :
    ∃ σ1 : Runtime,
      scheme_global_eval natives (fuel + 3)
        (list_of [.symbol "define", .symbol "f",
          list_of [.symbol "let", list_of [list_of [.symbol "n", .number 10]],
            list_of [.symbol "lambda", .empty, .symbol "n"]]]) σ = .ok (.empty, σ1) ∧
      (scheme_global_eval natives (fuel + 2) (list_of [.symbol "f"]) σ1).map Prod.fst
        = .ok (.number 10) ∧
      (scheme_global_eval natives (fuel + 3)
        (list_of [.symbol "let", list_of [list_of [.symbol "n", .number 20]],
          list_of [.symbol "f"]]) σ1).map Prod.fst = .ok (.number 10) := by
  have hr0 : σ.activation_index < MAXIMUM_CALL_DEPTH := by omega
  have hr1 : σ.activation_index + 1 < MAXIMUM_CALL_DEPTH := by omega
  have hr2 : σ.activation_index + 1 + 1 < MAXIMUM_CALL_DEPTH := by omega
  have hr3 : σ.activation_index + 1 + 1 + 1 < MAXIMUM_CALL_DEPTH := by omega
  -- the let that builds the closure
  have hlet : scheme_eval natives (fuel + 2)
      (list_of [.symbol "let", list_of [list_of [.symbol "n", .number 10]],
        list_of [.symbol "lambda", .empty, .symbol "n"]]) σ.global_activation σ =
      .ok (.proc 0 .empty (.symbol "n") σ.heap.length,
        ⟨σ.heap ++ [⟨some σ.global_activation, hashtbl_insert [] "n" (.number 10)⟩],
          σ.activation_index,
          (σ.activation_stack.set σ.activation_index (some σ.heap.length)).set
            σ.activation_index none,
          σ.global_activation⟩) := by
    simp only [list_of, scheme_eval_let, form_let, sexp_extract_cons,
      gc_allocate_activation, let_bindings, sexp_extract_symbol, sexp_is_empty,
      scheme_eval_self natives _ (.number 10) _ _ rfl, stack_push_ok, hr0,
      add_binding_append_new, if_true, scheme_eval_lambda, form_lambda, list_length,
      stack_pop_predecrement_mk]
  obtain ⟨hdef, _, ⟨frg, hfrg, hfrg2⟩, hlookf⟩ := define_step natives _ _ _ "f" _ _ _ hg hlet
  simp only at hdef hfrg hfrg2 hlookf
  generalize hH : activation_add_binding
    (σ.heap ++ [⟨some σ.global_activation, hashtbl_insert [] "n" (.number 10)⟩])
    σ.global_activation "f" (.proc 0 .empty (.symbol "n") σ.heap.length) = H
    at hdef hfrg2 hlookf
  have hHlen : H.length = σ.heap.length + 1 := by
    rw [← hH, add_binding_length]; simp
  have hHc : H[σ.heap.length]? =
      some ⟨some σ.global_activation, hashtbl_insert [] "n" (.number 10)⟩ := by
    rw [← hH, add_binding_get_other _ _ _ _ _ (by omega)]
    simp
  have hkey : ∀ sym, Sexp.symbol "f" = .symbol sym → sym ∉ fundamental_keywords := by
    intro sym h
    cases h
    decide
  refine ⟨_, hdef, ?_, ?_⟩
  · -- the call (f) at top level
    have hf : scheme_eval natives (fuel + 1) (.symbol "f") σ.global_activation
        ⟨H, σ.activation_index,
          (σ.activation_stack.set σ.activation_index (some σ.heap.length)).set
            σ.activation_index none, σ.global_activation⟩ =
        .ok (.proc 0 .empty (.symbol "n") σ.heap.length,
          ⟨H, σ.activation_index,
            (σ.activation_stack.set σ.activation_index (some σ.heap.length)).set
              σ.activation_index none, σ.global_activation⟩) := by
      simp only [scheme_eval_symbol, hlookf]
    have hn : activation_get_binding (H ++ [⟨some σ.heap.length, []⟩]) H.length "n" =
        some (.number 10) :=
      get_binding_via_parent H _ _ σ.heap.length "n" _ hHc rfl rfl
        (hashtbl_lookup_insert_same _ _ _)
    have hbody := eval_call_nullary (scheme_eval natives (fuel + 1)) .empty (.symbol "n")
      σ.heap.length σ.global_activation
      ⟨H, σ.activation_index,
        (σ.activation_stack.set σ.activation_index (some σ.heap.length)).set
          σ.activation_index none, σ.global_activation⟩ hr1
    simp only [scheme_global_eval, list_of]
    rw [scheme_eval_call_closure natives _ _ _ _ _ _ _ _ _ _ hkey hf, hbody]
    simp only [scheme_eval_symbol, hn, stack_pop_postdecrement_mk, hr1, hr2, Except.map]
  · -- the call (f) inside a let that binds n to 20
    have hlook20 : hashtbl_lookup (hashtbl_insert [] "n" (.number 20)) "f" = none := by
      simp [hashtbl_insert, hashtbl_lookup]
    have hg2 : H[σ.global_activation]? = some ⟨frg.parent, hashtbl_insert frg.env "f"
        (.proc 0 .empty (.symbol "n") σ.heap.length)⟩ := hfrg2
    have hf : activation_get_binding
        (H ++ [⟨some σ.global_activation, hashtbl_insert [] "n" (.number 20)⟩]) H.length "f" =
        some (.proc 0 .empty (.symbol "n") σ.heap.length) :=
      get_binding_via_parent H _ _ σ.global_activation "f" _ hg2 rfl hlook20
        (hashtbl_lookup_insert_same _ _ _)
    have hHc2 : (H ++ [⟨some σ.global_activation, hashtbl_insert [] "n" (.number 20)⟩])[
        σ.heap.length]? =
        some ⟨some σ.global_activation, hashtbl_insert [] "n" (.number 10)⟩ := by
      rw [List.getElem?_append_left (by omega)]
      exact hHc
    have hn : activation_get_binding
        ((H ++ [⟨some σ.global_activation, hashtbl_insert [] "n" (.number 20)⟩]) ++
          [(⟨some σ.heap.length, []⟩ : activation)])
        (H ++ [(⟨some σ.global_activation, hashtbl_insert [] "n" (.number 20)⟩ :
          activation)]).length "n" =
        some (.number 10) :=
      get_binding_via_parent _ ⟨some σ.heap.length, []⟩ _ σ.heap.length "n" _ hHc2 rfl rfl
        (hashtbl_lookup_insert_same _ _ _)
    have hfe : scheme_eval natives (fuel + 1) (.symbol "f") H.length
        ⟨H ++ [⟨some σ.global_activation, hashtbl_insert [] "n" (.number 20)⟩],
          σ.activation_index + 1,
          ((σ.activation_stack.set σ.activation_index (some σ.heap.length)).set
            σ.activation_index none).set σ.activation_index (some H.length),
          σ.global_activation⟩ =
        .ok (.proc 0 .empty (.symbol "n") σ.heap.length,
          ⟨H ++ [⟨some σ.global_activation, hashtbl_insert [] "n" (.number 20)⟩],
            σ.activation_index + 1,
            ((σ.activation_stack.set σ.activation_index (some σ.heap.length)).set
              σ.activation_index none).set σ.activation_index (some H.length),
            σ.global_activation⟩) := by
      simp only [scheme_eval_symbol, hf]
    have hcall := scheme_eval_call_closure natives _ _ .empty _ _ _ _ _ _ _ hkey hfe
    have hbody := eval_call_nullary (scheme_eval natives (fuel + 1)) .empty (.symbol "n")
      σ.heap.length H.length
      ⟨H ++ [⟨some σ.global_activation, hashtbl_insert [] "n" (.number 20)⟩],
        σ.activation_index + 1,
        ((σ.activation_stack.set σ.activation_index (some σ.heap.length)).set
          σ.activation_index none).set σ.activation_index (some H.length),
        σ.global_activation⟩ hr2
    rw [hbody] at hcall
    simp only [scheme_eval_symbol, hn, stack_pop_postdecrement_mk, hr1, hr2, hr3] at hcall
    simp only [scheme_global_eval, list_of, scheme_eval_let, form_let, sexp_extract_cons,
      gc_allocate_activation, let_bindings, sexp_extract_symbol, sexp_is_empty,
      scheme_eval_self natives _ (.number 20) _ _ rfl, stack_push_ok, hr0,
      add_binding_append_new, if_true, hcall, stack_pop_predecrement_mk, Except.map]

/-- C8: arity is exact.  For every closure and every native procedure of arity n, a call
whose operand list has a number of elements different from n ends in the fatal error
"called function with wrong arity": in eval_call, in eval_native_call, and in the
evaluation of any combination whose operator is not a keyword and evaluates to such a
procedure.  In particular the one-parameter closure (lambda (x) x) applied to no
argument and applied to two arguments fails with that error both times. -/
theorem arity_is_exact (natives : Natives) (n : Nat) (operands : List Sexp) (act : Nat)
    (σ : Runtime) (hm : operands.length ≠ n) :
    (∀ (ev : Evaluator) (formals body : Sexp) (captured : Nat),
      eval_call ev (.proc n formals body captured) (list_of operands) act σ =
        .error (.fatal_error "called function with wrong arity")) ∧
    (∀ (ev : Evaluator) (function_pointer : String),
      eval_native_call natives ev (.native_proc n function_pointer) (list_of operands) act σ =
        .error (.fatal_error "called function with wrong arity")) ∧
    (∀ (fuel : Nat) (op : Sexp) (σ0 : Runtime) (formals body : Sexp) (captured : Nat),
      (∀ sym, op = .symbol sym → sym ∉ fundamental_keywords) →
      scheme_eval natives fuel op act σ0 = .ok (.proc n formals body captured, σ) →
      scheme_eval natives (fuel + 1) (.cons op (list_of operands)) act σ0 =
        .error (.fatal_error "called function with wrong arity")) ∧
    (∀ (fuel : Nat) (op : Sexp) (σ0 : Runtime) (function_pointer : String),
      (∀ sym, op = .symbol sym → sym ∉ fundamental_keywords) →
      scheme_eval natives fuel op act σ0 = .ok (.native_proc n function_pointer, σ) →
      scheme_eval natives (fuel + 1) (.cons op (list_of operands)) act σ0 =
        .error (.fatal_error "called function with wrong arity")) ∧
    (∀ fuel : Nat,
      scheme_eval natives (fuel + 2)
        (list_of [list_of [.symbol "lambda", list_of [.symbol "x"], .symbol "x"]]) act σ =
        .error (.fatal_error "called function with wrong arity") ∧
      scheme_eval natives (fuel + 2)
        (list_of [list_of [.symbol "lambda", list_of [.symbol "x"], .symbol "x"],
          .number 1, .number 2]) act σ =
        .error (.fatal_error "called function with wrong arity")) := by
  have hlen : list_length (list_of operands) ≠ n := by
    rw [list_length_list_of]; exact hm
  have hc : ∀ (ev : Evaluator) (formals body : Sexp) (captured : Nat),
      eval_call ev (.proc n formals body captured) (list_of operands) act σ =
        .error (.fatal_error "called function with wrong arity") := by
    intro ev formals body captured
    simp only [eval_call, hlen, ne_eq, not_false_eq_true, if_true]
  have hn : ∀ (ev : Evaluator) (function_pointer : String),
      eval_native_call natives ev (.native_proc n function_pointer) (list_of operands) act σ =
        .error (.fatal_error "called function with wrong arity") := by
    intro ev function_pointer
    simp only [eval_native_call, hlen, ne_eq, not_false_eq_true, if_true]
  refine ⟨hc, hn, ?_, ?_, ?_⟩
  · intro fuel op σ0 formals body captured hkey hop
    rw [scheme_eval_call_closure natives fuel op _ act σ0 σ n formals body captured hkey hop]
    exact hc _ _ _ _
  · intro fuel op σ0 function_pointer hkey hop
    rw [scheme_eval_call_native natives fuel op _ act σ0 σ n function_pointer hkey hop]
    exact hn _ _
  · intro fuel
    have hkey : ∀ sym, list_of [Sexp.symbol "lambda", list_of [.symbol "x"], .symbol "x"] =
        .symbol sym → sym ∉ fundamental_keywords := by
      intro sym h
      simp [list_of] at h
    have hop : scheme_eval natives (fuel + 1)
        (list_of [.symbol "lambda", list_of [.symbol "x"], .symbol "x"]) act σ =
        .ok (.proc 1 (list_of [.symbol "x"]) (.symbol "x") act, σ) := by
      simp only [list_of, scheme_eval_lambda, form_lambda, sexp_extract_cons, sexp_is_empty,
        if_true, list_length]
    constructor
    · have h := scheme_eval_call_closure natives (fuel + 1) _ (list_of []) act σ σ 1 _ _ _
        hkey hop
      simp only [list_of] at h ⊢
      rw [h]
      simp [eval_call, list_length]
    · have h := scheme_eval_call_closure natives (fuel + 1) _
        (list_of [.number 1, .number 2]) act σ σ 1 _ _ _ hkey hop
      simp only [list_of] at h ⊢
      rw [h]
      simp [eval_call, list_length]

/-- The hypothesis of `arity_is_exact` holds for a one-parameter closure called without
argument. -/
theorem arity_is_exact_witness :
    ([] : List Sexp).length ≠ 1 ∧
    eval_call (scheme_eval no_natives 1)
      (.proc 1 (list_of [.symbol "x"]) (.symbol "x") 0) (list_of []) 0 initial_runtime =
      .error (.fatal_error "called function with wrong arity") :=
  ⟨by decide,
    (arity_is_exact no_natives 1 [] 0 initial_runtime (by decide)).1
      (scheme_eval no_natives 1) (list_of [.symbol "x"]) (.symbol "x") 0⟩

/-! ## `quote` and `begin` -/

/-- C9: quote returns its operand unevaluated.  For every expression e, frame f and state
σ, evaluating (quote e) in f returns exactly e and leaves the state (every binding, the
frame stack and its depth) as it was; the quote branch of eval_fundamental_form does so
whatever the evaluator for sub-expressions is, so nothing is evaluated (one unit of fuel
is enough).  In particular (quote (a b)) yields the list of the symbols a and b. -/
theorem quote_returns_operand (natives : Natives) (fuel : Nat) (e : Sexp) (f : Nat)
    (σ : Runtime) :
    scheme_eval natives (fuel + 1) (list_of [.symbol "quote", e]) f σ = .ok (e, σ) ∧
    (∀ ev : Evaluator,
      eval_fundamental_form ev (.symbol "quote") (list_of [e]) f σ = .ok (some (e, σ))) ∧
    scheme_eval natives 1 (list_of [.symbol "quote", list_of [.symbol "a", .symbol "b"]]) f σ
      = .ok (list_of [.symbol "a", .symbol "b"], σ) := by
  refine ⟨?_, ?_, ?_⟩
  · simp only [list_of, scheme_eval_quote, form_quote, sexp_extract_cons]
  · intro ev
    simp [eval_fundamental_form, sexp_extract_symbol, list_of, form_quote, sexp_extract_cons,
      Except.map]
  · simp only [list_of, scheme_eval_quote, form_quote, sexp_extract_cons]

/-- C10 (the code at the failing input): evaluating (begin) in any frame and state
returns the null pointer and leaves the state as it was; no fatal error is raised. -/
theorem empty_begin_returns_null (natives : Natives) (fuel : Nat) (f : Nat) (σ : Runtime) :
    scheme_eval natives (fuel + 1) (list_of [.symbol "begin"]) f σ = .ok (.NULL, σ) := by
  simp only [list_of, scheme_eval_begin, begin_forms]

/-! ## Keywords in operator position -/

theorem except_map_some_ne_none {α : Type} (r : Except Fatal α) :
    r.map some ≠ .ok none := by
  cases r <;> simp [Except.map]

theorem eval_fundamental_form_declines_iff (ev : Evaluator) (car cdr : Sexp) (act : Nat)
    (σ : Runtime) :
    eval_fundamental_form ev car cdr act σ = .ok none ↔
      ∀ sym, car = .symbol sym → sym ∉ fundamental_keywords := by
  constructor
  · intro h sym hcar hmem
    subst hcar
    simp only [fundamental_keywords, List.mem_cons, List.mem_singleton, List.not_mem_nil,
      or_false] at hmem
    rcases hmem with rfl | rfl | rfl | rfl | rfl | rfl <;>
      simp [eval_fundamental_form, sexp_extract_symbol, except_map_some_ne_none] at h
  · exact eval_fundamental_form_declines ev car cdr act σ

theorem scheme_eval_operator_error (natives : Natives) (fuel : Nat) (car cdr : Sexp) (act : Nat)
    (σ : Runtime) (e : Fatal)
    (hkey : ∀ sym, car = .symbol sym → sym ∉ fundamental_keywords)
    (hf : scheme_eval natives fuel car act σ = .error e) :
    scheme_eval natives (fuel + 1) (.cons car cdr) act σ = .error e := by
  simp only [scheme_eval, eval_list, eval_fundamental_form_declines _ car cdr act σ hkey, hf]

/-- C19: keywords cannot be shadowed in operator position.  In every state τ, whatever
the frames bind, a pair whose operator is the symbol define, let, set!, lambda, quote or
begin is evaluated by the branch of that form; eval_fundamental_form declines a pair
exactly when its operator is a non-symbol or a symbol other than these six, and such a
pair is evaluated as an application (a failure to evaluate its operator is the result).
With a free slot on the frame stack, (let ((begin 5)) (begin 1 2)) yields 2 and
(let ((quote 5)) (quote x)) yields the symbol x. -/
theorem keywords_not_shadowed (natives : Natives) (fuel : Nat) (σ : Runtime)
    (hroom : σ.activation_index < MAXIMUM_CALL_DEPTH) :
    (∀ (cdr : Sexp) (act : Nat) (τ : Runtime),
      scheme_eval natives (fuel + 1) (.cons (.symbol "define") cdr) act τ =
        form_define (scheme_eval natives fuel) cdr act τ ∧
      scheme_eval natives (fuel + 1) (.cons (.symbol "let") cdr) act τ =
        form_let (scheme_eval natives fuel) cdr act τ ∧
      scheme_eval natives (fuel + 1) (.cons (.symbol "set!") cdr) act τ =
        form_set (scheme_eval natives fuel) cdr act τ ∧
      scheme_eval natives (fuel + 1) (.cons (.symbol "lambda") cdr) act τ =
        form_lambda cdr act τ ∧
      scheme_eval natives (fuel + 1) (.cons (.symbol "quote") cdr) act τ = form_quote cdr τ ∧
      scheme_eval natives (fuel + 1) (.cons (.symbol "begin") cdr) act τ =
        form_begin (scheme_eval natives fuel) cdr act τ) ∧
    (∀ (ev : Evaluator) (car cdr : Sexp) (act : Nat) (τ : Runtime),
      eval_fundamental_form ev car cdr act τ = .ok none ↔
        ∀ sym, car = .symbol sym → sym ∉ fundamental_keywords) ∧
    (∀ (car cdr : Sexp) (act : Nat) (τ : Runtime) (e : Fatal),
      (∀ sym, car = .symbol sym → sym ∉ fundamental_keywords) →
      scheme_eval natives fuel car act τ = .error e →
      scheme_eval natives (fuel + 1) (.cons car cdr) act τ = .error e) ∧
    (scheme_global_eval natives (fuel + 3)
      (list_of [.symbol "let", list_of [list_of [.symbol "begin", .number 5]],
        list_of [.symbol "begin", .number 1, .number 2]]) σ).map Prod.fst = .ok (.number 2) ∧
    (scheme_global_eval natives (fuel + 2)
      (list_of [.symbol "let", list_of [list_of [.symbol "quote", .number 5]],
        list_of [.symbol "quote", .symbol "x"]]) σ).map Prod.fst = .ok (.symbol "x") := by
  have hs1 : ∀ (n : Int) (k : Nat) (a : Nat) (τ : Runtime),
      scheme_eval natives (k + 1) (.number n) a τ = .ok (.number n, τ) :=
    fun n k a τ => scheme_eval_self natives k (.number n) a τ rfl
  refine ⟨fun cdr act τ =>
      ⟨scheme_eval_define _ _ _ _ _, scheme_eval_let _ _ _ _ _, scheme_eval_set _ _ _ _ _,
        scheme_eval_lambda _ _ _ _ _, scheme_eval_quote _ _ _ _ _, scheme_eval_begin _ _ _ _ _⟩,
    fun ev car cdr act τ => eval_fundamental_form_declines_iff ev car cdr act τ,
    fun car cdr act τ e hkey hf => scheme_eval_operator_error natives fuel car cdr act τ e hkey hf,
    ?_, ?_⟩
  · simp only [scheme_global_eval, list_of, scheme_eval_let, form_let, sexp_extract_cons,
      gc_allocate_activation, let_bindings, sexp_extract_symbol, sexp_is_empty, hs1,
      stack_push_ok, hroom, add_binding_append_new, if_true, scheme_eval_begin, begin_forms,
      stack_pop_predecrement_mk, Except.map]
  · simp only [scheme_global_eval, list_of, scheme_eval_let, form_let, sexp_extract_cons,
      gc_allocate_activation, let_bindings, sexp_extract_symbol, sexp_is_empty, hs1,
      stack_push_ok, hroom, add_binding_append_new, if_true, scheme_eval_quote, form_quote,
      stack_pop_predecrement_mk, Except.map]

/-- The hypothesis of `keywords_not_shadowed` holds in the initial state. -/
theorem keywords_not_shadowed_witness :
    initial_runtime.activation_index < MAXIMUM_CALL_DEPTH ∧
    (scheme_global_eval no_natives 3
      (list_of [.symbol "let", list_of [list_of [.symbol "begin", .number 5]],
        list_of [.symbol "begin", .number 1, .number 2]]) initial_runtime).map Prod.fst
      = .ok (.number 2) ∧
    (scheme_global_eval no_natives 2
      (list_of [.symbol "let", list_of [list_of [.symbol "quote", .number 5]],
        list_of [.symbol "quote", .symbol "x"]]) initial_runtime).map Prod.fst
      = .ok (.symbol "x") :=
  ⟨by decide,
    (keywords_not_shadowed no_natives 0 initial_runtime (by decide)).2.2.2⟩

/-! ## Applying a value that is not a procedure -/

theorem scheme_eval_cons (natives : Natives) (fuel : Nat) (car cdr : Sexp) (act : Nat)
    (σ : Runtime) :
    scheme_eval natives (fuel + 1) (.cons car cdr) act σ =
      eval_list natives (scheme_eval natives fuel) car cdr act σ := rfl

/-- C15: applying a non-procedure is an error.  For every combination whose operator is
not one of the six keywords and evaluates to a value that is neither a closure nor a
native procedure (nor the null pointer), evaluation ends in the fatal error "called a
non-callable value", whatever the operands are and whatever evaluating them would do:
none is evaluated.  In particular (1 2) fails so, and (x 1) fails so when x is bound to
a number. -/
theorem non_procedure_not_callable (natives : Natives) (fuel : Nat) (op : Sexp) (act : Nat)
    (σ : Runtime) (v : Sexp) (σ1 : Runtime)
    (hkey : ∀ sym, op = .symbol sym → sym ∉ fundamental_keywords)
    (hproc : ∀ arity arguments body captured, v ≠ .proc arity arguments body captured)
    (hnative : ∀ arity function_pointer, v ≠ .native_proc arity function_pointer)
    (hnull : v ≠ .NULL)
    (hop : scheme_eval natives fuel op act σ = .ok (v, σ1)) :
    (∀ operands : Sexp, scheme_eval natives (fuel + 1) (.cons op operands) act σ =
      .error (.fatal_error "called a non-callable value")) ∧
    (∀ (ev : Evaluator) (operands : Sexp), ev op act σ = .ok (v, σ1) →
      eval_list natives ev op operands act σ =
        .error (.fatal_error "called a non-callable value")) ∧
    (∀ (τ : Runtime) (frame : Nat),
      scheme_eval natives (fuel + 2) (list_of [.number 1, .number 2]) frame τ =
        .error (.fatal_error "called a non-callable value")) ∧
    (∀ (τ : Runtime) (frame : Nat) (x : String) (n : Int), x ∉ fundamental_keywords →
      activation_get_binding τ.heap frame x = some (.number n) →
      scheme_eval natives (fuel + 2) (list_of [.symbol x, .number 1]) frame τ =
        .error (.fatal_error "called a non-callable value")) := by
  have hlist : ∀ (ev : Evaluator) (car operands : Sexp) (frame : Nat) (τ τ1 : Runtime)
      (w : Sexp), (∀ sym, car = .symbol sym → sym ∉ fundamental_keywords) →
      (∀ arity arguments body captured, w ≠ .proc arity arguments body captured) →
      (∀ arity function_pointer, w ≠ .native_proc arity function_pointer) → w ≠ .NULL →
      ev car frame τ = .ok (w, τ1) →
      eval_list natives ev car operands frame τ =
        .error (.fatal_error "called a non-callable value") := by
    intro ev car operands frame τ τ1 w hk hp hn h0 hw
    cases w with
    | proc a f b c => exact absurd rfl (hp a f b c)
    | native_proc a p => exact absurd rfl (hn a p)
    | NULL => exact absurd rfl h0
    | _ => simp only [eval_list, eval_fundamental_form_declines _ car operands frame τ hk, hw]
  refine ⟨?_, ?_, ?_, ?_⟩
  · intro operands
    rw [scheme_eval_cons]
    exact hlist _ op operands act σ σ1 v hkey hproc hnative hnull hop
  · intro ev operands hev
    exact hlist ev op operands act σ σ1 v hkey hproc hnative hnull hev
  · intro τ frame
    simp only [list_of]
    rw [scheme_eval_cons]
    refine hlist _ _ _ frame τ τ (.number 1) ?_ ?_ ?_ ?_
      (scheme_eval_self natives fuel (.number 1) frame τ rfl)
    · intro sym h; cases h
    · intro _ _ _ _ h; cases h
    · intro _ _ h; cases h
    · intro h; cases h
  · intro τ frame x n hx hbound
    simp only [list_of]
    rw [scheme_eval_cons]
    refine hlist _ _ _ frame τ τ (.number n) ?_ ?_ ?_ ?_ ?_
    · intro sym h; cases h; exact hx
    · intro _ _ _ _ h; cases h
    · intro _ _ h; cases h
    · intro h; cases h
    · simp only [scheme_eval_symbol, hbound]

/-- The hypotheses of `non_procedure_not_callable` hold for the operator 1 in the initial
state. -/
theorem non_procedure_not_callable_witness :
    (∀ sym, Sexp.number 1 = .symbol sym → sym ∉ fundamental_keywords) ∧
    (∀ arity arguments body captured, Sexp.number 1 ≠ .proc arity arguments body captured) ∧
    (∀ arity function_pointer, Sexp.number 1 ≠ .native_proc arity function_pointer) ∧
    Sexp.number 1 ≠ .NULL ∧
    scheme_eval no_natives 1 (.number 1) 0 initial_runtime = .ok (.number 1, initial_runtime) ∧
    scheme_eval no_natives 2 (list_of [.number 1, .number 2]) 0 initial_runtime =
      .error (.fatal_error "called a non-callable value") := by
  have h1 : ∀ sym, Sexp.number 1 = .symbol sym → sym ∉ fundamental_keywords := by
    intro sym h; cases h
  have h2 : ∀ arity arguments body captured,
      Sexp.number 1 ≠ .proc arity arguments body captured := by
    intro _ _ _ _ h; cases h
  have h3 : ∀ arity function_pointer, Sexp.number 1 ≠ .native_proc arity function_pointer := by
    intro _ _ h; cases h
  have h4 : Sexp.number 1 ≠ .NULL := by
    intro h; cases h
  exact ⟨h1, h2, h3, h4, rfl,
    (non_procedure_not_callable no_natives 1 (.number 1) 0 initial_runtime (.number 1)
      initial_runtime h1 h2 h3 h4 rfl).1 (list_of [.number 2])⟩

/-! ## The shapes of the special forms -/

/-- C12 (the code at the failing input): the quote branch never looks at what follows
its operand.  For every expression e and every tail, evaluating the pair of quote and
(e . tail) returns e and leaves the state as it was; in particular (quote a b) returns
the symbol a, where a fatal error was due. -/
theorem quote_ignores_extra_operands (natives : Natives) (fuel : Nat) (e tail : Sexp)
    (act : Nat) (σ : Runtime) :
    scheme_eval natives (fuel + 1) (.cons (.symbol "quote") (.cons e tail)) act σ = .ok (e, σ) ∧
    scheme_eval natives (fuel + 1) (list_of [.symbol "quote", .symbol "a", .symbol "b"]) act σ
      = .ok (.symbol "a", σ) := by
  constructor <;> simp only [list_of, scheme_eval_quote, form_quote, sexp_extract_cons]

/-- The shape checks that are in place: for every operand list with fewer or more than
two elements, define, set! and lambda end in a fatal error of their shape check before
anything is evaluated; (quote) ends in "invalid quote fundamental form" and (let) in
"invalid let fundamental form"; and with a free
slot on the frame stack (let ((x 1)) x x) ends in "too many items in let-binding". -/
theorem strict_shapes_in_place (natives : Natives) (fuel : Nat) (act : Nat) (σ : Runtime)
    (operands : List Sexp) (hlen : operands.length ≠ 2) :
    (∃ message, message ∈ ["invalid define fundamental form",
        "first argument to define must be a symbol", "too many items in define"] ∧
      scheme_eval natives (fuel + 1) (.cons (.symbol "define") (list_of operands)) act σ =
        .error (.fatal_error message)) ∧
    (∃ message, message ∈ ["invalid set! fundamental form",
        "first argument to define must be a symbol", "too many items in set!"] ∧
      scheme_eval natives (fuel + 1) (.cons (.symbol "set!") (list_of operands)) act σ =
        .error (.fatal_error message)) ∧
    (∃ message, message ∈ ["invalid lambda fundamental form", "too many items in set!"] ∧
      scheme_eval natives (fuel + 1) (.cons (.symbol "lambda") (list_of operands)) act σ =
        .error (.fatal_error message)) ∧
    scheme_eval natives (fuel + 1) (list_of [.symbol "quote"]) act σ =
      .error (.fatal_error "invalid quote fundamental form") ∧
    scheme_eval natives (fuel + 1) (list_of [.symbol "let"]) act σ =
      .error (.fatal_error "invalid let fundamental form") ∧
    (σ.activation_index < MAXIMUM_CALL_DEPTH →
      scheme_eval natives (fuel + 2)
        (list_of [.symbol "let", list_of [list_of [.symbol "x", .number 1]], .symbol "x",
          .symbol "x"]) act σ = .error (.fatal_error "too many items in let-binding")) := by
  refine ⟨?_, ?_, ?_, ?_, ?_, ?_⟩
  · rcases operands with _ | ⟨a, _ | ⟨b, _ | ⟨c, rest⟩⟩⟩
    · refine ⟨"invalid define fundamental form", by simp, ?_⟩
      simp only [list_of, scheme_eval_define, form_define, sexp_extract_cons]
    · cases hs : sexp_extract_symbol a with
      | none =>
        refine ⟨"first argument to define must be a symbol", by simp, ?_⟩
        simp only [list_of, scheme_eval_define, form_define, sexp_extract_cons, hs]
      | some name =>
        refine ⟨"invalid define fundamental form", by simp, ?_⟩
        simp only [list_of, scheme_eval_define, form_define, sexp_extract_cons, hs]
    · simp at hlen
    · cases hs : sexp_extract_symbol a with
      | none =>
        refine ⟨"first argument to define must be a symbol", by simp, ?_⟩
        simp only [list_of, scheme_eval_define, form_define, sexp_extract_cons, hs]
      | some name =>
        refine ⟨"too many items in define", by simp, ?_⟩
        simp [list_of, scheme_eval_define, form_define, sexp_extract_cons, hs, sexp_is_empty]
  · rcases operands with _ | ⟨a, _ | ⟨b, _ | ⟨c, rest⟩⟩⟩
    · refine ⟨"invalid set! fundamental form", by simp, ?_⟩
      simp only [list_of, scheme_eval_set, form_set, sexp_extract_cons]
    · cases hs : sexp_extract_symbol a with
      | none =>
        refine ⟨"first argument to define must be a symbol", by simp, ?_⟩
        simp only [list_of, scheme_eval_set, form_set, sexp_extract_cons, hs]
      | some name =>
        refine ⟨"invalid set! fundamental form", by simp, ?_⟩
        simp only [list_of, scheme_eval_set, form_set, sexp_extract_cons, hs]
    · simp at hlen
    · cases hs : sexp_extract_symbol a with
      | none =>
        refine ⟨"first argument to define must be a symbol", by simp, ?_⟩
        simp only [list_of, scheme_eval_set, form_set, sexp_extract_cons, hs]
      | some name =>
        refine ⟨"too many items in set!", by simp, ?_⟩
        simp [list_of, scheme_eval_set, form_set, sexp_extract_cons, hs, sexp_is_empty]
  · rcases operands with _ | ⟨a, _ | ⟨b, _ | ⟨c, rest⟩⟩⟩
    · refine ⟨"invalid lambda fundamental form", by simp, ?_⟩
      simp only [list_of, scheme_eval_lambda, form_lambda, sexp_extract_cons]
    · refine ⟨"invalid lambda fundamental form", by simp, ?_⟩
      simp only [list_of, scheme_eval_lambda, form_lambda, sexp_extract_cons]
    · simp at hlen
    · refine ⟨"too many items in set!", by simp, ?_⟩
      simp [list_of, scheme_eval_lambda, form_lambda, sexp_extract_cons, sexp_is_empty]
  · simp only [list_of, scheme_eval_quote, form_quote, sexp_extract_cons]
  · simp only [list_of, scheme_eval_let, form_let, sexp_extract_cons]
  · intro hroom
    simp only [list_of, scheme_eval_let, form_let, sexp_extract_cons,
      gc_allocate_activation, let_bindings, sexp_extract_symbol, sexp_is_empty,
      scheme_eval_self natives _ (.number 1) _ _ rfl, stack_push_ok, hroom,
      add_binding_append_new, if_true]
    simp

theorem bind_parameters_panics (natives : Natives) (fuel : Nat) (child_act act : Nat)
    (p rest a args : Sexp) (hp : sexp_extract_symbol p = none) :
    ∀ (bound : List (String × Sexp)) (σ : Runtime),
      (∀ x ∈ bound, self_evaluating x.2 = true) →
      bind_parameters (scheme_eval natives (fuel + 1)) child_act act
        ((bound.map fun x => Sexp.symbol x.1).foldr Sexp.cons (.cons p rest))
        ((bound.map fun x => x.2).foldr Sexp.cons (.cons a args)) σ =
        .error (.PANIC "function parameter not a symbol?") := by
  intro bound
  induction bound with
  | nil =>
    intro σ _
    simp only [List.map_nil, List.foldr_nil, bind_parameters, hp]
  | cons x bound ih =>
    intro σ hself
    have hx : self_evaluating x.2 = true := hself x (List.mem_cons_self _ _)
    simp only [List.map_cons, List.foldr_cons, bind_parameters, sexp_extract_symbol,
      scheme_eval_self natives fuel x.2 act σ hx]
    exact ih _ (fun y hy => hself y (List.mem_cons_of_mem _ hy))

theorem list_length_foldr (xs : List Sexp) (tail : Sexp) :
    list_length (xs.foldr Sexp.cons tail) = xs.length + list_length tail := by
  induction xs with
  | nil => simp
  | cons x xs ih => simp [list_length, ih]; omega

/-- C18 (the code at the failing input): the lambda branch never looks at the elements
of its formal list.  In every frame f and state σ, (lambda (1) 1) does not fail: it
evaluates to a closure of arity 1 whose formal list is (1) and leaves the state as it
was, as (lambda formals body) does for every formal list, with the length of the list as
arity; so in the initial state the form returns a closure and not the malformed-syntax
error. -/
theorem lambda_accepts_non_symbol_formal (natives : Natives) (fuel : Nat) (f : Nat)
    (σ : Runtime) :
    scheme_eval natives (fuel + 1)
      (list_of [.symbol "lambda", list_of [.number 1], .number 1]) f σ =
      .ok (.proc 1 (list_of [.number 1]) (.number 1) f, σ) ∧
    (∀ formals body : Sexp,
      scheme_eval natives (fuel + 1) (list_of [.symbol "lambda", formals, body]) f σ =
        .ok (.proc (list_length formals) formals body f, σ)) ∧
    scheme_global_eval no_natives 1
      (list_of [.symbol "lambda", list_of [.number 1], .number 1]) initial_runtime =
      .ok (.proc 1 (list_of [.number 1]) (.number 1) 0, initial_runtime) ∧
    scheme_global_eval no_natives 1
      (list_of [.symbol "lambda", list_of [.number 1], .number 1]) initial_runtime ≠
      .error (.fatal_error "invalid lambda fundamental form") := by
  refine ⟨?_, ?_, rfl, ?_⟩
  · simp only [list_of, scheme_eval_lambda, form_lambda, sexp_extract_cons, sexp_is_empty,
      if_true, list_length]
  · intro formals body
    simp only [list_of, scheme_eval_lambda, form_lambda, sexp_extract_cons, sexp_is_empty,
      if_true]
  · intro h
    have h2 : scheme_global_eval no_natives 1
        (list_of [.symbol "lambda", list_of [.number 1], .number 1]) initial_runtime =
        .ok (.proc 1 (list_of [.number 1]) (.number 1) 0, initial_runtime) := rfl
    rw [h2] at h
    cases h

/-- The only test of a formal parameter is the one in the parameter loop of eval_call.
Evaluating (lambda formals body) returns, whatever the formals are, a closure whose arity
is the length of the formal list and which holds the formals in order, the body
unevaluated and the current frame, and it leaves the state as it was; for n symbols the
arity is n.  A formal that is not a symbol is met only when the closure is called: with
two free slots on the frame stack, a call with the right number of arguments whose
earlier formals are symbols bound to self-evaluating arguments ends in
PANIC "function parameter not a symbol?" at the first formal p that is not a symbol,
as ((lambda (1) 1) 5) does. -/
theorem lambda_checks_formals_at_call (natives : Natives) (fuel : Nat) (σ : Runtime)
    (act captured : Nat) (bound : List (String × Sexp)) (p rest body a args : Sexp)
    (hp : sexp_extract_symbol p = none)
    (hself : ∀ x ∈ bound, self_evaluating x.2 = true)
    (harity : list_length args = list_length rest)
    (hroom : σ.activation_index + 1 < MAXIMUM_CALL_DEPTH) :
    (∀ (formals body1 : Sexp) (frame : Nat) (τ : Runtime),
      scheme_eval natives (fuel + 1) (list_of [.symbol "lambda", formals, body1]) frame τ =
        .ok (.proc (list_length formals) formals body1 frame, τ)) ∧
    (∀ names : List String, list_length (list_of (names.map Sexp.symbol)) = names.length) ∧
    eval_call (scheme_eval natives (fuel + 1))
      (.proc (bound.length + (list_length rest + 1))
        ((bound.map fun x => Sexp.symbol x.1).foldr Sexp.cons (.cons p rest)) body captured)
      ((bound.map fun x => x.2).foldr Sexp.cons (.cons a args)) act σ =
      .error (.PANIC "function parameter not a symbol?") ∧
    scheme_eval natives (fuel + 3)
      (list_of [list_of [.symbol "lambda", list_of [.number 1], .number 1], .number 5]) act σ =
      .error (.PANIC "function parameter not a symbol?") := by
  have hr0 : σ.activation_index < MAXIMUM_CALL_DEPTH := by omega
  have hlam : ∀ (k : Nat) (formals body1 : Sexp) (frame : Nat) (τ : Runtime),
      scheme_eval natives (k + 1) (list_of [.symbol "lambda", formals, body1]) frame τ =
        .ok (.proc (list_length formals) formals body1 frame, τ) := by
    intro k formals body1 frame τ
    simp only [list_of, scheme_eval_lambda, form_lambda, sexp_extract_cons, sexp_is_empty,
      if_true]
  refine ⟨hlam fuel, ?_, ?_, ?_⟩
  · intro names
    rw [list_length_list_of, List.length_map]
  · have hlen : list_length ((bound.map fun x => x.2).foldr Sexp.cons (.cons a args)) =
        bound.length + (list_length rest + 1) := by
      rw [list_length_foldr, List.length_map, list_length, harity]
    simp only [eval_call, hlen, ne_eq, not_true_eq_false, if_false, eval_call_body,
      stack_push_ok, hr0, hroom, gc_allocate_activation,
      bind_parameters_panics natives fuel _ act p rest a args hp bound _ hself]
  · have hkey : ∀ sym, list_of [Sexp.symbol "lambda", list_of [.number 1], .number 1] =
        .symbol sym → sym ∉ fundamental_keywords := by
      intro sym h
      simp [list_of] at h
    have hop := hlam (fuel + 1) (list_of [.number 1]) (.number 1) act σ
    have hcall := scheme_eval_call_closure natives (fuel + 2) _ (list_of [.number 5]) act σ σ _
      _ _ _ hkey hop
    have hpanic := bind_parameters_panics natives (fuel + 1) σ.heap.length act (.number 1)
      .empty (.number 5) .empty rfl []
    simp only [List.map_nil, List.foldr_nil] at hpanic
    simp only [list_of] at hcall ⊢
    rw [hcall]
    simp only [eval_call, list_length, ne_eq, not_true_eq_false, if_false, eval_call_body,
      stack_push_ok, hr0, hroom, gc_allocate_activation]
    rw [hpanic _ (fun x hx => by cases hx)]

/-- The hypotheses of `lambda_checks_formals_at_call` hold for the closure of
(lambda (x 1) x) called with 7 and 8 in the initial state. -/
theorem lambda_checks_formals_at_call_witness :
    sexp_extract_symbol (.number 1) = none ∧
    (∀ x ∈ [("x", Sexp.number 7)], self_evaluating x.2 = true) ∧
    list_length .empty = list_length .empty ∧
    initial_runtime.activation_index + 1 < MAXIMUM_CALL_DEPTH ∧
    eval_call (scheme_eval no_natives 1)
      (.proc 2 (list_of [.symbol "x", .number 1]) (.symbol "x") 0)
      (list_of [.number 7, .number 8]) 0 initial_runtime =
      .error (.PANIC "function parameter not a symbol?") := by
  have hself : ∀ x ∈ [("x", Sexp.number 7)], self_evaluating x.2 = true := by
    intro x hx
    simp only [List.mem_singleton] at hx
    subst hx
    rfl
  exact ⟨rfl, hself, rfl, by decide,
    (lambda_checks_formals_at_call no_natives 0 initial_runtime 0 0 [("x", .number 7)]
      (.number 1) .empty (.symbol "x") (.number 8) .empty rfl hself rfl (by decide)).2.2.1⟩

/-! ## The argument buffer of native calls -/

theorem native_arguments_overflow (ev : Evaluator) (act : Nat) :
    ∀ (xs : List Sexp) (buffer : List Sexp) (σ : Runtime) (values : List Sexp) (σ1 : Runtime),
      buffer.length < MAXIMUM_NATIVE_CALL_ARGS →
      MAXIMUM_NATIVE_CALL_ARGS ≤ buffer.length + xs.length →
      evaluate_in_order ev act (xs.take (MAXIMUM_NATIVE_CALL_ARGS - buffer.length)) σ =
        .ok (values, σ1) →
      native_arguments ev act (list_of xs) buffer σ =
        .error (.fatal_error "too many arguments to native function") := by
  intro xs
  induction xs with
  | nil =>
    intro buffer σ values σ1 hb hlen _
    simp only [List.length_nil] at hlen
    omega
  | cons x xs ih =>
    intro buffer σ values σ1 hb hlen h
    obtain ⟨k, hk⟩ : ∃ k, MAXIMUM_NATIVE_CALL_ARGS - buffer.length = k + 1 :=
      ⟨MAXIMUM_NATIVE_CALL_ARGS - buffer.length - 1, by omega⟩
    rw [hk] at h
    simp only [List.take_succ_cons, evaluate_in_order] at h
    cases hx : ev x act σ with
    | error e => rw [hx] at h; cases h
    | ok r =>
      obtain ⟨v, σ2⟩ := r
      rw [hx] at h
      simp only at h
      cases hrest : evaluate_in_order ev act (xs.take k) σ2 with
      | error e => rw [hrest] at h; cases h
      | ok r2 =>
        obtain ⟨vs, σ3⟩ := r2
        simp only [list_of, native_arguments, hx]
        by_cases hfull : (buffer ++ [v]).length = MAXIMUM_NATIVE_CALL_ARGS
        · simp only [hfull, if_true]
        · simp only [hfull, if_false]
          have hb2 : (buffer ++ [v]).length < MAXIMUM_NATIVE_CALL_ARGS := by
            simp only [List.length_append, List.length_singleton] at hfull ⊢
            omega
          have hk2 : MAXIMUM_NATIVE_CALL_ARGS - (buffer ++ [v]).length = k := by
            simp only [List.length_append, List.length_singleton]
            omega
          refine ih (buffer ++ [v]) σ2 vs σ3 hb2 ?_ ?_
          · simp only [List.length_append, List.length_singleton, List.length_cons] at hlen ⊢
            omega
          · rw [hk2]; exact hrest

theorem evaluate_in_order_self (natives : Natives) (fuel : Nat) (act : Nat) (σ : Runtime) :
    ∀ xs : List Sexp, (∀ x ∈ xs, self_evaluating x = true) →
      evaluate_in_order (scheme_eval natives (fuel + 1)) act xs σ = .ok (xs, σ) := by
  intro xs
  induction xs with
  | nil => intro _; rfl
  | cons x xs ih =>
    intro h
    simp only [evaluate_in_order,
      scheme_eval_self natives fuel x act σ (h x (List.mem_cons_self _ _)),
      ih (fun y hy => h y (List.mem_cons_of_mem _ hy))]

/-- A native call with as many arguments as `native_call_args` has slots, or more, ends
in "too many arguments to native function" once the first sixteen are evaluated. -/
theorem native_call_full_buffer (natives : Natives) (ev : Evaluator) (n : Nat)
    (function_pointer : String) (xs : List Sexp) (act : Nat) (σ : Runtime) (values : List Sexp)
    (σ1 : Runtime) (hn : xs.length = n) (hge : MAXIMUM_NATIVE_CALL_ARGS ≤ n)
    (hev : evaluate_in_order ev act (xs.take MAXIMUM_NATIVE_CALL_ARGS) σ = .ok (values, σ1)) :
    eval_native_call natives ev (.native_proc n function_pointer) (list_of xs) act σ =
      .error (.fatal_error "too many arguments to native function") := by
  have hlen : ¬ list_length (list_of xs) ≠ n := by
    rw [list_length_list_of]; simp [hn]
  have hargs := native_arguments_overflow ev act xs [] σ values σ1 (by decide)
    (by simp only [List.length_nil]; omega) hev
  simp only [eval_native_call, hlen, if_false, hargs]

/-- C13 (the code at the failing input): a native procedure of arity 16 called with 16
arguments, one per slot of the argument buffer, is not invoked: the call ends in the
fatal error "too many arguments to native function". -/
theorem sixteen_arguments_rejected (natives : Natives) (fuel : Nat) :
    scheme_global_eval natives (fuel + 2)
      (.cons (.symbol "sixteen") (list_of (List.replicate 16 (.number 0))))
      runtime_with_sixteen =
      .error (.fatal_error "too many arguments to native function") := by
  have hkey : ∀ sym, Sexp.symbol "sixteen" = .symbol sym → sym ∉ fundamental_keywords := by
    intro sym h
    cases h
    decide
  have hop : scheme_eval natives (fuel + 1) (.symbol "sixteen")
      runtime_with_sixteen.global_activation runtime_with_sixteen =
      .ok (.native_proc 16 "sixteen", runtime_with_sixteen) := by
    rw [scheme_eval_symbol]
    rfl
  have hself : ∀ x ∈ List.replicate 16 (Sexp.number 0), self_evaluating x = true := by
    intro x hx
    rw [List.eq_of_mem_replicate hx]
    rfl
  have hev := evaluate_in_order_self natives fuel runtime_with_sixteen.global_activation
    runtime_with_sixteen (List.replicate 16 (.number 0)) hself
  unfold scheme_global_eval
  rw [scheme_eval_call_native natives (fuel + 1) _ _ _ _ _ 16 "sixteen" hkey hop]
  exact native_call_full_buffer natives _ 16 "sixteen" _ _ _ _ _ (by simp) (by decide)
    (by simpa [MAXIMUM_NATIVE_CALL_ARGS] using hev)

/-! ## Push/pop balance of the frame stack -/

theorem balanced_refl (σ : Runtime) : balanced σ σ := ⟨rfl, fun _ _ => rfl⟩

theorem balanced_trans {σ1 σ2 σ3 : Runtime} (h12 : balanced σ1 σ2) (h23 : balanced σ2 σ3) :
    balanced σ1 σ3 := by
  refine ⟨h23.1.trans h12.1, fun i hi => ?_⟩
  rw [h23.2 i (by rw [h12.1]; exact hi), h12.2 i hi]

theorem balanced_of_eq {σ1 σ2 : Runtime} (hi : σ2.activation_index = σ1.activation_index)
    (hs : σ2.activation_stack = σ1.activation_stack) : balanced σ1 σ2 :=
  ⟨hi, fun _ _ => by rw [hs]⟩

theorem stack_store_spec {σ σ1 : Runtime} {i : Nat} {v : Option Nat}
    (h : stack_store σ i v = .ok σ1) :
    i < MAXIMUM_CALL_DEPTH ∧ σ1.heap = σ.heap ∧ σ1.activation_index = σ.activation_index ∧
      σ1.global_activation = σ.global_activation ∧
      σ1.activation_stack = σ.activation_stack.set i v := by
  unfold stack_store at h
  split at h
  · next hlt => cases h; exact ⟨hlt, rfl, rfl, rfl, rfl⟩
  · cases h

theorem stack_push_spec {σ σ1 : Runtime} {act : Nat} (h : stack_push σ act = .ok σ1) :
    σ.activation_index < MAXIMUM_CALL_DEPTH ∧
      σ1.activation_index = σ.activation_index + 1 ∧
      σ1.activation_stack = σ.activation_stack.set σ.activation_index (some act) := by
  unfold stack_push at h
  split at h
  · cases h
  · next σ2 h2 =>
    cases h
    have h3 := stack_store_spec h2
    exact ⟨h3.1, by simp [h3.2.2.1], h3.2.2.2.2⟩

theorem stack_pop_predecrement_spec {σ σ1 : Runtime} (h : stack_pop_predecrement σ = .ok σ1) :
    σ1.activation_index = size_t_decrement σ.activation_index ∧
      σ1.activation_stack = σ.activation_stack.set (size_t_decrement σ.activation_index) none := by
  unfold stack_pop_predecrement at h
  have h3 := stack_store_spec h
  exact ⟨h3.2.2.1, h3.2.2.2.2⟩

theorem stack_pop_postdecrement_spec {σ σ1 : Runtime}
    (h : stack_pop_postdecrement σ = .ok σ1) :
    σ.activation_index < MAXIMUM_CALL_DEPTH ∧
      σ1.activation_index = size_t_decrement σ.activation_index ∧
      σ1.activation_stack = σ.activation_stack.set σ.activation_index none := by
  unfold stack_pop_postdecrement at h
  split at h
  · cases h
  · next σ2 h2 =>
    cases h
    have h3 := stack_store_spec h2
    exact ⟨h3.1, by simp [h3.2.2.1], h3.2.2.2.2⟩

theorem size_t_decrement_succ (n : Nat) : size_t_decrement (n + 1) = n := by
  simp [size_t_decrement]

/-- A scope that pushes one frame at depth d, runs balanced work at depth d + 1 and pops
with the pre-decrement leaves the stack balanced at depth d. -/
theorem balanced_let_scope {σ σ1 σ2 σ3 : Runtime} {child : Nat}
    (hpush : σ1.activation_index = σ.activation_index + 1 ∧
      σ1.activation_stack = σ.activation_stack.set σ.activation_index (some child))
    (hwork : balanced σ1 σ2)
    (hpop : σ3.activation_index = size_t_decrement σ2.activation_index ∧
      σ3.activation_stack = σ2.activation_stack.set (size_t_decrement σ2.activation_index) none) :
    balanced σ σ3 := by
  have hidx2 : σ2.activation_index = σ.activation_index + 1 := by rw [hwork.1, hpush.1]
  have hdec : size_t_decrement σ2.activation_index = σ.activation_index := by
    rw [hidx2, size_t_decrement_succ]
  refine ⟨by rw [hpop.1, hdec], fun i hi => ?_⟩
  have hne : σ.activation_index ≠ i := by omega
  rw [hpop.2, hdec, List.getElem?_set_ne hne, hwork.2 i (by rw [hpush.1]; omega), hpush.2,
    List.getElem?_set_ne hne]

/-- A call that pushes two frames at depth d, runs balanced work at depth d + 2 and pops
twice with the post-decrement leaves the stack balanced at depth d. -/
theorem balanced_call_scope {σ σ1 σ2 σ3 σ4 σ5 : Runtime} {captured child : Nat}
    (hpush1 : σ1.activation_index = σ.activation_index + 1 ∧
      σ1.activation_stack = σ.activation_stack.set σ.activation_index (some captured))
    (hpush2 : σ2.activation_index = σ1.activation_index + 1 ∧
      σ2.activation_stack = σ1.activation_stack.set σ1.activation_index (some child))
    (hwork : balanced σ2 σ3)
    (hpop1 : σ4.activation_index = size_t_decrement σ3.activation_index ∧
      σ4.activation_stack = σ3.activation_stack.set σ3.activation_index none)
    (hpop2 : σ5.activation_index = size_t_decrement σ4.activation_index ∧
      σ5.activation_stack = σ4.activation_stack.set σ4.activation_index none) :
    balanced σ σ5 := by
  have hidx2 : σ2.activation_index = σ.activation_index + 1 + 1 := by
    rw [hpush2.1, hpush1.1]
  have hidx3 : σ3.activation_index = σ.activation_index + 1 + 1 := by rw [hwork.1, hidx2]
  have hidx4 : σ4.activation_index = σ.activation_index + 1 := by
    rw [hpop1.1, hidx3, size_t_decrement_succ]
  refine ⟨by rw [hpop2.1, hidx4, size_t_decrement_succ], fun i hi => ?_⟩
  have hne0 : σ.activation_index ≠ i := by omega
  have hne1 : σ.activation_index + 1 ≠ i := by omega
  have hne2 : σ.activation_index + 1 + 1 ≠ i := by omega
  rw [hpop2.2, hidx4, List.getElem?_set_ne hne1, hpop1.2, hidx3, List.getElem?_set_ne hne2,
    hwork.2 i (by rw [hidx2]; omega), hpush2.2, hpush1.1, List.getElem?_set_ne hne1, hpush1.2,
    List.getElem?_set_ne hne0]

theorem let_bindings_balanced {ev : Evaluator} (hev : balancing ev) (child_act : Nat) :
    ∀ (bindings : Sexp) (σ σ1 : Runtime),
      let_bindings ev child_act bindings σ = .ok σ1 → balanced σ σ1 := by
  intro bindings
  induction bindings with
  | cons binding rest _ ih =>
    intro σ σ1 h
    simp only [let_bindings] at h
    split at h
    · cases h
    · split at h
      · cases h
      · split at h
        · cases h
        · split at h
          · split at h
            · cases h
            · next value σ2 hv =>
              have hrest := ih _ _ h
              exact balanced_trans (hev _ _ _ _ _ hv) ⟨hrest.1, hrest.2⟩
          · cases h
  | _ =>
    intro σ σ1 h
    simp only [let_bindings] at h
    cases h
    exact balanced_refl σ

theorem begin_forms_balanced {ev : Evaluator} (hev : balancing ev) (act : Nat) :
    ∀ (forms last_result : Sexp) (σ : Runtime) (value : Sexp) (σ1 : Runtime),
      begin_forms ev act forms last_result σ = .ok (value, σ1) → balanced σ σ1 := by
  intro forms
  induction forms with
  | cons form rest _ ih =>
    intro last_result σ value σ1 h
    simp only [begin_forms] at h
    split at h
    · cases h
    · next r σ2 hv => exact balanced_trans (hev _ _ _ _ _ hv) (ih _ _ _ _ h)
  | _ =>
    intro last_result σ value σ1 h
    simp only [begin_forms] at h
    cases h
    exact balanced_refl σ

theorem bind_parameters_balanced {ev : Evaluator} (hev : balancing ev) (child_act act : Nat) :
    ∀ (formals actuals : Sexp) (σ σ1 : Runtime),
      bind_parameters ev child_act act formals actuals σ = .ok σ1 → balanced σ σ1 := by
  intro formals
  induction formals with
  | cons formal_param rest _ ih =>
    intro actuals σ σ1 h
    cases actuals with
    | cons actual_param actuals =>
      simp only [bind_parameters] at h
      split at h
      · cases h
      · split at h
        · cases h
        · next value σ2 hv =>
          have hrest := ih _ _ _ h
          exact balanced_trans (hev _ _ _ _ _ hv) ⟨hrest.1, hrest.2⟩
    | _ =>
      simp only [bind_parameters] at h
      cases h
      exact balanced_refl σ
  | _ =>
    intro actuals σ σ1 h
    simp only [bind_parameters] at h
    cases h
    exact balanced_refl σ

theorem native_arguments_balanced {ev : Evaluator} (hev : balancing ev) (act : Nat) :
    ∀ (args : Sexp) (buffer : List Sexp) (σ : Runtime) (values : List Sexp) (σ1 : Runtime),
      native_arguments ev act args buffer σ = .ok (values, σ1) → balanced σ σ1 := by
  intro args
  induction args with
  | cons arg rest _ ih =>
    intro buffer σ values σ1 h
    simp only [native_arguments] at h
    split at h
    · cases h
    · next value σ2 hv =>
      split at h
      · cases h
      · exact balanced_trans (hev _ _ _ _ _ hv) (ih _ _ _ _ h)
  | _ =>
    intro buffer σ values σ1 h
    simp only [native_arguments] at h
    cases h
    exact balanced_refl σ

theorem form_define_balanced {ev : Evaluator} (hev : balancing ev) {cdr : Sexp} {act : Nat}
    {σ : Runtime} {value : Sexp} {σ1 : Runtime}
    (h : form_define ev cdr act σ = .ok (value, σ1)) : balanced σ σ1 := by
  unfold form_define at h
  split at h
  · cases h
  · split at h
    · cases h
    · split at h
      · cases h
      · split at h
        · split at h
          · cases h
          · next v σ2 hv =>
            cases h
            exact balanced_trans (hev _ _ _ _ _ hv) (balanced_of_eq rfl rfl)
        · cases h

theorem form_let_balanced {ev : Evaluator} (hev : balancing ev) {cdr : Sexp} {act : Nat}
    {σ : Runtime} {value : Sexp} {σ1 : Runtime}
    (h : form_let ev cdr act σ = .ok (value, σ1)) : balanced σ σ1 := by
  unfold form_let at h
  split at h
  · cases h
  · split at h
    · cases h
    · next σ2 hpush =>
      split at h
      · cases h
      · next σ3 hbind =>
        split at h
        · cases h
        · split at h
          · split at h
            · cases h
            · next v σ4 hv =>
              split at h
              · cases h
              · next σ5 hpop =>
                cases h
                have h1 := stack_push_spec hpush
                have h2 := stack_pop_predecrement_spec hpop
                exact @balanced_let_scope σ _ _ _ _ ⟨h1.2.1, h1.2.2⟩
                  (balanced_trans (let_bindings_balanced hev _ _ _ _ hbind)
                    (hev _ _ _ _ _ hv)) h2
          · cases h

theorem form_set_balanced {ev : Evaluator} (hev : balancing ev) {cdr : Sexp} {act : Nat}
    {σ : Runtime} {value : Sexp} {σ1 : Runtime}
    (h : form_set ev cdr act σ = .ok (value, σ1)) : balanced σ σ1 := by
  unfold form_set at h
  split at h
  · cases h
  · split at h
    · cases h
    · split at h
      · cases h
      · split at h
        · split at h
          · cases h
          · next v σ2 hv =>
            split at h
            · cases h
              exact balanced_trans (hev _ _ _ _ _ hv) (balanced_of_eq rfl rfl)
            · cases h
        · cases h

theorem form_lambda_unchanged {cdr : Sexp} {act : Nat} {σ : Runtime} {value : Sexp}
    {σ1 : Runtime} (h : form_lambda cdr act σ = .ok (value, σ1)) : σ1 = σ := by
  unfold form_lambda at h
  split at h
  · cases h
  · split at h
    · cases h
    · split at h
      · cases h; rfl
      · cases h

theorem form_quote_unchanged {cdr : Sexp} {σ : Runtime} {value : Sexp} {σ1 : Runtime}
    (h : form_quote cdr σ = .ok (value, σ1)) : σ1 = σ := by
  unfold form_quote at h
  split at h
  · cases h
  · cases h; rfl

theorem eval_fundamental_form_balanced {ev : Evaluator} (hev : balancing ev) {car cdr : Sexp}
    {act : Nat} {σ : Runtime} {value : Sexp} {σ1 : Runtime}
    (h : eval_fundamental_form ev car cdr act σ = .ok (some (value, σ1))) : balanced σ σ1 := by
  unfold eval_fundamental_form at h
  split at h
  · cases h
  · split at h
    · obtain ⟨a, ha, hr⟩ := except_map_some_ok h
      cases ha; exact form_define_balanced hev hr
    · split at h
      · obtain ⟨a, ha, hr⟩ := except_map_some_ok h
        cases ha; exact form_let_balanced hev hr
      · split at h
        · obtain ⟨a, ha, hr⟩ := except_map_some_ok h
          cases ha; exact form_set_balanced hev hr
        · split at h
          · obtain ⟨a, ha, hr⟩ := except_map_some_ok h
            cases ha
            rw [form_lambda_unchanged hr]
            exact balanced_refl σ
          · split at h
            · obtain ⟨a, ha, hr⟩ := except_map_some_ok h
              cases ha
              rw [form_quote_unchanged hr]
              exact balanced_refl σ
            · split at h
              · obtain ⟨a, ha, hr⟩ := except_map_some_ok h
                cases ha; exact begin_forms_balanced hev _ _ _ _ _ _ hr
              · cases h

theorem eval_call_body_balanced {ev : Evaluator} (hev : balancing ev) {arguments body : Sexp}
    {function_activation : Nat} {args : Sexp} {act : Nat} {σ : Runtime} {value : Sexp}
    {σ1 : Runtime}
    (h : eval_call_body ev arguments body function_activation args act σ = .ok (value, σ1)) :
    balanced σ σ1 := by
  unfold eval_call_body at h
  split at h
  · cases h
  · next σ2 hpush1 =>
    split at h
    · cases h
    · next σ3 hpush2 =>
      split at h
      · cases h
      · next σ4 hbind =>
        split at h
        · cases h
        · next v σ5 hv =>
          split at h
          · cases h
          · next σ6 hpop1 =>
            split at h
            · cases h
            · next σ7 hpop2 =>
              cases h
              have h1 := stack_push_spec hpush1
              have h2 := stack_push_spec hpush2
              have h3 := stack_pop_postdecrement_spec hpop1
              have h4 := stack_pop_postdecrement_spec hpop2
              exact @balanced_call_scope σ σ2 σ3 _ _ _ _ _ ⟨h1.2.1, h1.2.2⟩ ⟨h2.2.1, h2.2.2⟩
                (balanced_trans (bind_parameters_balanced hev _ _ _ _ _ _ hbind)
                  (hev _ _ _ _ _ hv)) h3.2 h4.2

theorem eval_call_balanced {ev : Evaluator} (hev : balancing ev) {function args : Sexp}
    {act : Nat} {σ : Runtime} {value : Sexp} {σ1 : Runtime}
    (h : eval_call ev function args act σ = .ok (value, σ1)) : balanced σ σ1 := by
  unfold eval_call at h
  split at h
  · split at h
    · cases h
    · exact eval_call_body_balanced hev h
  · cases h

theorem eval_native_call_balanced {natives : Natives} {ev : Evaluator} (hev : balancing ev)
    {function args : Sexp} {act : Nat} {σ : Runtime} {value : Sexp} {σ1 : Runtime}
    (h : eval_native_call natives ev function args act σ = .ok (value, σ1)) :
    balanced σ σ1 := by
  unfold eval_native_call at h
  split at h
  · split at h
    · cases h
    · split at h
      · cases h
      · next vs σ2 hargs =>
        split at h
        · cases h
        · cases h; exact native_arguments_balanced hev _ _ _ _ _ _ hargs
  · cases h

theorem eval_list_balanced {natives : Natives} {ev : Evaluator} (hev : balancing ev)
    {car cdr : Sexp} {act : Nat} {σ : Runtime} {value : Sexp} {σ1 : Runtime}
    (h : eval_list natives ev car cdr act σ = .ok (value, σ1)) : balanced σ σ1 := by
  unfold eval_list at h
  split at h
  · cases h
  · next r hform => cases h; exact eval_fundamental_form_balanced hev hform
  · split at h
    · cases h
    · next function σ2 hf =>
      split at h
      · exact balanced_trans (hev _ _ _ _ _ hf) (eval_call_balanced hev h)
      · exact balanced_trans (hev _ _ _ _ _ hf) (eval_native_call_balanced hev h)
      · cases h
      · cases h

/-- Every returning call of `scheme_eval` leaves the frame stack balanced. -/
theorem scheme_eval_balancing (natives : Natives) (fuel : Nat) :
    balancing (scheme_eval natives fuel) := by
  induction fuel with
  | zero => intro program act σ value σ1 h; simp [scheme_eval] at h
  | succ n ih =>
    intro program act σ value σ1 h
    cases program with
    | cons car cdr =>
      simp only [scheme_eval] at h
      exact eval_list_balanced ih h
    | _ =>
      simp only [scheme_eval] at h
      cases hr : eval_atom _ act σ.heap with
      | error e => rw [hr] at h; cases h
      | ok a => rw [hr] at h; cases h; exact balanced_refl σ

theorem form_let_no_bindings (ev : Evaluator) (body : Sexp) (act : Nat) (σ : Runtime)
    (value : Sexp) (τ : Runtime) (hroom : σ.activation_index < MAXIMUM_CALL_DEPTH)
    (hev : balancing ev)
    (hbody : ev body σ.heap.length
      ⟨σ.heap ++ [⟨some act, []⟩], σ.activation_index + 1,
        σ.activation_stack.set σ.activation_index (some σ.heap.length),
        σ.global_activation⟩ = .ok (value, τ)) :
    form_let ev (list_of [.empty, body]) act σ =
      .ok (value, ⟨τ.heap, σ.activation_index,
        τ.activation_stack.set σ.activation_index none, τ.global_activation⟩) := by
  have hb := hev _ _ _ _ _ hbody
  have hidx : τ.activation_index = σ.activation_index + 1 := hb.1
  have hpop : stack_pop_predecrement τ = .ok ⟨τ.heap, σ.activation_index,
      τ.activation_stack.set σ.activation_index none, τ.global_activation⟩ := by
    simp [stack_pop_predecrement, stack_store, hidx, size_t_decrement, hroom]
  simp only [list_of, form_let, sexp_extract_cons, gc_allocate_activation, stack_push_ok,
    hroom, let_bindings, hbody, sexp_is_empty, if_true, hpop]

theorem eval_call_nullary_returns (ev : Evaluator) (formals body : Sexp) (captured act : Nat)
    (σ : Runtime) (value : Sexp) (τ : Runtime)
    (hroom : σ.activation_index + 2 < MAXIMUM_CALL_DEPTH) (hev : balancing ev)
    (hbody : ev body σ.heap.length
      ⟨σ.heap ++ [⟨some captured, []⟩], σ.activation_index + 1 + 1,
        (σ.activation_stack.set σ.activation_index (some captured)).set
          (σ.activation_index + 1) (some σ.heap.length),
        σ.global_activation⟩ = .ok (value, τ)) :
    eval_call ev (.proc 0 formals body captured) .empty act σ =
      .ok (value, ⟨τ.heap, σ.activation_index,
        (τ.activation_stack.set (σ.activation_index + 1 + 1) none).set
          (σ.activation_index + 1) none, τ.global_activation⟩) := by
  have hb := hev _ _ _ _ _ hbody
  have hidx : τ.activation_index = σ.activation_index + 1 + 1 := hb.1
  have hr1 : σ.activation_index + 1 < MAXIMUM_CALL_DEPTH := by omega
  have hr2 : σ.activation_index + 1 + 1 < MAXIMUM_CALL_DEPTH := by omega
  have hpop1 : stack_pop_postdecrement τ = .ok ⟨τ.heap, σ.activation_index + 1,
      τ.activation_stack.set (σ.activation_index + 1 + 1) none, τ.global_activation⟩ := by
    simp [stack_pop_postdecrement, stack_store, hidx, size_t_decrement, hr2]
  rw [eval_call_nullary ev formals body captured act σ hr1, hbody]
  simp only [hpop1, stack_pop_postdecrement_mk, hr1]

/-! ## The depth bound of the frame stack -/

theorem nested_lets_inner (body : Sexp) :
    ∀ n : Nat, nested_lets (n + 1) body =
      nested_lets n (list_of [.symbol "let", .empty, body]) := by
  intro n
  induction n with
  | zero => rfl
  | succ n ih =>
    rw [nested_lets, ih]
    rfl

/-- A failure of the body at the depth it is reached passes through the nested lets. -/
theorem nested_lets_pass_error (natives : Natives) (fuel : Nat) (body : Sexp) (e0 : Fatal) :
    ∀ (n : Nat) (σ : Runtime) (act : Nat),
      σ.activation_index + n ≤ MAXIMUM_CALL_DEPTH →
      (∀ (τ : Runtime) (frame : Nat), τ.activation_index = σ.activation_index + n →
        scheme_eval natives fuel body frame τ = .error e0) →
      scheme_eval natives (fuel + n) (nested_lets n body) act σ = .error e0 := by
  intro n
  induction n with
  | zero =>
    intro σ act _ hbody
    exact hbody σ act rfl
  | succ n ih =>
    intro σ act hroom hbody
    have hr : σ.activation_index < MAXIMUM_CALL_DEPTH := by omega
    have hinner := ih
      ⟨σ.heap ++ [⟨some act, []⟩], σ.activation_index + 1,
        σ.activation_stack.set σ.activation_index (some σ.heap.length), σ.global_activation⟩
      σ.heap.length (by simp only; omega)
      (fun τ frame hτ => hbody τ frame (by simp only at hτ; omega))
    have hfuel : fuel + (n + 1) = fuel + n + 1 := rfl
    rw [hfuel]
    simp only [nested_lets, list_of, scheme_eval_let, form_let, sexp_extract_cons,
      gc_allocate_activation, stack_push_ok, hr, let_bindings, sexp_is_empty, if_true, hinner]

/-- A let entered when the frame stack is full stores its frame past the end of the
stack. -/
theorem let_at_full_depth (natives : Natives) (fuel : Nat) (bindings_and_body : Sexp)
    (rest : Sexp) (act : Nat) (σ : Runtime) (hfull : σ.activation_index = MAXIMUM_CALL_DEPTH) :
    scheme_eval natives (fuel + 1) (.cons (.symbol "let") (.cons bindings_and_body rest)) act σ =
      .error (.out_of_bounds MAXIMUM_CALL_DEPTH) := by
  simp [scheme_eval_let, form_let, sexp_extract_cons, gc_allocate_activation, stack_push,
    stack_store, hfull]

/-- A closure call entered when the frame stack is full, or has one free slot, stores a
frame past the end of the stack. -/
theorem call_at_full_depth (ev : Evaluator) (formals body args : Sexp) (captured act : Nat)
    (σ : Runtime) (harity : list_length args = list_length formals)
    (hfull : σ.activation_index = MAXIMUM_CALL_DEPTH ∨
      σ.activation_index + 1 = MAXIMUM_CALL_DEPTH) :
    eval_call ev (.proc (list_length formals) formals body captured) args act σ =
      .error (.out_of_bounds MAXIMUM_CALL_DEPTH) := by
  rcases hfull with hfull | hfull
  · simp [eval_call, harity, eval_call_body, stack_push, stack_store, hfull]
  · have hr : σ.activation_index < MAXIMUM_CALL_DEPTH := by omega
    simp [eval_call, harity, eval_call_body, stack_push_ok, hr, gc_allocate_activation,
      stack_push, stack_store, hfull]

/-- A closure bound to loop in its own captured frame and whose body is (loop) nests
until a push stores past the end of the frame stack. -/
theorem loop_overflows (natives : Natives) (fuel : Nat) (g : Nat) :
    ∀ (n : Nat) (σ : Runtime) (act : Nat),
      (∃ frg : activation, σ.heap[g]? = some frg ∧
        hashtbl_lookup frg.env "loop" =
          some (.proc 0 .empty (.cons (.symbol "loop") .empty) g)) →
      MAXIMUM_CALL_DEPTH ≤ σ.activation_index + 2 * n + 1 →
      σ.activation_index ≤ MAXIMUM_CALL_DEPTH →
      eval_call (scheme_eval natives (fuel + n + 1))
        (.proc 0 .empty (.cons (.symbol "loop") .empty) g) .empty act σ =
        .error (.out_of_bounds MAXIMUM_CALL_DEPTH) := by
  intro n
  induction n with
  | zero =>
    intro σ act _ hdeep hle
    exact call_at_full_depth _ .empty _ .empty g act σ rfl (by omega)
  | succ m ih =>
    intro σ act hbound hdeep hle
    by_cases hfull : σ.activation_index = MAXIMUM_CALL_DEPTH ∨
        σ.activation_index + 1 = MAXIMUM_CALL_DEPTH
    · exact call_at_full_depth _ .empty _ .empty g act σ rfl hfull
    · have hr1 : σ.activation_index + 1 < MAXIMUM_CALL_DEPTH := by omega
      obtain ⟨frg, hfrg, hloop⟩ := hbound
      have hlt := getElem?_lt_length _ _ _ hfrg
      have hkey : ∀ sym, Sexp.symbol "loop" = .symbol sym → sym ∉ fundamental_keywords := by
        intro sym h
        cases h
        decide
      have hlook : activation_get_binding (σ.heap ++ [⟨some g, []⟩]) σ.heap.length "loop" =
          some (.proc 0 .empty (.cons (.symbol "loop") .empty) g) :=
        get_binding_via_parent σ.heap ⟨some g, []⟩ frg g "loop" _ hfrg rfl rfl hloop
      have hop : scheme_eval natives (fuel + m + 1) (.symbol "loop") σ.heap.length
          ⟨σ.heap ++ [⟨some g, []⟩], σ.activation_index + 1 + 1,
            (σ.activation_stack.set σ.activation_index (some g)).set
              (σ.activation_index + 1) (some σ.heap.length),
            σ.global_activation⟩ =
          .ok (.proc 0 .empty (.cons (.symbol "loop") .empty) g,
            ⟨σ.heap ++ [⟨some g, []⟩], σ.activation_index + 1 + 1,
              (σ.activation_stack.set σ.activation_index (some g)).set
                (σ.activation_index + 1) (some σ.heap.length),
              σ.global_activation⟩) := by
        simp only [scheme_eval_symbol, hlook]
      have hinner := ih
        ⟨σ.heap ++ [⟨some g, []⟩], σ.activation_index + 1 + 1,
          (σ.activation_stack.set σ.activation_index (some g)).set
            (σ.activation_index + 1) (some σ.heap.length),
          σ.global_activation⟩ σ.heap.length
        ⟨frg, by simp only; rw [List.getElem?_append_left hlt]; exact hfrg, hloop⟩
        (by simp only; omega) (by simp only; omega)
      have hbody := scheme_eval_call_closure natives (fuel + m + 1) _ .empty _ _ _ _ _ _ _
        hkey hop
      rw [hinner] at hbody
      have hfuel : fuel + (m + 1) + 1 = fuel + m + 1 + 1 := rfl
      rw [hfuel, eval_call_nullary _ _ _ _ _ _ hr1, hbody]

/-- C11 (the code at the failing input): no push compares the depth with
`MAXIMUM_CALL_DEPTH`.  In the initial state 128 nested lets, and likewise the call (loop)
after (define loop (lambda () (loop))), do not end in a fatal error of resource
exhaustion: each reaches a push at depth 128, which stores a frame at index 128, past
the last slot of the frame stack. -/
theorem deep_nesting_stores_out_of_bounds (natives : Natives) (fuel : Nat) :
    scheme_global_eval natives (fuel + 129) (nested_lets 128 (.number 1)) initial_runtime =
      .error (.out_of_bounds 128) ∧
    (∃ σ1 : Runtime,
      scheme_global_eval natives (fuel + 2)
        (list_of [.symbol "define", .symbol "loop",
          list_of [.symbol "lambda", .empty, list_of [.symbol "loop"]]]) initial_runtime =
        .ok (.empty, σ1) ∧
      scheme_global_eval natives (fuel + 66) (list_of [.symbol "loop"]) σ1 =
        .error (.out_of_bounds 128)) := by
  constructor
  · have h := nested_lets_pass_error natives (fuel + 1 + 1)
      (list_of [.symbol "let", .empty, .number 1]) (.out_of_bounds MAXIMUM_CALL_DEPTH) 127
      initial_runtime initial_runtime.global_activation (by decide)
      (fun τ frame hτ => let_at_full_depth natives (fuel + 1) _ _ frame τ hτ)
    have hfuel : fuel + 129 = fuel + 1 + 1 + 127 := by omega
    rw [hfuel, nested_lets_inner (.number 1) 127]
    exact h
  · have hdef := (define_step natives (fuel + 1) initial_runtime
      initial_runtime.global_activation "loop"
      (list_of [.symbol "lambda", .empty, list_of [.symbol "loop"]])
      (.proc 0 .empty (list_of [.symbol "loop"]) 0) initial_runtime (by decide) rfl)
    obtain ⟨hev, _, ⟨fr1, hfr1, hfr2⟩, _⟩ := hdef
    refine ⟨_, hev, ?_⟩
    have hkey : ∀ sym, Sexp.symbol "loop" = .symbol sym → sym ∉ fundamental_keywords := by
      intro sym h
      cases h
      decide
    have hop : scheme_eval natives (fuel + 64 + 1) (.symbol "loop") 0
        ⟨activation_add_binding initial_runtime.heap 0 "loop"
          (.proc 0 .empty (list_of [.symbol "loop"]) 0), 1,
          initial_runtime.activation_stack, 0⟩ =
        .ok (.proc 0 .empty (.cons (.symbol "loop") .empty) 0,
          ⟨activation_add_binding initial_runtime.heap 0 "loop"
            (.proc 0 .empty (list_of [.symbol "loop"]) 0), 1,
            initial_runtime.activation_stack, 0⟩) := by
      rw [scheme_eval_symbol]
      rfl
    have hcall := scheme_eval_call_closure natives (fuel + 64 + 1) _ .empty _ _ _ _ _ _ _
      hkey hop
    rw [loop_overflows natives fuel 0 64 _ 0 ⟨_, hfr2, hashtbl_lookup_insert_same _ _ _⟩
      (by decide) (by decide)] at hcall
    exact hcall

/-! ## The slots left by a closure call -/

/-- A parameterless closure call entered two slots below the end of the frame stack
whose body returns stores past the end of the stack when it pops. -/
theorem call_two_below_top (ev : Evaluator) (hev : balancing ev) (formals body : Sexp)
    (captured act : Nat) (σ : Runtime) (value : Sexp) (τ : Runtime)
    (hdepth : σ.activation_index + 2 = MAXIMUM_CALL_DEPTH)
    (hbody : ev body σ.heap.length
      ⟨σ.heap ++ [⟨some captured, []⟩], σ.activation_index + 1 + 1,
        (σ.activation_stack.set σ.activation_index (some captured)).set
          (σ.activation_index + 1) (some σ.heap.length),
        σ.global_activation⟩ = .ok (value, τ)) :
    eval_call ev (.proc 0 formals body captured) .empty act σ =
      .error (.out_of_bounds MAXIMUM_CALL_DEPTH) := by
  have hb := hev _ _ _ _ _ hbody
  have hidx : τ.activation_index = MAXIMUM_CALL_DEPTH := by
    rw [hb.1]; simp only; omega
  have hr1 : σ.activation_index + 1 < MAXIMUM_CALL_DEPTH := by omega
  rw [eval_call_nullary ev formals body captured act σ hr1, hbody]
  simp [stack_pop_postdecrement, stack_store, hidx]

/-- A parameterless closure call whose body returns leaves the captured frame in the
slot at the depth the call was entered at. -/
theorem call_leaves_captured_frame (ev : Evaluator) (hev : balancing ev) (formals body : Sexp)
    (captured act : Nat) (σ : Runtime) (value : Sexp) (τ : Runtime)
    (hroom : σ.activation_index + 2 < MAXIMUM_CALL_DEPTH)
    (hlen : σ.activation_index + 2 ≤ σ.activation_stack.length)
    (hbody : ev body σ.heap.length
      ⟨σ.heap ++ [⟨some captured, []⟩], σ.activation_index + 1 + 1,
        (σ.activation_stack.set σ.activation_index (some captured)).set
          (σ.activation_index + 1) (some σ.heap.length),
        σ.global_activation⟩ = .ok (value, τ)) :
    ∃ σ1 : Runtime,
      eval_call ev (.proc 0 formals body captured) .empty act σ = .ok (value, σ1) ∧
      σ1.activation_index = σ.activation_index ∧
      σ1.activation_stack[σ.activation_index]? = some (some captured) ∧
      σ1.activation_stack[σ.activation_index + 1]? = some none := by
  have hb := hev _ _ _ _ _ hbody
  have h0 : σ.activation_index < σ.activation_stack.length := by omega
  have h1 : σ.activation_index + 1 < σ.activation_stack.length := by omega
  have hs0 : τ.activation_stack[σ.activation_index]? = some (some captured) := by
    rw [hb.2 σ.activation_index (by simp only; omega)]
    simp only
    rw [List.getElem?_set_ne (by omega)]
    simp [List.getElem?_set, h0]
  have hs1 : τ.activation_stack[σ.activation_index + 1]? = some (some σ.heap.length) := by
    rw [hb.2 (σ.activation_index + 1) (by simp only; omega)]
    simp [List.getElem?_set, h1]
  have hlen1 := getElem?_lt_length _ _ _ hs1
  refine ⟨_, eval_call_nullary_returns ev formals body captured act σ value τ hroom hev hbody,
    rfl, ?_, ?_⟩
  · simp only
    rw [List.getElem?_set_ne (by omega), List.getElem?_set_ne (by omega)]
    exact hs0
  · simp [List.getElem?_set, hlen1]

theorem initial_stack_length : initial_runtime.activation_stack.length = 128 := by
  simp [initial_runtime, scheme_initialize, MAXIMUM_CALL_DEPTH]

/-- C16 (the code at the failing input): in the initial state every slot of the frame
stack from the depth 1 on is empty; after the closure call ((lambda () 1)) has returned
1 the depth is 1 again, but the slot at depth 1 still holds the captured defining frame
(the global activation, 0): the two pops of eval_call clear the slots 3 and 2, one slot
above the two that were filled. -/
theorem closure_call_keeps_captured_slot (natives : Natives) (fuel : Nat) :
    initial_runtime.activation_index = 1 ∧
    initial_runtime.activation_stack.drop 1 = List.replicate 127 none ∧
    ∃ σ1 : Runtime,
      scheme_global_eval natives (fuel + 3)
        (list_of [list_of [.symbol "lambda", .empty, .number 1]]) initial_runtime =
        .ok (.number 1, σ1) ∧
      σ1.activation_index = 1 ∧
      σ1.activation_stack[1]? = some (some 0) ∧
      σ1.activation_stack[2]? = some none := by
  have hkey : ∀ sym, list_of [Sexp.symbol "lambda", .empty, .number 1] = .symbol sym →
      sym ∉ fundamental_keywords := by
    intro sym h
    simp [list_of] at h
  have hop : scheme_eval natives (fuel + 1 + 1) (list_of [.symbol "lambda", .empty, .number 1])
      initial_runtime.global_activation initial_runtime =
      .ok (.proc 0 .empty (.number 1) 0, initial_runtime) := by
    simp only [list_of, scheme_eval_lambda, form_lambda, sexp_extract_cons, sexp_is_empty,
      if_true, list_length]
    rfl
  have hcall := scheme_eval_call_closure natives (fuel + 1 + 1) _ .empty _ _ _ _ _ _ _ hkey hop
  obtain ⟨σ1, hσ1, hidx, hslot, hslot1⟩ := call_leaves_captured_frame
    (scheme_eval natives (fuel + 1 + 1)) (scheme_eval_balancing natives _) .empty (.number 1) 0
    initial_runtime.global_activation initial_runtime (.number 1) _ (by decide)
    (by rw [initial_stack_length]; decide)
    (scheme_eval_self natives (fuel + 1) (.number 1) _ _ rfl)
  refine ⟨rfl, rfl, σ1, ?_, hidx, hslot, hslot1⟩
  rw [← hσ1, ← hcall]
  rfl

/-- A value returned by the body at the depth it is reached passes through the nested
lets. -/
theorem nested_lets_pass_value (natives : Natives) (fuel : Nat) (body v : Sexp) :
    ∀ (n : Nat) (σ : Runtime) (act : Nat),
      σ.activation_index + n ≤ MAXIMUM_CALL_DEPTH →
      (∀ (τ : Runtime) (frame : Nat), τ.activation_index = σ.activation_index + n →
        ∃ τ1 : Runtime, scheme_eval natives fuel body frame τ = .ok (v, τ1)) →
      ∃ σ1 : Runtime, scheme_eval natives (fuel + n) (nested_lets n body) act σ = .ok (v, σ1) := by
  intro n
  induction n with
  | zero =>
    intro σ act _ hbody
    exact hbody σ act rfl
  | succ n ih =>
    intro σ act hroom hbody
    have hr : σ.activation_index < MAXIMUM_CALL_DEPTH := by omega
    obtain ⟨τ1, hinner⟩ := ih
      ⟨σ.heap ++ [⟨some act, []⟩], σ.activation_index + 1,
        σ.activation_stack.set σ.activation_index (some σ.heap.length), σ.global_activation⟩
      σ.heap.length (by simp only; omega)
      (fun τ frame hτ => hbody τ frame (by simp only at hτ; omega))
    have hlet := form_let_no_bindings (scheme_eval natives (fuel + n)) (nested_lets n body) act
      σ v τ1 hr (scheme_eval_balancing natives _) hinner
    have hfuel : fuel + (n + 1) = fuel + n + 1 := rfl
    rw [hfuel]
    simp only [list_of] at hlet
    simp only [nested_lets, list_of, scheme_eval_let]
    exact ⟨_, hlet⟩

/-- C20 (the code at the failing input): in the initial state, 125 nested lets bring the
depth to 126, where the closure call ((lambda () 1)) fills the slots 126 and 127 (the
depth is then 128, not more) and its body returns 1; the first pop of eval_call then
stores at index 128, past the last slot of the frame stack.  One let less, and the same
call returns 1. -/
theorem call_at_depth_126_stores_out_of_bounds (natives : Natives) (fuel : Nat) :
    scheme_global_eval natives (fuel + 128)
      (nested_lets 125 (list_of [list_of [.symbol "lambda", .empty, .number 1]]))
      initial_runtime = .error (.out_of_bounds 128) ∧
    ∃ σ1 : Runtime,
      scheme_global_eval natives (fuel + 127)
        (nested_lets 124 (list_of [list_of [.symbol "lambda", .empty, .number 1]]))
        initial_runtime = .ok (.number 1, σ1) := by
  have hkey : ∀ sym, list_of [Sexp.symbol "lambda", .empty, .number 1] = .symbol sym →
      sym ∉ fundamental_keywords := by
    intro sym h
    simp [list_of] at h
  have hbody : ∀ (τ : Runtime) (frame : Nat),
      τ.activation_index = initial_runtime.activation_index + 125 →
      scheme_eval natives (fuel + 3) (list_of [list_of [.symbol "lambda", .empty, .number 1]])
        frame τ = .error (.out_of_bounds MAXIMUM_CALL_DEPTH) := by
    intro τ frame hτ
    have hop : scheme_eval natives (fuel + 1 + 1)
        (list_of [.symbol "lambda", .empty, .number 1]) frame τ =
        .ok (.proc 0 .empty (.number 1) frame, τ) := by
      simp only [list_of, scheme_eval_lambda, form_lambda, sexp_extract_cons, sexp_is_empty,
        if_true, list_length]
    have hcall := scheme_eval_call_closure natives (fuel + 1 + 1) _ .empty _ _ _ _ _ _ _
      hkey hop
    rw [call_two_below_top (scheme_eval natives (fuel + 1 + 1))
      (scheme_eval_balancing natives _) .empty (.number 1) frame frame τ (.number 1) _
      (by rw [hτ]; decide) (scheme_eval_self natives (fuel + 1) (.number 1) _ _ rfl)] at hcall
    exact hcall
  have hreturns : ∀ (τ : Runtime) (frame : Nat),
      τ.activation_index = initial_runtime.activation_index + 124 →
      ∃ τ1 : Runtime,
        scheme_eval natives (fuel + 3)
          (list_of [list_of [.symbol "lambda", .empty, .number 1]]) frame τ =
          .ok (.number 1, τ1) := by
    intro τ frame hτ
    have hop : scheme_eval natives (fuel + 1 + 1)
        (list_of [.symbol "lambda", .empty, .number 1]) frame τ =
        .ok (.proc 0 .empty (.number 1) frame, τ) := by
      simp only [list_of, scheme_eval_lambda, form_lambda, sexp_extract_cons, sexp_is_empty,
        if_true, list_length]
    have hcall := scheme_eval_call_closure natives (fuel + 1 + 1) _ .empty _ _ _ _ _ _ _
      hkey hop
    rw [eval_call_nullary_returns (scheme_eval natives (fuel + 1 + 1)) .empty (.number 1)
      frame frame τ (.number 1) _ (by rw [hτ]; decide) (scheme_eval_balancing natives _)
      (scheme_eval_self natives (fuel + 1) (.number 1) _ _ rfl)] at hcall
    exact ⟨_, hcall⟩
  exact ⟨nested_lets_pass_error natives (fuel + 3) _ _ 125 initial_runtime
      initial_runtime.global_activation (by decide) hbody,
    nested_lets_pass_value natives (fuel + 3) _ _ 124 initial_runtime
      initial_runtime.global_activation (by decide) hreturns⟩

/-! ## Lookups from the caller frame during a call -/

theorem get_binding_chain_append (heap : List activation) (h : parents_older heap)
    (fr : activation) (s : String) :
    ∀ (n act : Nat), act < heap.length →
      get_binding_chain n (heap ++ [fr]) (some act) s = get_binding_chain n heap (some act) s := by
  intro n
  induction n with
  | zero => intro act _; rfl
  | succ n ih =>
    intro act hact
    simp only [get_binding_chain, List.getElem?_append_left hact]
    cases h1 : heap[act]? with
    | none => rfl
    | some fra =>
      simp only
      cases hl : hashtbl_lookup fra.env s with
      | some v => rfl
      | none =>
        simp only
        cases hp : fra.parent with
        | none => rw [get_binding_chain_none, get_binding_chain_none]
        | some p =>
          have hlt := h act fra p h1 hp
          exact ih p (by omega)

/-- On a heap whose parent pointers point to older activations, a lookup from an existing
frame does not see an activation allocated afterwards. -/
theorem get_binding_append (heap : List activation) (h : parents_older heap)
    (fr : activation) (s : String) (act : Nat) (hact : act < heap.length) :
    activation_get_binding (heap ++ [fr]) act s = activation_get_binding heap act s := by
  unfold activation_get_binding
  rw [get_binding_chain_append heap h fr s _ act hact]
  exact (get_binding_chain_steps_suffice heap h s heap.length act hact _
    (by simp)).symm

/-- A call of a closure with the parameters (a b) and the arguments (1 a) from a frame on
whose chain a is unbound: the second argument is looked up from the caller frame, where
neither the captured frame nor the parameter a bound just before is seen. -/
theorem call_argument_unbound (natives : Natives) (fuel : Nat) (τ : Runtime) (act : Nat)
    (body : Sexp) (captured : Nat) (hpo : parents_older τ.heap) (hact : act < τ.heap.length)
    (hroom : τ.activation_index + 1 < MAXIMUM_CALL_DEPTH)
    (ha : activation_get_binding τ.heap act "a" = none) :
    eval_call (scheme_eval natives (fuel + 1))
      (.proc 2 (list_of [.symbol "a", .symbol "b"]) body captured)
      (list_of [.number 1, .symbol "a"]) act τ =
      .error (.fatal_error ("unbound symbol: " ++ "a")) := by
  have hr0 : τ.activation_index < MAXIMUM_CALL_DEPTH := by omega
  simp only [eval_call, list_of, list_length, eval_call_body, stack_push_ok, hr0, hroom,
    gc_allocate_activation, bind_parameters, sexp_extract_symbol,
    scheme_eval_self natives fuel (.number 1) _ _ rfl, add_binding_append_new,
    scheme_eval_symbol, fun fr => get_binding_append τ.heap hpo fr "a" act hact, ha]
  simp

theorem argument_example (natives : Natives) (fuel : Nat) (σ : Runtime)
    (hg : σ.global_activation < σ.heap.length)
    (hroom : σ.activation_index + 4 ≤ MAXIMUM_CALL_DEPTH) :
    ∃ σ1 : Runtime,
      scheme_global_eval natives (fuel + 2)
        (list_of [.symbol "define", .symbol "f",
          list_of [.symbol "lambda", list_of [.symbol "a", .symbol "b"], .symbol "b"]]) σ =
        .ok (.empty, σ1) ∧
      σ1.heap.length = σ.heap.length ∧
      σ1.activation_index = σ.activation_index ∧
      σ1.global_activation = σ.global_activation ∧
      σ1.heap = activation_add_binding σ.heap σ.global_activation "f"
        (.proc 2 (list_of [.symbol "a", .symbol "b"]) (.symbol "b") σ.global_activation) ∧
      activation_get_binding σ1.heap σ.global_activation "f" =
        some (.proc 2 (list_of [.symbol "a", .symbol "b"]) (.symbol "b") σ.global_activation) ∧
      (scheme_global_eval natives (fuel + 3)
        (list_of [.symbol "let", list_of [list_of [.symbol "a", .number 7]],
          list_of [.symbol "f", .number 1, .symbol "a"]]) σ1).map Prod.fst = .ok (.number 7) := by
  have hr0 : σ.activation_index < MAXIMUM_CALL_DEPTH := by omega
  have hr1 : σ.activation_index + 1 < MAXIMUM_CALL_DEPTH := by omega
  have hr2 : σ.activation_index + 1 + 1 < MAXIMUM_CALL_DEPTH := by omega
  have hr3 : σ.activation_index + 1 + 1 + 1 < MAXIMUM_CALL_DEPTH := by omega
  have hlam : scheme_eval natives (fuel + 1)
      (list_of [.symbol "lambda", list_of [.symbol "a", .symbol "b"], .symbol "b"])
      σ.global_activation σ =
      .ok (.proc 2 (list_of [.symbol "a", .symbol "b"]) (.symbol "b") σ.global_activation, σ) := by
    simp only [list_of, scheme_eval_lambda, form_lambda, sexp_extract_cons, sexp_is_empty,
      if_true, list_length]
  obtain ⟨hdef, _, ⟨frg, hfrg, hfrg2⟩, hlookf⟩ := define_step natives _ _ _ "f" _ _ _ hg hlam
  generalize hH : activation_add_binding σ.heap σ.global_activation "f"
    (.proc 2 (list_of [.symbol "a", .symbol "b"]) (.symbol "b") σ.global_activation) = H
    at hdef hfrg2 hlookf
  have hHlen : H.length = σ.heap.length := by
    rw [← hH, add_binding_length]
  have hkey : ∀ sym, Sexp.symbol "f" = .symbol sym → sym ∉ fundamental_keywords := by
    intro sym h
    cases h
    decide
  refine ⟨_, hdef, hHlen, rfl, rfl, rfl, hlookf, ?_⟩
  have hlook7 : hashtbl_lookup (hashtbl_insert [] "a" (.number 7)) "f" = none := by
    simp [hashtbl_insert, hashtbl_lookup]
  have hf : activation_get_binding
      (H ++ [⟨some σ.global_activation, hashtbl_insert [] "a" (.number 7)⟩]) H.length "f" =
      some (.proc 2 (list_of [.symbol "a", .symbol "b"]) (.symbol "b") σ.global_activation) :=
    get_binding_via_parent H _ _ σ.global_activation "f" _ hfrg2 rfl hlook7
      (hashtbl_lookup_insert_same _ _ _)
  have hop : scheme_eval natives (fuel + 1) (.symbol "f") H.length
      ⟨H ++ [⟨some σ.global_activation, hashtbl_insert [] "a" (.number 7)⟩],
        σ.activation_index + 1,
        σ.activation_stack.set σ.activation_index (some H.length),
        σ.global_activation⟩ =
      .ok (.proc 2 (list_of [.symbol "a", .symbol "b"]) (.symbol "b") σ.global_activation,
        ⟨H ++ [⟨some σ.global_activation, hashtbl_insert [] "a" (.number 7)⟩],
          σ.activation_index + 1,
          σ.activation_stack.set σ.activation_index (some H.length),
          σ.global_activation⟩) := by
    simp only [scheme_eval_symbol, hf]
  have hcall := scheme_eval_call_closure natives (fuel + 1) _
    (list_of [.number 1, .symbol "a"]) _ _ _ _ _ _ _ hkey hop
  simp only [eval_call, list_of, list_length, eval_call_body, stack_push_ok, hr1, hr2,
    gc_allocate_activation, bind_parameters, sexp_extract_symbol,
    scheme_eval_self natives fuel (.number 1) _ _ rfl, add_binding_append_new,
    scheme_eval_symbol, get_binding_older_frame, get_binding_new_frame,
    hashtbl_lookup_insert_same, stack_pop_postdecrement_mk, hr3, ne_eq, not_true_eq_false,
    if_false] at hcall
  simp only [scheme_global_eval, list_of, scheme_eval_let, form_let, sexp_extract_cons,
    gc_allocate_activation, let_bindings, sexp_extract_symbol, sexp_is_empty,
    scheme_eval_self natives _ (.number 7) _ _ rfl, stack_push_ok, hr0,
    add_binding_append_new, if_true, hcall, stack_pop_predecrement_mk, Except.map]

theorem add_binding_get (heap : List activation) (k i : Nat) (s : String) (v : Sexp) :
    (activation_add_binding heap k s v)[i]? =
      (heap[i]?).map fun fr =>
        if i = k then { fr with env := hashtbl_insert fr.env s v } else fr := by
  by_cases hik : i = k
  · subst hik
    cases h : heap[i]? with
    | none => simp [activation_add_binding, h]
    | some fr =>
      rw [add_binding_eq heap i fr s v h]
      have hlt := getElem?_lt_length _ _ _ h
      simp [List.getElem?_set, hlt]
  · rw [add_binding_get_other heap k i s v hik]
    cases heap[i]? <;> simp [hik]

theorem parents_older_add_binding (heap : List activation) (h : parents_older heap) (k : Nat)
    (s : String) (v : Sexp) : parents_older (activation_add_binding heap k s v) := by
  intro i fr p hi hp
  rw [add_binding_get] at hi
  cases h0 : heap[i]? with
  | none => rw [h0] at hi; cases hi
  | some fr0 =>
    rw [h0] at hi
    simp only [Option.map_some', Option.some.injEq] at hi
    apply h i fr0 p h0
    rw [← hp, ← hi]
    split <;> rfl

theorem get_binding_chain_add_other (heap : List activation) (k : Nat) (s t : String)
    (v : Sexp) (hts : t ≠ s) :
    ∀ (n : Nat) (act : Option Nat),
      get_binding_chain n (activation_add_binding heap k s v) act t =
        get_binding_chain n heap act t := by
  intro n
  induction n with
  | zero => intro act; rfl
  | succ n ih =>
    intro act
    cases act with
    | none => rfl
    | some a =>
      simp only [get_binding_chain, add_binding_get]
      cases h0 : heap[a]? with
      | none => rfl
      | some fr0 =>
        simp only [Option.map_some']
        by_cases hak : a = k
        · simp only [hak, if_true, hashtbl_lookup_insert_other _ _ _ _ hts]
          cases hashtbl_lookup fr0.env t with
          | some w => rfl
          | none => exact ih _
        · simp only [hak, if_false]
          cases hashtbl_lookup fr0.env t with
          | some w => rfl
          | none => exact ih _

/-- Binding one symbol in some frame does not change what a lookup of another symbol
finds. -/
theorem get_binding_add_other (heap : List activation) (k act : Nat) (s t : String) (v : Sexp)
    (hts : t ≠ s) :
    activation_get_binding (activation_add_binding heap k s v) act t =
      activation_get_binding heap act t := by
  unfold activation_get_binding
  rw [add_binding_length, get_binding_chain_add_other heap k s t v hts]

/-! ## Closure calls with any number of parameters -/

/-- A closure call with the right number of arguments and two free slots on the frame
stack: the captured frame and a fresh child of it are pushed, the parameter loop runs
with the frame of the caller, and the body is evaluated in the child. -/
theorem eval_call_frames (ev : Evaluator) (n : Nat) (formals body : Sexp) (captured : Nat)
    (args : Sexp) (act : Nat) (σ : Runtime) (harity : list_length args = n)
    (hroom : σ.activation_index + 1 < MAXIMUM_CALL_DEPTH) :
    eval_call ev (.proc n formals body captured) args act σ =
      match bind_parameters ev σ.heap.length act formals args
          ⟨σ.heap ++ [⟨some captured, []⟩], σ.activation_index + 1 + 1,
            (σ.activation_stack.set σ.activation_index (some captured)).set
              (σ.activation_index + 1) (some σ.heap.length),
            σ.global_activation⟩ with
      | .error e => .error e
      | .ok σ3 =>
        match ev body σ.heap.length σ3 with
        | .error e => .error e
        | .ok (lambda_result, σ4) =>
          match stack_pop_postdecrement σ4 with
          | .error e => .error e
          | .ok σ5 =>
            match stack_pop_postdecrement σ5 with
            | .error e => .error e
            | .ok σ6 => .ok (lambda_result, σ6) := by
  have hr0 : σ.activation_index < MAXIMUM_CALL_DEPTH := by omega
  simp only [eval_call, harity, eval_call_body, stack_push_ok, hr0, hroom,
    gc_allocate_activation, ne_eq, not_true_eq_false, if_false]
  try rfl

theorem eval_atom_append (heap : List activation) (hpo : parents_older heap)
    (fr : activation) (x : Sexp) (act : Nat) (hact : act < heap.length) :
    eval_atom x act (heap ++ [fr]) = eval_atom x act heap := by
  cases x <;> simp only [eval_atom, get_binding_append heap hpo fr _ act hact]

theorem scheme_eval_atom (natives : Natives) (fuel : Nat) (x : Sexp) (act : Nat) (σ : Runtime)
    (v : Sexp) (h : eval_atom x act σ.heap = .ok v) :
    scheme_eval natives (fuel + 1) x act σ = .ok (v, σ) := by
  cases x with
  | cons a b => simp [eval_atom] at h
  | _ => simp only [scheme_eval, h, Except.map]

theorem hashtbl_lookup_bound_other (s : String) :
    ∀ (names : List String) (vs : List Sexp) (env : hashtbl), s ∉ names →
      hashtbl_lookup
        ((names.zip vs).foldl (fun table p => hashtbl_insert table p.1 p.2) env) s =
        hashtbl_lookup env s := by
  intro names
  induction names with
  | nil => intro vs env _; rfl
  | cons name names ih =>
    intro vs env hs
    cases vs with
    | nil => rfl
    | cons v vs =>
      simp only [List.zip_cons_cons, List.foldl_cons]
      rw [ih vs _ (fun h => hs (List.mem_cons_of_mem _ h)),
        hashtbl_lookup_insert_other _ _ _ _ (fun h => hs (by rw [h]; exact List.mem_cons_self _ _))]

/-- The parameter loop on arguments that are atoms: each is looked up from the frame of
the caller in the heap of the call site, and the parameter frame receives the values in
the order of the parameters. -/
theorem bind_parameters_atoms (natives : Natives) (fuel : Nat) (heap : List activation)
    (hpo : parents_older heap) (act : Nat) (hact : act < heap.length) (parent : Option Nat)
    (index : Nat) (stack : List (Option Nat)) (g : Nat) :
    ∀ (names : List String) (xs vs : List Sexp) (env : hashtbl),
      List.Forall₂ (fun x v => eval_atom x act heap = .ok v) xs vs →
      xs.length = names.length →
      bind_parameters (scheme_eval natives (fuel + 1)) heap.length act
        (list_of (names.map Sexp.symbol)) (list_of xs)
        ⟨heap ++ [⟨parent, env⟩], index, stack, g⟩ =
        .ok ⟨heap ++ [⟨parent,
          (names.zip vs).foldl (fun table p => hashtbl_insert table p.1 p.2) env⟩],
          index, stack, g⟩ := by
  intro names
  induction names with
  | nil =>
    intro xs vs env _ hlen
    cases xs with
    | nil => simp only [List.map_nil, list_of, bind_parameters, List.zip_nil_left,
        List.foldl_nil]
    | cons x xs => simp at hlen
  | cons name names ih =>
    intro xs vs env hvals hlen
    cases hvals with
    | nil => simp at hlen
    | cons hx hrest =>
      rename_i x v xs vs
      have hev : scheme_eval natives (fuel + 1) x act
          ⟨heap ++ [⟨parent, env⟩], index, stack, g⟩ =
          .ok (v, ⟨heap ++ [⟨parent, env⟩], index, stack, g⟩) :=
        scheme_eval_atom natives fuel x act _ v
          (by rw [eval_atom_append heap hpo _ x act hact]; exact hx)
      simp only [List.map_cons, list_of, bind_parameters, sexp_extract_symbol, hev,
        add_binding_append_new, List.zip_cons_cons, List.foldl_cons]
      exact ih xs vs _ hrest (by simpa using hlen)

/-- The parameter loop meets a symbol that is unbound on the chain of the caller, after
arguments that are atoms: the call fails, whatever the parameter frame holds by then and
whatever frame the closure captured. -/
theorem bind_parameters_unbound (natives : Natives) (fuel : Nat) (heap : List activation)
    (hpo : parents_older heap) (act : Nat) (hact : act < heap.length) (parent : Option Nat)
    (index : Nat) (stack : List (Option Nat)) (g : Nat) (s : String) (post : List Sexp)
    (hs : activation_get_binding heap act s = none) :
    ∀ (pre vs : List Sexp) (names : List String) (env : hashtbl),
      List.Forall₂ (fun x v => eval_atom x act heap = .ok v) pre vs →
      (pre ++ .symbol s :: post).length = names.length →
      bind_parameters (scheme_eval natives (fuel + 1)) heap.length act
        (list_of (names.map Sexp.symbol)) (list_of (pre ++ .symbol s :: post))
        ⟨heap ++ [⟨parent, env⟩], index, stack, g⟩ =
        .error (.fatal_error ("unbound symbol: " ++ s)) := by
  intro pre
  induction pre with
  | nil =>
    intro vs names env _ hlen
    cases names with
    | nil => simp at hlen
    | cons name names =>
      simp only [List.nil_append, List.map_cons, list_of, bind_parameters,
        sexp_extract_symbol, scheme_eval_symbol, get_binding_append heap hpo _ s act hact, hs]
  | cons x pre ih =>
    intro vs names env hvals hlen
    cases names with
    | nil => simp at hlen
    | cons name names =>
      cases hvals with
      | cons hx hrest =>
        rename_i v vs
        have hev : scheme_eval natives (fuel + 1) x act
            ⟨heap ++ [⟨parent, env⟩], index, stack, g⟩ =
            .ok (v, ⟨heap ++ [⟨parent, env⟩], index, stack, g⟩) :=
          scheme_eval_atom natives fuel x act _ v
            (by rw [eval_atom_append heap hpo _ x act hact]; exact hx)
        simp only [List.cons_append, List.map_cons, list_of, bind_parameters,
          sexp_extract_symbol, hev, add_binding_append_new]
        exact ih vs names _ hrest (by simpa using hlen)

/-- A closure call whose arguments are atoms, with as many arguments as parameters: the
body is evaluated in a fresh frame whose parent is the captured frame and which binds
each parameter to the value its argument has in the frame of the caller, in the heap of
the call site. -/
theorem call_binds_arguments (natives : Natives) (fuel : Nat) (σ : Runtime)
    (act captured : Nat) (names : List String) (xs vs : List Sexp) (body : Sexp)
    (hpo : parents_older σ.heap) (hact : act < σ.heap.length)
    (hroom : σ.activation_index + 1 < MAXIMUM_CALL_DEPTH)
    (hvals : List.Forall₂ (fun x v => eval_atom x act σ.heap = .ok v) xs vs)
    (hlen : xs.length = names.length) :
    eval_call (scheme_eval natives (fuel + 1))
      (.proc names.length (list_of (names.map Sexp.symbol)) body captured) (list_of xs) act σ =
      match scheme_eval natives (fuel + 1) body σ.heap.length
          ⟨σ.heap ++ [⟨some captured,
              (names.zip vs).foldl (fun table p => hashtbl_insert table p.1 p.2) []⟩],
            σ.activation_index + 1 + 1,
            (σ.activation_stack.set σ.activation_index (some captured)).set
              (σ.activation_index + 1) (some σ.heap.length),
            σ.global_activation⟩ with
      | .error e => .error e
      | .ok (lambda_result, σ4) =>
        match stack_pop_postdecrement σ4 with
        | .error e => .error e
        | .ok σ5 =>
          match stack_pop_postdecrement σ5 with
          | .error e => .error e
          | .ok σ6 => .ok (lambda_result, σ6) := by
  rw [eval_call_frames _ _ _ _ _ _ _ _ (by rw [list_length_list_of, hlen]) hroom,
    bind_parameters_atoms natives fuel σ.heap hpo act hact _ _ _ _ names xs vs [] hvals hlen]
  try rfl

/-- A closure call one of whose arguments is a symbol unbound on the chain of the
caller, after arguments that are atoms: the call fails with the unbound-symbol error,
whatever the captured frame and the parameters bound before it hold. -/
theorem call_unbound_argument (natives : Natives) (fuel : Nat) (σ : Runtime)
    (act captured : Nat) (names : List String) (pre vs post : List Sexp) (s : String)
    (body : Sexp)
    (hpo : parents_older σ.heap) (hact : act < σ.heap.length)
    (hroom : σ.activation_index + 1 < MAXIMUM_CALL_DEPTH)
    (hvals : List.Forall₂ (fun x v => eval_atom x act σ.heap = .ok v) pre vs)
    (hlen : (pre ++ .symbol s :: post).length = names.length)
    (hs : activation_get_binding σ.heap act s = none) :
    eval_call (scheme_eval natives (fuel + 1))
      (.proc names.length (list_of (names.map Sexp.symbol)) body captured)
      (list_of (pre ++ .symbol s :: post)) act σ =
      .error (.fatal_error ("unbound symbol: " ++ s)) := by
  rw [eval_call_frames _ _ _ _ _ _ _ _ (by rw [list_length_list_of, hlen]) hroom,
    bind_parameters_unbound natives fuel σ.heap hpo act hact _ _ _ _ s post hs pre vs names []
      hvals hlen]

/-- A closure whose body is a symbol that is none of its parameters, called with atoms:
the result is what the symbol is bound to on the chain of the captured frame, and the
unbound-symbol error when that chain does not bind it; the frame of the caller is not
consulted. -/
theorem call_free_variable (natives : Natives) (fuel : Nat) (σ : Runtime)
    (act captured : Nat) (names : List String) (xs vs : List Sexp) (s : String)
    (hpo : parents_older σ.heap) (hact : act < σ.heap.length)
    (hcap : captured < σ.heap.length)
    (hroom : σ.activation_index + 2 < MAXIMUM_CALL_DEPTH)
    (hvals : List.Forall₂ (fun x v => eval_atom x act σ.heap = .ok v) xs vs)
    (hlen : xs.length = names.length) (hfree : s ∉ names) :
    (eval_call (scheme_eval natives (fuel + 1))
      (.proc names.length (list_of (names.map Sexp.symbol)) (.symbol s) captured)
      (list_of xs) act σ).map Prod.fst =
      match activation_get_binding σ.heap captured s with
      | some v => .ok v
      | none => .error (.fatal_error ("unbound symbol: " ++ s)) := by
  have hr1 : σ.activation_index + 1 < MAXIMUM_CALL_DEPTH := by omega
  have hr2 : σ.activation_index + 1 + 1 < MAXIMUM_CALL_DEPTH := by omega
  have hlook : activation_get_binding
      (σ.heap ++ [⟨some captured,
        (names.zip vs).foldl (fun table p => hashtbl_insert table p.1 p.2) []⟩])
      σ.heap.length s = activation_get_binding σ.heap captured s := by
    rw [get_binding_new_frame]
    simp only [hashtbl_lookup_bound_other s names vs [] hfree]
    have h0 : hashtbl_lookup ([] : hashtbl) s = none := rfl
    simp only [h0]
    rw [get_binding_chain_append σ.heap hpo _ s _ captured hcap]
    rfl
  rw [call_binds_arguments natives fuel σ act captured names xs vs _ hpo hact hr1 hvals hlen]
  simp only [scheme_eval_symbol, hlook]
  cases hv : activation_get_binding σ.heap captured s with
  | none => simp only [Except.map]
  | some v => simp only [stack_pop_postdecrement_mk, hr1, hr2, Except.map]

theorem hashtbl_lookup_bound (p : String) (v : Sexp) (init later : List String)
    (ivs lvs : List Sexp) (env : hashtbl) (hi : init.length = ivs.length)
    (hp : p ∉ later) :
    hashtbl_lookup
      (((init ++ p :: later).zip (ivs ++ v :: lvs)).foldl
        (fun table q => hashtbl_insert table q.1 q.2) env) p = some v := by
  rw [List.zip_append hi, List.foldl_append, List.zip_cons_cons, List.foldl_cons,
    hashtbl_lookup_bound_other p later lvs _ hp, hashtbl_lookup_insert_same]

/-- A closure whose body is one of its parameters, a name not repeated by a later
parameter, called with atoms: the result is the value the argument of that parameter has
in the frame of the caller, also when an earlier parameter or the captured frame binds
the symbol given as argument. -/
theorem call_parameter_value (natives : Natives) (fuel : Nat) (σ : Runtime)
    (act captured : Nat) (init later : List String) (p : String) (ixs ivs lxs lvs : List Sexp)
    (x v : Sexp)
    (hpo : parents_older σ.heap) (hact : act < σ.heap.length)
    (hroom : σ.activation_index + 2 < MAXIMUM_CALL_DEPTH)
    (hinit : List.Forall₂ (fun x v => eval_atom x act σ.heap = .ok v) ixs ivs)
    (hx : eval_atom x act σ.heap = .ok v)
    (hlater : List.Forall₂ (fun x v => eval_atom x act σ.heap = .ok v) lxs lvs)
    (hilen : ixs.length = init.length) (hllen : lxs.length = later.length)
    (hp : p ∉ later) :
    (eval_call (scheme_eval natives (fuel + 1))
      (.proc (init ++ p :: later).length (list_of ((init ++ p :: later).map Sexp.symbol))
        (.symbol p) captured)
      (list_of (ixs ++ x :: lxs)) act σ).map Prod.fst = .ok v := by
  have hr1 : σ.activation_index + 1 < MAXIMUM_CALL_DEPTH := by omega
  have hr2 : σ.activation_index + 1 + 1 < MAXIMUM_CALL_DEPTH := by omega
  have hvals : List.Forall₂ (fun x v => eval_atom x act σ.heap = .ok v)
      (ixs ++ x :: lxs) (ivs ++ v :: lvs) :=
    List.rel_append hinit (List.Forall₂.cons hx hlater)
  have hlen : (ixs ++ x :: lxs).length = (init ++ p :: later).length := by
    simp only [List.length_append, List.length_cons, hilen, hllen]
  have hi : init.length = ivs.length := by rw [← hilen, hinit.length_eq]
  have hlook : activation_get_binding
      (σ.heap ++ [⟨some captured,
        ((init ++ p :: later).zip (ivs ++ v :: lvs)).foldl
          (fun table q => hashtbl_insert table q.1 q.2) []⟩])
      σ.heap.length p = some v := by
    rw [get_binding_new_frame]
    simp only [hashtbl_lookup_bound p v init later ivs lvs [] hi hp]
  rw [call_binds_arguments natives fuel σ act captured _ _ _ _ hpo hact hr1 hvals hlen]
  simp only [scheme_eval_symbol, hlook, stack_pop_postdecrement_mk, hr1, hr2, Except.map]

/-- The example of a closure with a parameter that outlives the let which made it, called
from the top level and from inside a let that binds the name of its free variable. -/
theorem closure_example_with_parameter (natives : Natives) (fuel : Nat) (σ : Runtime)
    (hg : σ.global_activation < σ.heap.length)
    (hroom : σ.activation_index + 4 ≤ MAXIMUM_CALL_DEPTH) :
    ∃ σ1 : Runtime,
      scheme_global_eval natives (fuel + 3)
        (list_of [.symbol "define", .symbol "g",
          list_of [.symbol "let", list_of [list_of [.symbol "n", .number 10]],
            list_of [.symbol "lambda", list_of [.symbol "a"], .symbol "n"]]]) σ =
        .ok (.empty, σ1) ∧
      (scheme_global_eval natives (fuel + 2) (list_of [.symbol "g", .number 1]) σ1).map Prod.fst
        = .ok (.number 10) ∧
      (scheme_global_eval natives (fuel + 3)
        (list_of [.symbol "let", list_of [list_of [.symbol "n", .number 20]],
          list_of [.symbol "g", .number 1]]) σ1).map Prod.fst = .ok (.number 10) := by
  have hr0 : σ.activation_index < MAXIMUM_CALL_DEPTH := by omega
  have hr1 : σ.activation_index + 1 < MAXIMUM_CALL_DEPTH := by omega
  have hr2 : σ.activation_index + 1 + 1 < MAXIMUM_CALL_DEPTH := by omega
  have hr3 : σ.activation_index + 1 + 1 + 1 < MAXIMUM_CALL_DEPTH := by omega
  have hlet : scheme_eval natives (fuel + 2)
      (list_of [.symbol "let", list_of [list_of [.symbol "n", .number 10]],
        list_of [.symbol "lambda", list_of [.symbol "a"], .symbol "n"]]) σ.global_activation σ =
      .ok (.proc 1 (list_of [.symbol "a"]) (.symbol "n") σ.heap.length,
        ⟨σ.heap ++ [⟨some σ.global_activation, hashtbl_insert [] "n" (.number 10)⟩],
          σ.activation_index,
          (σ.activation_stack.set σ.activation_index (some σ.heap.length)).set
            σ.activation_index none,
          σ.global_activation⟩) := by
    simp only [list_of, scheme_eval_let, form_let, sexp_extract_cons,
      gc_allocate_activation, let_bindings, sexp_extract_symbol, sexp_is_empty,
      scheme_eval_self natives _ (.number 10) _ _ rfl, stack_push_ok, hr0,
      add_binding_append_new, if_true, scheme_eval_lambda, form_lambda, list_length,
      stack_pop_predecrement_mk]
  obtain ⟨hdef, _, ⟨frg, hfrg, hfrg2⟩, hlookg⟩ := define_step natives _ _ _ "g" _ _ _ hg hlet
  simp only at hdef hfrg hfrg2 hlookg
  generalize hH : activation_add_binding
    (σ.heap ++ [⟨some σ.global_activation, hashtbl_insert [] "n" (.number 10)⟩])
    σ.global_activation "g" (.proc 1 (list_of [.symbol "a"]) (.symbol "n") σ.heap.length) = H
    at hdef hfrg2 hlookg
  have hHlen : H.length = σ.heap.length + 1 := by
    rw [← hH, add_binding_length]; simp
  have hHc : H[σ.heap.length]? =
      some ⟨some σ.global_activation, hashtbl_insert [] "n" (.number 10)⟩ := by
    rw [← hH, add_binding_get_other _ _ _ _ _ (by omega)]
    simp
  have hkey : ∀ sym, Sexp.symbol "g" = .symbol sym → sym ∉ fundamental_keywords := by
    intro sym h
    cases h
    decide
  have hna : hashtbl_lookup (hashtbl_insert [] "a" (.number 1)) "n" = none := by
    simp [hashtbl_insert, hashtbl_lookup]
  refine ⟨_, hdef, ?_, ?_⟩
  · -- the call (g 1) at top level
    have hop : scheme_eval natives (fuel + 1) (.symbol "g") σ.global_activation
        ⟨H, σ.activation_index,
          (σ.activation_stack.set σ.activation_index (some σ.heap.length)).set
            σ.activation_index none, σ.global_activation⟩ =
        .ok (.proc 1 (list_of [.symbol "a"]) (.symbol "n") σ.heap.length,
          ⟨H, σ.activation_index,
            (σ.activation_stack.set σ.activation_index (some σ.heap.length)).set
              σ.activation_index none, σ.global_activation⟩) := by
      simp only [scheme_eval_symbol, hlookg]
    have hn : activation_get_binding
        (H ++ [⟨some σ.heap.length, hashtbl_insert [] "a" (.number 1)⟩]) H.length "n" =
        some (.number 10) :=
      get_binding_via_parent H _ _ σ.heap.length "n" _ hHc rfl hna
        (hashtbl_lookup_insert_same _ _ _)
    have hcall := scheme_eval_call_closure natives (fuel + 1) _ (list_of [.number 1]) _ _ _ _
      _ _ _ hkey hop
    simp only [eval_call, list_of, list_length, eval_call_body, stack_push_ok, hr0, hr1,
      gc_allocate_activation, bind_parameters, sexp_extract_symbol,
      scheme_eval_self natives fuel (.number 1) _ _ rfl, add_binding_append_new,
      scheme_eval_symbol, hn, stack_pop_postdecrement_mk, hr2, ne_eq, not_true_eq_false,
      if_false] at hcall
    simp only [scheme_global_eval, list_of, hcall, Except.map]
  · -- the call (g 1) inside a let that binds n to 20
    have hlook20 : hashtbl_lookup (hashtbl_insert [] "n" (.number 20)) "g" = none := by
      simp [hashtbl_insert, hashtbl_lookup]
    have hgl : activation_get_binding
        (H ++ [⟨some σ.global_activation, hashtbl_insert [] "n" (.number 20)⟩]) H.length "g" =
        some (.proc 1 (list_of [.symbol "a"]) (.symbol "n") σ.heap.length) :=
      get_binding_via_parent H _ _ σ.global_activation "g" _ hfrg2 rfl hlook20
        (hashtbl_lookup_insert_same _ _ _)
    have hHc2 : (H ++ [⟨some σ.global_activation, hashtbl_insert [] "n" (.number 20)⟩])[
        σ.heap.length]? =
        some ⟨some σ.global_activation, hashtbl_insert [] "n" (.number 10)⟩ := by
      rw [List.getElem?_append_left (by omega)]
      exact hHc
    have hn : activation_get_binding
        ((H ++ [⟨some σ.global_activation, hashtbl_insert [] "n" (.number 20)⟩]) ++
          [(⟨some σ.heap.length, hashtbl_insert [] "a" (.number 1)⟩ : activation)])
        (H ++ [(⟨some σ.global_activation, hashtbl_insert [] "n" (.number 20)⟩ :
          activation)]).length "n" =
        some (.number 10) :=
      get_binding_via_parent _ ⟨some σ.heap.length, hashtbl_insert [] "a" (.number 1)⟩ _
        σ.heap.length "n" _ hHc2 rfl hna (hashtbl_lookup_insert_same _ _ _)
    have hop : scheme_eval natives (fuel + 1) (.symbol "g") H.length
        ⟨H ++ [⟨some σ.global_activation, hashtbl_insert [] "n" (.number 20)⟩],
          σ.activation_index + 1,
          ((σ.activation_stack.set σ.activation_index (some σ.heap.length)).set
            σ.activation_index none).set σ.activation_index (some H.length),
          σ.global_activation⟩ =
        .ok (.proc 1 (list_of [.symbol "a"]) (.symbol "n") σ.heap.length,
          ⟨H ++ [⟨some σ.global_activation, hashtbl_insert [] "n" (.number 20)⟩],
            σ.activation_index + 1,
            ((σ.activation_stack.set σ.activation_index (some σ.heap.length)).set
              σ.activation_index none).set σ.activation_index (some H.length),
            σ.global_activation⟩) := by
      simp only [scheme_eval_symbol, hgl]
    have hcall := scheme_eval_call_closure natives (fuel + 1) _ (list_of [.number 1]) _ _ _ _
      _ _ _ hkey hop
    simp only [eval_call, list_of, list_length, eval_call_body, stack_push_ok, hr1, hr2,
      gc_allocate_activation, bind_parameters, sexp_extract_symbol,
      scheme_eval_self natives fuel (.number 1) _ _ rfl, add_binding_append_new,
      scheme_eval_symbol, hn, stack_pop_postdecrement_mk, hr3, ne_eq, not_true_eq_false,
      if_false] at hcall
    simp only [scheme_global_eval, list_of, scheme_eval_let, form_let, sexp_extract_cons,
      gc_allocate_activation, let_bindings, sexp_extract_symbol, sexp_is_empty,
      scheme_eval_self natives _ (.number 20) _ _ rfl, stack_push_ok, hr0,
      add_binding_append_new, if_true, hcall, stack_pop_predecrement_mk, Except.map]

/-! ## Lexical capture -/

theorem parents_older_inside_let : parents_older runtime_inside_let.heap := by
  intro i fr p h hp
  match i with
  | 0 =>
    simp [runtime_inside_let] at h
    subst h
    cases hp
  | 1 =>
    simp [runtime_inside_let] at h
    subst h
    simp at hp
    omega
  | i + 2 => simp [runtime_inside_let] at h

/-- C7: closure capture is lexical.  A lambda form evaluates to a closure that holds the
frame it was evaluated in.  Every call of a closure, whatever its parameters and
arguments (given the right number of arguments and two free slots on the frame stack),
evaluates the body in a fresh frame whose parent is the captured frame, and that frame
still has this parent when the parameters have been bound.  So a body that is a symbol
free in the closure (none of its parameters), in a call whose arguments are atoms,
yields what the chain of the captured frame binds the symbol to, and fails as unbound
when that chain does not bind it: the frame of the caller is never consulted.  A call
of a closure without parameters gives the same result from every caller frame.  In every
state whose global activation exists and whose frame stack has four free slots, after
the top-level (define f (let ((n 10)) (lambda () n))), both (f) and (let ((n 20)) (f))
evaluated at top level yield 10; and after (define g (let ((n 10)) (lambda (a) n))), both
(g 1) and (let ((n 20)) (g 1)) yield 10. -/
theorem closure_capture_lexical (natives : Natives) (fuel : Nat) (σ : Runtime)
    (hg : σ.global_activation < σ.heap.length)
    (hroom : σ.activation_index + 4 ≤ MAXIMUM_CALL_DEPTH) :
    (∀ (formals body : Sexp) (act : Nat) (τ : Runtime),
      scheme_eval natives (fuel + 1) (list_of [.symbol "lambda", formals, body]) act τ =
        .ok (.proc (list_length formals) formals body act, τ)) ∧
    (∀ (k n : Nat) (formals body : Sexp) (captured : Nat) (args : Sexp) (act : Nat)
        (τ : Runtime),
      list_length args = n → τ.activation_index + 1 < MAXIMUM_CALL_DEPTH →
      eval_call (scheme_eval natives k) (.proc n formals body captured) args act τ =
        (match bind_parameters (scheme_eval natives k) τ.heap.length act formals args
            ⟨τ.heap ++ [⟨some captured, []⟩], τ.activation_index + 1 + 1,
              (τ.activation_stack.set τ.activation_index (some captured)).set
                (τ.activation_index + 1) (some τ.heap.length),
              τ.global_activation⟩ with
        | .error e => .error e
        | .ok σ3 =>
          match scheme_eval natives k body τ.heap.length σ3 with
          | .error e => .error e
          | .ok (lambda_result, σ4) =>
            match stack_pop_postdecrement σ4 with
            | .error e => .error e
            | .ok σ5 =>
              match stack_pop_postdecrement σ5 with
              | .error e => .error e
              | .ok σ6 => .ok (lambda_result, σ6)) ∧
      ∀ σ3 : Runtime,
        bind_parameters (scheme_eval natives k) τ.heap.length act formals args
            ⟨τ.heap ++ [⟨some captured, []⟩], τ.activation_index + 1 + 1,
              (τ.activation_stack.set τ.activation_index (some captured)).set
                (τ.activation_index + 1) (some τ.heap.length),
              τ.global_activation⟩ = .ok σ3 →
        ∃ fr : activation, σ3.heap[τ.heap.length]? = some fr ∧ fr.parent = some captured) ∧
    (∀ (τ : Runtime) (act captured : Nat) (names : List String) (xs vs : List Sexp)
        (s : String),
      parents_older τ.heap → act < τ.heap.length → captured < τ.heap.length →
      τ.activation_index + 2 < MAXIMUM_CALL_DEPTH →
      List.Forall₂ (fun x v => eval_atom x act τ.heap = .ok v) xs vs →
      xs.length = names.length → s ∉ names →
      (eval_call (scheme_eval natives (fuel + 1))
        (.proc names.length (list_of (names.map Sexp.symbol)) (.symbol s) captured)
        (list_of xs) act τ).map Prod.fst =
        match activation_get_binding τ.heap captured s with
        | some v => .ok v
        | none => .error (.fatal_error ("unbound symbol: " ++ s))) ∧
    (∀ (ev : Evaluator) (formals body : Sexp) (captured act1 act2 : Nat) (τ : Runtime),
      eval_call ev (.proc 0 formals body captured) .empty act1 τ =
        eval_call ev (.proc 0 formals body captured) .empty act2 τ) ∧
    (∀ (ev : Evaluator) (formals body : Sexp) (captured act : Nat) (τ : Runtime),
      τ.activation_index + 1 < MAXIMUM_CALL_DEPTH →
      eval_call ev (.proc 0 formals body captured) .empty act τ =
        match ev body τ.heap.length
            ⟨τ.heap ++ [⟨some captured, []⟩], τ.activation_index + 1 + 1,
              (τ.activation_stack.set τ.activation_index (some captured)).set
                (τ.activation_index + 1) (some τ.heap.length),
              τ.global_activation⟩ with
        | .error e => .error e
        | .ok (lambda_result, σ4) =>
          match stack_pop_postdecrement σ4 with
          | .error e => .error e
          | .ok σ5 =>
            match stack_pop_postdecrement σ5 with
            | .error e => .error e
            | .ok σ6 => .ok (lambda_result, σ6)) ∧
    (∃ σ1 : Runtime,
      scheme_global_eval natives (fuel + 3)
        (list_of [.symbol "define", .symbol "f",
          list_of [.symbol "let", list_of [list_of [.symbol "n", .number 10]],
            list_of [.symbol "lambda", .empty, .symbol "n"]]]) σ = .ok (.empty, σ1) ∧
      (scheme_global_eval natives (fuel + 2) (list_of [.symbol "f"]) σ1).map Prod.fst
        = .ok (.number 10) ∧
      (scheme_global_eval natives (fuel + 3)
        (list_of [.symbol "let", list_of [list_of [.symbol "n", .number 20]],
          list_of [.symbol "f"]]) σ1).map Prod.fst = .ok (.number 10)) ∧
    ∃ σ1 : Runtime,
      scheme_global_eval natives (fuel + 3)
        (list_of [.symbol "define", .symbol "g",
          list_of [.symbol "let", list_of [list_of [.symbol "n", .number 10]],
            list_of [.symbol "lambda", list_of [.symbol "a"], .symbol "n"]]]) σ =
        .ok (.empty, σ1) ∧
      (scheme_global_eval natives (fuel + 2) (list_of [.symbol "g", .number 1]) σ1).map Prod.fst
        = .ok (.number 10) ∧
      (scheme_global_eval natives (fuel + 3)
        (list_of [.symbol "let", list_of [list_of [.symbol "n", .number 20]],
          list_of [.symbol "g", .number 1]]) σ1).map Prod.fst = .ok (.number 10) := by
  refine ⟨?_, ?_, ?_, ?_, ?_, closure_example natives fuel σ hg hroom,
    closure_example_with_parameter natives fuel σ hg hroom⟩
  · intro formals body act τ
    simp only [list_of, scheme_eval_lambda, form_lambda, sexp_extract_cons, sexp_is_empty,
      if_true]
  · intro k n formals body captured args act τ harity hτ
    refine ⟨eval_call_frames _ n formals body captured args act τ harity hτ, fun σ3 h3 => ?_⟩
    have hk := bind_parameters_keeps (scheme_eval_keeping natives k) _ _ _ _ _ _ h3
    obtain ⟨fr, hfr, hparent, _⟩ := hk.2 τ.heap.length ⟨some captured, []⟩ (by simp)
    exact ⟨fr, hfr, hparent⟩
  · intro τ act captured names xs vs s hpo hact hcap hτ hvals hlen hfree
    exact call_free_variable natives fuel τ act captured names xs vs s hpo hact hcap hτ hvals
      hlen hfree
  · intro ev formals body captured act1 act2 τ
    cases formals <;>
      simp only [eval_call, list_length, eval_call_body, gc_allocate_activation,
        bind_parameters]
  · intro ev formals body captured act τ hτ
    exact eval_call_nullary ev formals body captured act τ hτ

/-- The hypotheses of `closure_capture_lexical` hold in the initial state, where both
examples yield 10; and in a state inside a let that binds n to 20, a call of a closure
with the parameter a and the body n that captured the global frame, where n is 10,
yields 10. -/
theorem closure_capture_lexical_witness :
    initial_runtime.global_activation < initial_runtime.heap.length ∧
    initial_runtime.activation_index + 4 ≤ MAXIMUM_CALL_DEPTH ∧
    (∃ σ1 : Runtime,
      scheme_global_eval no_natives 3
        (list_of [.symbol "define", .symbol "f",
          list_of [.symbol "let", list_of [list_of [.symbol "n", .number 10]],
            list_of [.symbol "lambda", .empty, .symbol "n"]]]) initial_runtime
        = .ok (.empty, σ1) ∧
      (scheme_global_eval no_natives 2 (list_of [.symbol "f"]) σ1).map Prod.fst
        = .ok (.number 10) ∧
      (scheme_global_eval no_natives 3
        (list_of [.symbol "let", list_of [list_of [.symbol "n", .number 20]],
          list_of [.symbol "f"]]) σ1).map Prod.fst = .ok (.number 10)) ∧
    (∃ σ1 : Runtime,
      scheme_global_eval no_natives 3
        (list_of [.symbol "define", .symbol "g",
          list_of [.symbol "let", list_of [list_of [.symbol "n", .number 10]],
            list_of [.symbol "lambda", list_of [.symbol "a"], .symbol "n"]]]) initial_runtime
        = .ok (.empty, σ1) ∧
      (scheme_global_eval no_natives 2 (list_of [.symbol "g", .number 1]) σ1).map Prod.fst
        = .ok (.number 10) ∧
      (scheme_global_eval no_natives 3
        (list_of [.symbol "let", list_of [list_of [.symbol "n", .number 20]],
          list_of [.symbol "g", .number 1]]) σ1).map Prod.fst = .ok (.number 10)) ∧
    activation_get_binding runtime_inside_let.heap 1 "n" = some (.number 20) ∧
    (eval_call (scheme_eval no_natives 1)
      (.proc 1 (list_of [.symbol "a"]) (.symbol "n") 0) (list_of [.number 1]) 1
      runtime_inside_let).map Prod.fst = .ok (.number 10) :=
  have h := closure_capture_lexical no_natives 0 initial_runtime (by decide) (by decide)
  ⟨by decide, by decide, h.2.2.2.2.2.1, h.2.2.2.2.2.2, rfl,
    (h.2.2.1 runtime_inside_let 1 0 ["a"] [.number 1] [.number 1] "n"
      parents_older_inside_let (by decide) (by decide) (by decide)
      (List.Forall₂.cons rfl List.Forall₂.nil) rfl (by decide)).trans rfl⟩

/-! ## The frame in which arguments are evaluated -/

/-- C14: closure arguments are evaluated in the caller's frame.  When a combination
whose operator evaluates to a closure is evaluated in a frame, the parameter loop of the
call runs with that frame, the frame of the call site, and evaluates each argument in
it, never in the parameter frame, installing the value in the parameter frame before it
goes on.  So in a call whose arguments are atoms, each parameter is bound to the value
its argument has on the chain of the caller in the heap before the call: a body that is
a parameter yields the caller's value of its argument, also when the captured frame or a
parameter bound earlier binds the same symbol; and an argument that is a symbol unbound
on the chain of the caller ends the call in the unbound-symbol error, whatever the
captured frame and the earlier parameters bind.  In every state whose global activation
exists and whose frame stack has four free slots, after the top-level
(define f (lambda (a b) b)) the form (let ((a 7)) (f 1 a)) yields 7: b is bound to the
caller's a, not to the parameter a bound to 1 just before.  And from every frame on whose
chain a is unbound, a call of a closure with the parameters (a b) and the arguments
(1 a), as (f 1 a) is, ends in the fatal error "unbound symbol: a", whatever frame the
closure captured. -/
theorem arguments_in_caller_frame (natives : Natives) (fuel : Nat) (σ : Runtime)
    (hg : σ.global_activation < σ.heap.length)
    (hroom : σ.activation_index + 4 ≤ MAXIMUM_CALL_DEPTH) :
    (∀ (k : Nat) (op args : Sexp) (act : Nat) (σ0 τ : Runtime) (n : Nat)
        (formals body : Sexp) (captured : Nat),
      (∀ sym, op = .symbol sym → sym ∉ fundamental_keywords) →
      scheme_eval natives k op act σ0 = .ok (.proc n formals body captured, τ) →
      list_length args = n → τ.activation_index + 1 < MAXIMUM_CALL_DEPTH →
      scheme_eval natives (k + 1) (.cons op args) act σ0 =
        match bind_parameters (scheme_eval natives k) τ.heap.length act formals args
            ⟨τ.heap ++ [⟨some captured, []⟩], τ.activation_index + 1 + 1,
              (τ.activation_stack.set τ.activation_index (some captured)).set
                (τ.activation_index + 1) (some τ.heap.length),
              τ.global_activation⟩ with
        | .error e => .error e
        | .ok σ3 =>
          match scheme_eval natives k body τ.heap.length σ3 with
          | .error e => .error e
          | .ok (lambda_result, σ4) =>
            match stack_pop_postdecrement σ4 with
            | .error e => .error e
            | .ok σ5 =>
              match stack_pop_postdecrement σ5 with
              | .error e => .error e
              | .ok σ6 => .ok (lambda_result, σ6)) ∧
    (∀ (ev : Evaluator) (child_act act : Nat) (s : String) (formals a actuals : Sexp)
        (τ : Runtime),
      bind_parameters ev child_act act (.cons (.symbol s) formals) (.cons a actuals) τ =
        match ev a act τ with
        | .error err => .error err
        | .ok (value, τ1) =>
          bind_parameters ev child_act act formals actuals
            { τ1 with heap := activation_add_binding τ1.heap child_act s value }) ∧
    (∀ (τ : Runtime) (act captured : Nat) (names : List String) (xs vs : List Sexp)
        (body : Sexp),
      parents_older τ.heap → act < τ.heap.length →
      τ.activation_index + 1 < MAXIMUM_CALL_DEPTH →
      List.Forall₂ (fun x v => eval_atom x act τ.heap = .ok v) xs vs →
      xs.length = names.length →
      eval_call (scheme_eval natives (fuel + 1))
        (.proc names.length (list_of (names.map Sexp.symbol)) body captured) (list_of xs)
        act τ =
        match scheme_eval natives (fuel + 1) body τ.heap.length
            ⟨τ.heap ++ [⟨some captured,
                (names.zip vs).foldl (fun table p => hashtbl_insert table p.1 p.2) []⟩],
              τ.activation_index + 1 + 1,
              (τ.activation_stack.set τ.activation_index (some captured)).set
                (τ.activation_index + 1) (some τ.heap.length),
              τ.global_activation⟩ with
        | .error e => .error e
        | .ok (lambda_result, σ4) =>
          match stack_pop_postdecrement σ4 with
          | .error e => .error e
          | .ok σ5 =>
            match stack_pop_postdecrement σ5 with
            | .error e => .error e
            | .ok σ6 => .ok (lambda_result, σ6)) ∧
    (∀ (τ : Runtime) (act captured : Nat) (init later : List String) (p : String)
        (ixs ivs lxs lvs : List Sexp) (x v : Sexp),
      parents_older τ.heap → act < τ.heap.length →
      τ.activation_index + 2 < MAXIMUM_CALL_DEPTH →
      List.Forall₂ (fun x v => eval_atom x act τ.heap = .ok v) ixs ivs →
      eval_atom x act τ.heap = .ok v →
      List.Forall₂ (fun x v => eval_atom x act τ.heap = .ok v) lxs lvs →
      ixs.length = init.length → lxs.length = later.length → p ∉ later →
      (eval_call (scheme_eval natives (fuel + 1))
        (.proc (init ++ p :: later).length (list_of ((init ++ p :: later).map Sexp.symbol))
          (.symbol p) captured)
        (list_of (ixs ++ x :: lxs)) act τ).map Prod.fst = .ok v) ∧
    (∀ (τ : Runtime) (act captured : Nat) (names : List String) (pre vs post : List Sexp)
        (s : String) (body : Sexp),
      parents_older τ.heap → act < τ.heap.length →
      τ.activation_index + 1 < MAXIMUM_CALL_DEPTH →
      List.Forall₂ (fun x v => eval_atom x act τ.heap = .ok v) pre vs →
      (pre ++ .symbol s :: post).length = names.length →
      activation_get_binding τ.heap act s = none →
      eval_call (scheme_eval natives (fuel + 1))
        (.proc names.length (list_of (names.map Sexp.symbol)) body captured)
        (list_of (pre ++ .symbol s :: post)) act τ =
        .error (.fatal_error ("unbound symbol: " ++ s))) ∧
    (∃ σ1 : Runtime,
      scheme_global_eval natives (fuel + 2)
        (list_of [.symbol "define", .symbol "f",
          list_of [.symbol "lambda", list_of [.symbol "a", .symbol "b"], .symbol "b"]]) σ =
        .ok (.empty, σ1) ∧
      (scheme_global_eval natives (fuel + 3)
        (list_of [.symbol "let", list_of [list_of [.symbol "a", .number 7]],
          list_of [.symbol "f", .number 1, .symbol "a"]]) σ1).map Prod.fst = .ok (.number 7) ∧
      (parents_older σ.heap → activation_get_binding σ.heap σ.global_activation "a" = none →
        scheme_global_eval natives (fuel + 2) (list_of [.symbol "f", .number 1, .symbol "a"]) σ1 =
          .error (.fatal_error ("unbound symbol: " ++ "a")))) ∧
    (∀ (τ : Runtime) (act : Nat) (body : Sexp) (captured : Nat),
      parents_older τ.heap → act < τ.heap.length →
      τ.activation_index + 1 < MAXIMUM_CALL_DEPTH →
      activation_get_binding τ.heap act "a" = none →
      eval_call (scheme_eval natives (fuel + 1))
          (.proc 2 (list_of [.symbol "a", .symbol "b"]) body captured)
          (list_of [.number 1, .symbol "a"]) act τ =
          .error (.fatal_error ("unbound symbol: " ++ "a")) ∧
      (activation_get_binding τ.heap act "f" =
          some (.proc 2 (list_of [.symbol "a", .symbol "b"]) body captured) →
        scheme_eval natives (fuel + 2) (list_of [.symbol "f", .number 1, .symbol "a"]) act τ =
          .error (.fatal_error ("unbound symbol: " ++ "a")))) := by
  have hkey : ∀ sym, Sexp.symbol "f" = .symbol sym → sym ∉ fundamental_keywords := by
    intro sym h
    cases h
    decide
  have hgen : ∀ (τ : Runtime) (act : Nat) (body : Sexp) (captured : Nat),
      parents_older τ.heap → act < τ.heap.length →
      τ.activation_index + 1 < MAXIMUM_CALL_DEPTH →
      activation_get_binding τ.heap act "a" = none →
      eval_call (scheme_eval natives (fuel + 1))
          (.proc 2 (list_of [.symbol "a", .symbol "b"]) body captured)
          (list_of [.number 1, .symbol "a"]) act τ =
          .error (.fatal_error ("unbound symbol: " ++ "a")) ∧
      (activation_get_binding τ.heap act "f" =
          some (.proc 2 (list_of [.symbol "a", .symbol "b"]) body captured) →
        scheme_eval natives (fuel + 2) (list_of [.symbol "f", .number 1, .symbol "a"]) act τ =
          .error (.fatal_error ("unbound symbol: " ++ "a"))) := by
    intro τ act body captured hpo hact hr ha
    have hcall := call_argument_unbound natives fuel τ act body captured hpo hact hr ha
    refine ⟨hcall, fun hf => ?_⟩
    have hop : scheme_eval natives (fuel + 1) (.symbol "f") act τ =
        .ok (.proc 2 (list_of [.symbol "a", .symbol "b"]) body captured, τ) := by
      simp only [scheme_eval_symbol, hf]
    have h := scheme_eval_call_closure natives (fuel + 1) _
      (list_of [.number 1, .symbol "a"]) _ _ _ _ _ _ _ hkey hop
    rw [hcall] at h
    exact h
  refine ⟨?_, ?_, ?_, ?_, ?_, ?_, hgen⟩
  · intro k op args act σ0 τ n formals body captured hk hop harity hτ
    rw [scheme_eval_call_closure natives k op args act σ0 τ n formals body captured hk hop]
    exact eval_call_frames _ n formals body captured args act τ harity hτ
  · intro ev child_act act s formals a actuals τ
    cases hev : ev a act τ <;> simp [bind_parameters, sexp_extract_symbol, hev]
  · intro τ act captured names xs vs body hpo hact hτ hvals hlen
    exact call_binds_arguments natives fuel τ act captured names xs vs body hpo hact hτ hvals
      hlen
  · intro τ act captured init later p ixs ivs lxs lvs x v hpo hact hτ hinit hx hlater hilen
      hllen hp
    exact call_parameter_value natives fuel τ act captured init later p ixs ivs lxs lvs x v
      hpo hact hτ hinit hx hlater hilen hllen hp
  · intro τ act captured names pre vs post s body hpo hact hτ hvals hlen hs
    exact call_unbound_argument natives fuel τ act captured names pre vs post s body hpo hact
      hτ hvals hlen hs
  · obtain ⟨σ1, hdef, hlen, hidx, hglob, hheap, hlookf, hlet⟩ :=
      argument_example natives fuel σ hg hroom
    refine ⟨σ1, hdef, hlet, fun hpo ha => ?_⟩
    have hpo1 : parents_older σ1.heap := by
      rw [hheap]; exact parents_older_add_binding _ hpo _ _ _
    have ha1 : activation_get_binding σ1.heap σ.global_activation "a" = none := by
      rw [hheap, get_binding_add_other _ _ _ _ _ _ (by decide)]
      exact ha
    have h := (hgen σ1 σ.global_activation (.symbol "b") σ.global_activation hpo1
      (by rw [hlen]; exact hg) (by rw [hidx]; omega) ha1).2 hlookf
    unfold scheme_global_eval
    rw [hglob]
    exact h

/-- The hypotheses of `arguments_in_caller_frame` hold in the initial state, where a is
unbound at top level; and in a state inside a let that binds a to 7, over a global frame
that binds a to 5, a call of the closure with the parameters (a b) and the body b that
captured the global frame, with the arguments (1 a), yields 7. -/
theorem arguments_in_caller_frame_witness :
    initial_runtime.global_activation < initial_runtime.heap.length ∧
    initial_runtime.activation_index + 4 ≤ MAXIMUM_CALL_DEPTH ∧
    (∃ σ1 : Runtime,
      scheme_global_eval no_natives 2
        (list_of [.symbol "define", .symbol "f",
          list_of [.symbol "lambda", list_of [.symbol "a", .symbol "b"], .symbol "b"]])
        initial_runtime = .ok (.empty, σ1) ∧
      (scheme_global_eval no_natives 3
        (list_of [.symbol "let", list_of [list_of [.symbol "a", .number 7]],
          list_of [.symbol "f", .number 1, .symbol "a"]]) σ1).map Prod.fst = .ok (.number 7) ∧
      scheme_global_eval no_natives 2 (list_of [.symbol "f", .number 1, .symbol "a"]) σ1 =
        .error (.fatal_error ("unbound symbol: " ++ "a"))) ∧
    activation_get_binding runtime_inside_let.heap 0 "a" = some (.number 5) ∧
    (eval_call (scheme_eval no_natives 1)
      (.proc 2 (list_of [.symbol "a", .symbol "b"]) (.symbol "b") 0)
      (list_of [.number 1, .symbol "a"]) 1 runtime_inside_let).map Prod.fst =
      .ok (.number 7) := by
  have h := arguments_in_caller_frame no_natives 0 initial_runtime (by decide) (by decide)
  obtain ⟨σ1, h1, h2, h3⟩ := h.2.2.2.2.2.1
  exact ⟨by decide, by decide, ⟨σ1, h1, h2, h3 (parents_older_initial []) rfl⟩, rfl,
    h.2.2.2.1 runtime_inside_let 1 0 ["a"] [] "b" [.number 1] [.number 1] [] []
      (.symbol "a") (.number 7) parents_older_inside_let (by decide) (by decide)
      (List.Forall₂.cons rfl List.Forall₂.nil) rfl List.Forall₂.nil rfl rfl (by decide)⟩

/-! ## Push and pop of `let` and of closure calls -/

end Scheme
